import Mathlib

/-!
psxact DMA controller (`src/dma/dma_core.cpp`)

A shallow embedding of the DMA core of psxact and theorems about it.

* 32-bit machine words are natural numbers; every operation that can leave the
  32-bit range in the C++ code is reduced modulo `2 ^ 32` here.
* The controller state is passed explicitly.
* The bus (`bus::read`, `bus::write`, `bus::irq`) is not part of this file of
  the repository.  It is modelled as a trace of events; the value answered to a
  read is given by an environment `Env`, a function of the events so far and of
  the address read.  The bus never touches the controller state.
* `run_channel_2_list` contains an unbounded `while`; its model takes a fuel
  argument counting loop iterations and returns `none` when the fuel is
  exhausted.  All other loops are bounded by their counters.
-/

set_option autoImplicit false

/-! ## Bus -/

/-- One observable call on the bus interface. -/
inductive BusEvent where
  | read (addr val : Nat)
  | write (addr val : Nat)
  | irq (line : Nat)
  deriving DecidableEq, Repr

/-- The events issued so far, oldest first. -/
abbrev Trace := List BusEvent

/-- The environment behind the bus: the word answered to a read of an address,
given all events so far. -/
abbrev Env := Trace → Nat → Nat

/-- Modelled from the spec: `bus::read` (declared in `bus.hpp`) is the
capability `busRead(width, address) -> 32-bit value`.  The word comes from the
environment and the access is recorded. -/
def bus.read (env : Env) (t : Trace) (address : Nat) : Nat × Trace :=
  let v := env t address % 2 ^ 32
  (v, t ++ [BusEvent.read address v])

/-- Modelled from the spec: `bus::write` (declared in `bus.hpp`) is the
capability `busWrite(width, address, value)`.  The access is recorded. -/
def bus.write (t : Trace) (address data : Nat) : Trace :=
  t ++ [BusEvent.write address data]

/-- Modelled from the spec: `bus::irq` (declared in `bus.hpp`) is the
capability `raiseInterrupt(lineNumber)`.  The request is recorded. -/
def bus.irq (t : Trace) (line : Nat) : Trace :=
  t ++ [BusEvent.irq line]

/-! ## Controller state -/

/-- Modelled from the spec: one element of `dma_state_t::channels` (declared in
`dma_core.hpp`): the three 32-bit registers of a channel. -/
structure channel_t where
  address : Nat
  counter : Nat
  control : Nat
  deriving DecidableEq, Repr

/-- Modelled from the spec: `dma_state_t` (declared in `dma_core.hpp`):
`dpcr` is the priority/enable register, `dicr` the interrupt control register,
and there are seven channels. -/
structure dma_state_t where
  dpcr : Nat
  dicr : Nat
  channels : Fin 7 → channel_t

/-- The state at power-on: all fields zero. -/
def dma_state_t.reset : dma_state_t :=
  { dpcr := 0, dicr := 0, channels := fun _ => { address := 0, counter := 0, control := 0 } }

/-- Replace the registers of channel `c`. -/
def dma_state_t.set_channel (s : dma_state_t) (c : Fin 7) (v : channel_t) : dma_state_t :=
  { s with channels := Function.update s.channels c v }

/-! ## Interrupt aggregation -/

/-- The aggregate computed by `update_irq_active_flag`:
`forced || (master && signal)`. -/
def irq_active (dicr : Nat) : Bool :=
  let forced := ((dicr >>> 15) &&& 1) != 0
  let master := ((dicr >>> 23) &&& 1) != 0
  let signal := ((dicr >>> 16) &&& (dicr >>> 24) &&& 0x7f) != 0
  forced || (master && signal)

/-- `update_irq_active_flag` (lines 5-21). -/
def update_irq_active_flag (s : dma_state_t) (t : Trace) : dma_state_t × Trace :=
  if irq_active s.dicr then
    let t1 := if s.dicr &&& 0x80000000 = 0 then bus.irq t 3 else t
    ({ s with dicr := s.dicr ||| 0x80000000 }, t1)
  else
    ({ s with dicr := s.dicr &&& 0x7fffffff }, t)

/-- `get_channel_index` (lines 23-25). -/
def get_channel_index (address : Nat) : Nat :=
  (address >>> 4) &&& 7

/-- `get_register_index` (lines 27-29). -/
def get_register_index (address : Nat) : Nat :=
  (address >>> 2) &&& 3

/-- `dma::irq_channel` (lines 189-198). -/
def dma.irq_channel (s : dma_state_t) (t : Trace) (n : Nat) : dma_state_t × Trace :=
  let flag := 1 <<< (n + 24)
  let mask := 1 <<< (n + 16)
  let s1 := if s.dicr &&& mask ≠ 0 then { s with dicr := s.dicr ||| flag } else s
  update_irq_active_flag s1 t

/-! ## Transfer engine -/

/-- The inner loop of `run_channel_2_data_read` (lines 99-103), with `k`
iterations left.  Returns the advanced address and the trace. -/
def run_channel_2_data_read.inner (env : Env) : Nat → Nat → Trace → Nat × Trace
  | 0, address, t => (address, t)
  | k + 1, address, t =>
    let r := bus.read env t 0x1f801810
    let t2 := bus.write r.2 address r.1
    run_channel_2_data_read.inner env k ((address + 4) % 2 ^ 32) t2

/-- The outer loop of `run_channel_2_data_read` (lines 98-104), with `k`
blocks left. -/
def run_channel_2_data_read.outer (env : Env) (bs : Nat) : Nat → Nat → Trace → Nat × Trace
  | 0, address, t => (address, t)
  | k + 1, address, t =>
    let r := run_channel_2_data_read.inner env bs address t
    run_channel_2_data_read.outer env bs k r.1 r.2

/-- `run_channel_2_data_read` (lines 90-109). -/
def run_channel_2_data_read (env : Env) (s : dma_state_t) (t : Trace) : dma_state_t × Trace :=
  let address := (s.channels 2).address
  let bs := ((s.channels 2).counter >>> 0) &&& 0xffff
  let ba := ((s.channels 2).counter >>> 16) &&& 0xffff
  let bs := if bs ≠ 0 then bs else 0x10000
  let ba := if ba ≠ 0 then ba else 0x10000
  let r := run_channel_2_data_read.outer env bs ba address t
  let s1 := s.set_channel 2 { s.channels 2 with control := (s.channels 2).control &&& 0xfeffffff }
  dma.irq_channel s1 r.2 2

/-- The inner loop of `run_channel_2_data_write` (lines 120-124). -/
def run_channel_2_data_write.inner (env : Env) : Nat → Nat → Trace → Nat × Trace
  | 0, address, t => (address, t)
  | k + 1, address, t =>
    let r := bus.read env t address
    let t2 := bus.write r.2 0x1f801810 r.1
    run_channel_2_data_write.inner env k ((address + 4) % 2 ^ 32) t2

/-- The outer loop of `run_channel_2_data_write` (lines 119-125). -/
def run_channel_2_data_write.outer (env : Env) (bs : Nat) : Nat → Nat → Trace → Nat × Trace
  | 0, address, t => (address, t)
  | k + 1, address, t =>
    let r := run_channel_2_data_write.inner env bs address t
    run_channel_2_data_write.outer env bs k r.1 r.2

/-- `run_channel_2_data_write` (lines 111-130). -/
def run_channel_2_data_write (env : Env) (s : dma_state_t) (t : Trace) : dma_state_t × Trace :=
  let address := (s.channels 2).address
  let bs := ((s.channels 2).counter >>> 0) &&& 0xffff
  let ba := ((s.channels 2).counter >>> 16) &&& 0xffff
  let bs := if bs ≠ 0 then bs else 0x10000
  let ba := if ba ≠ 0 then ba else 0x10000
  let r := run_channel_2_data_write.outer env bs ba address t
  let s1 := s.set_channel 2 { s.channels 2 with control := (s.channels 2).control &&& 0xfeffffff }
  dma.irq_channel s1 r.2 2

/-- The `for` loop of `run_channel_2_list` (lines 141-145): forward `k` words
starting at `address` to the port. -/
def run_channel_2_list.packet (env : Env) : Nat → Nat → Trace → Nat × Trace
  | 0, address, t => (address, t)
  | k + 1, address, t =>
    let r := bus.read env t address
    let t2 := bus.write r.2 0x1f801810 r.1
    run_channel_2_list.packet env k ((address + 4) % 2 ^ 32) t2

/-- The `while` loop of `run_channel_2_list` (lines 135-148).  `fuel` bounds
the number of headers read; `none` means the fuel ran out before the loop
condition became false. -/
def run_channel_2_list.loop (env : Env) : Nat → Nat → Trace → Option Trace
  | fuel, address, t =>
    if address = 0xffffff then some t
    else
      match fuel with
      | 0 => none
      | fuel + 1 =>
        let r := bus.read env t address
        let value := r.1
        let address1 := (address + 4) % 2 ^ 32
        let count := value >>> 24
        let p := run_channel_2_list.packet env count address1 r.2
        run_channel_2_list.loop env fuel (value &&& 0xffffff) p.2

/-- `run_channel_2_list` (lines 132-153). -/
def run_channel_2_list (env : Env) (fuel : Nat) (s : dma_state_t) (t : Trace) :
    Option (dma_state_t × Trace) :=
  match run_channel_2_list.loop env fuel (s.channels 2).address t with
  | none => none
  | some t1 =>
    let s1 := s.set_channel 2 { s.channels 2 with control := (s.channels 2).control &&& 0xfeffffff }
    some (dma.irq_channel s1 t1 2)

/-- The loop of `run_channel_6` (lines 161-164), with `k` iterations left. -/
def run_channel_6.loop : Nat → Nat → Trace → Nat × Trace
  | 0, address, t => (address, t)
  | k + 1, address, t =>
    let t1 := bus.write t address ((address + 2 ^ 32 - 4) % 2 ^ 32)
    run_channel_6.loop k ((address + 2 ^ 32 - 4) % 2 ^ 32) t1

/-- `run_channel_6` (lines 155-171). -/
def run_channel_6 (s : dma_state_t) (t : Trace) : dma_state_t × Trace :=
  let address := (s.channels 6).address
  let counter := (s.channels 6).counter &&& 0xffff
  let counter := if counter ≠ 0 then counter else 0x10000
  let r := run_channel_6.loop (counter - 1) address t
  let t1 := bus.write r.2 r.1 0x00ffffff
  let s1 := s.set_channel 6 { s.channels 6 with control := (s.channels 6).control &&& 0xeeffffff }
  dma.irq_channel s1 t1 6

/-- `dma::run_channel` (lines 173-187). -/
def dma.run_channel (env : Env) (fuel : Nat) (s : dma_state_t) (t : Trace) (n : Nat) :
    Option (dma_state_t × Trace) :=
  if n = 2 ∧ (s.channels 2).control = 0x01000200 then some (run_channel_2_data_read env s t)
  else if n = 2 ∧ (s.channels 2).control = 0x01000201 then some (run_channel_2_data_write env s t)
  else if n = 2 ∧ (s.channels 2).control = 0x01000401 then run_channel_2_list env fuel s t
  else if n = 6 ∧ (s.channels 6).control = 0x11000002 then some (run_channel_6 s t)
  else some (s, t)

/-! ## Scheduler -/

/-- One line of `dma::main` (lines 81-87), with the dispatcher it calls as the
parameter `run`: the dispatcher is called for channel `n` when the enable bit
`bit` is set in `dpcr`, as read at this line. -/
def dma.main.gate {W : Type} (run : dma_state_t → W → Nat → Option (dma_state_t × W))
    (bit n : Nat) (r : dma_state_t × W) : Option (dma_state_t × W) :=
  if r.1.dpcr &&& bit ≠ 0 then run r.1 r.2 n else some r

/-- `dma::main` (lines 80-88), with the dispatcher it calls as the parameter
`run`. -/
def dma.main_with {W : Type} (run : dma_state_t → W → Nat → Option (dma_state_t × W))
    (s : dma_state_t) (w : W) : Option (dma_state_t × W) :=
  (((((((some (s, w)).bind
    (dma.main.gate run 0x08000000 6)).bind
    (dma.main.gate run 0x00800000 5)).bind
    (dma.main.gate run 0x00080000 4)).bind
    (dma.main.gate run 0x00008000 3)).bind
    (dma.main.gate run 0x00000800 2)).bind
    (dma.main.gate run 0x00000080 1)).bind
    (dma.main.gate run 0x00000008 0)

/-- `dma::main` (lines 80-88): the scheduler with the dispatcher
`dma::run_channel`. -/
def dma.main (env : Env) (fuel : Nat) (s : dma_state_t) (t : Trace) :
    Option (dma_state_t × Trace) :=
  dma.main_with (dma.run_channel env fuel) s t

/-! ## Register file -/

/-- `dma::io_read` (lines 31-50). -/
def dma.io_read (s : dma_state_t) (_width : Nat) (address : Nat) : Nat :=
  let channel := get_channel_index address
  if channel = 7 then
    match get_register_index address with
    | 0 => s.dpcr
    | 1 => s.dicr
    | 2 => 0x7ffac68b
    | 3 => 0x00fffff7
    | _ => 0
  else
    match get_register_index address with
    | 0 => (s.channels (Fin.ofNat channel)).address
    | 1 => (s.channels (Fin.ofNat channel)).counter
    | 2 => (s.channels (Fin.ofNat channel)).control
    | _ => 0

/-- The register update of `dma::io_write` (lines 53-75), before the scheduler
runs. -/
def dma.io_write.store (s : dma_state_t) (t : Trace) (address data : Nat) : dma_state_t × Trace :=
  let channel := get_channel_index address
  if channel = 7 then
    match get_register_index address with
    | 0 => ({ s with dpcr := data }, t)
    | 1 =>
      let d1 := s.dicr &&& 0xff000000
      let d2 := d1 ||| (data &&& 0x00ff803f)
      let d3 := d2 &&& (0xffffffff ^^^ (data &&& 0x7f000000))
      update_irq_active_flag { s with dicr := d3 } t
    | _ => (s, t)
  else
    let c : Fin 7 := Fin.ofNat channel
    match get_register_index address with
    | 0 => (s.set_channel c { s.channels c with address := data &&& 0x00ffffff }, t)
    | 1 => (s.set_channel c { s.channels c with counter := data &&& 0xffffffff }, t)
    | 2 => (s.set_channel c { s.channels c with control := data &&& 0x71770703 }, t)
    | _ => (s, t)

/-- `dma::io_write` (lines 52-78). -/
def dma.io_write (env : Env) (fuel : Nat) (s : dma_state_t) (t : Trace) (_width : Nat)
    (address data : Nat) : Option (dma_state_t × Trace) :=
  let r := dma.io_write.store s t address data
  dma.main env fuel r.1 r.2

/-! ## Specification-side definitions -/

/-- The aggregate in the words of the spec: force bit, or master-enable and
some channel both enabled (bits 16..22) and pending (bits 24..30). -/
def aggregate_spec (dicr : Nat) : Bool :=
  dicr.testBit 15 ||
    (dicr.testBit 23 && ((((dicr >>> 16) &&& 0x7f) &&& ((dicr >>> 24) &&& 0x7f)) != 0))

/-- The master-active bit agrees with the aggregate of the other bits. -/
def irq_inv (dicr : Nat) : Prop :=
  dicr.testBit 31 = aggregate_spec dicr

instance (dicr : Nat) : Decidable (irq_inv dicr) := by
  unfold irq_inv; infer_instance

/-- The state left by a completed transfer of channel `c` that clears the
control bits outside `keep`. -/
def transfer_done (s : dma_state_t) (c : Fin 7) (keep : Nat) (t : Trace) (n : Nat) :
    dma_state_t × Trace :=
  dma.irq_channel (s.set_channel c { s.channels c with control := (s.channels c).control &&& keep })
    t n

/-- A channel holds a control word that `dma::run_channel` recognizes. -/
def recognized (s : dma_state_t) (n : Nat) : Prop :=
  (n = 2 ∧ ((s.channels 2).control = 0x01000200 ∨ (s.channels 2).control = 0x01000201 ∨
      (s.channels 2).control = 0x01000401)) ∨
    (n = 6 ∧ (s.channels 6).control = 0x11000002)

instance (s : dma_state_t) (n : Nat) : Decidable (recognized s n) := by
  unfold recognized; infer_instance

/-- A state with the given global registers and channels 2 and 6; the other
channels are zero. -/
def example_state (dpcr dicr : Nat) (c2 c6 : channel_t) : dma_state_t :=
  { dpcr := dpcr, dicr := dicr,
    channels := fun c => if c = 2 then c2 else if c = 6 then c6 else ⟨0, 0, 0⟩ }

/-- No enabled channel holds a recognized start pattern. -/
def quiescent (s : dma_state_t) : Prop :=
  ¬ (s.dpcr.testBit 27 = true ∧ recognized s 6) ∧ ¬ (s.dpcr.testBit 11 = true ∧ recognized s 2)

instance (s : dma_state_t) : Decidable (quiescent s) := by
  unfold quiescent; infer_instance

/-- The value stored by a write of `data` to the interrupt control register,
before the aggregator runs (lines 59-61). -/
def dicr_written (dicr data : Nat) : Nat :=
  ((dicr &&& 0xff000000) ||| (data &&& 0x00ff803f)) &&& (0xffffffff ^^^ (data &&& 0x7f000000))

/-- States reachable from reset by register writes that return. -/
inductive Reachable : dma_state_t → Prop where
  | reset : Reachable dma_state_t.reset
  | write (env : Env) (fuel : Nat) (s : dma_state_t) (t : Trace) (width address data : Nat)
      (r : dma_state_t × Trace) :
      Reachable s → dma.io_write env fuel s t width address data = some r → Reachable r.1

/-- The block size encoded in a counter register: the low 16 bits, zero
meaning 0x10000. -/
def block_size (counter : Nat) : Nat :=
  if counter % 0x10000 = 0 then 0x10000 else counter % 0x10000

/-- The block count encoded in a counter register: the high 16 bits, zero
meaning 0x10000. -/
def block_count (counter : Nat) : Nat :=
  if counter / 0x10000 % 0x10000 = 0 then 0x10000 else counter / 0x10000 % 0x10000

/-- The spec's description of a device-to-memory transfer of `k` words to
`A`, after the events `t`: the `i`-th word read from the port 0x1f801810 is
written to `A + 4 * i` (32-bit), in port-read order. -/
def block_read_spec (env : Env) (t : Trace) (A : Nat) : Nat → Trace
  | 0 => []
  | i + 1 =>
    let done := block_read_spec env t A i
    let w := env (t ++ done) 0x1f801810 % 2 ^ 32
    done ++ [BusEvent.read 0x1f801810 w, BusEvent.write ((A + 4 * i) % 2 ^ 32) w]

/-- An environment whose answers are all different: the word read is 0xA0 plus
the number of events so far. -/
def counting_env : Env := fun t _ => 0xA0 + t.length

/-- The difference `a - d` in 32-bit arithmetic. -/
def sub32 (a d : Nat) : Nat :=
  (((a : Int) - (d : Int)) % 4294967296).toNat

/-- The entry count encoded in channel 6's counter register: the low 16 bits,
zero meaning 0x10000. -/
def table_count (counter : Nat) : Nat :=
  if counter % 0x10000 = 0 then 0x10000 else counter % 0x10000

/-- The first `k` link writes of an ordering table built down from `A`: entry
`i`, at `A - 4 * i`, points to `A - 4 * (i + 1)`. -/
def table_links (A : Nat) : Nat → Trace
  | 0 => []
  | i + 1 => table_links A i ++ [BusEvent.write (sub32 A (4 * i)) (sub32 A (4 * (i + 1)))]

/-- The spec's description of the ordering-table build of `n` entries from
`A`: `n - 1` links, then the terminator 0x00ffffff in the last entry. -/
def table_spec (A n : Nat) : Trace :=
  table_links A (n - 1) ++ [BusEvent.write (sub32 A (4 * (n - 1))) 0x00ffffff]

/-- The words of the packet whose header is at `a` in the memory `m`: the
`header >> 24` words stored at `a + 4`, `a + 8`, ... -/
def packet_payload (m : Nat → Nat) (a : Nat) : List Nat :=
  (List.range (m a >>> 24)).map fun j => m (a + 4 + 4 * j)

/-- `Chain m a hs`: following the low-24-bit next pointers of the headers in
`m` from the address `a` visits the headers at `hs`, in this order, the last of
which points to the sentinel 0xffffff (`hs` is empty when `a` is the sentinel
itself). -/
inductive Chain (m : Nat → Nat) : Nat → List Nat → Prop where
  | done : Chain m 0xffffff []
  | next (a : Nat) (hs : List Nat) :
      a ≠ 0xffffff → Chain m (m a % 0x1000000) hs → Chain m a (a :: hs)

/-- The words written to the port 0x1f801810 in a trace, in order. -/
def port_writes (t : Trace) : List Nat :=
  t.filterMap fun e => match e with
    | BusEvent.write a v => if a = 0x1f801810 then some v else none
    | _ => none

/-- An event that leaves memory as it is: anything but a write to an address
other than the port. -/
def keeps_memory : BusEvent → Bool
  | BusEvent.write a _ => decide (a = 0x1f801810)
  | _ => true

/-- The environment answers every read of an address other than the port from
the memory `m`, as long as nothing but the port has been written since `t`. -/
def reads_memory (env : Env) (t : Trace) (m : Nat → Nat) : Prop :=
  ∀ (ext : Trace) (a : Nat), ext.all keeps_memory = true → a ≠ 0x1f801810 →
    env (t ++ ext) a % 2 ^ 32 = m a

/-- The events of forwarding `k` words from the cursor `c`. -/
def packet_events (m : Nat → Nat) : Nat → Nat → Trace
  | 0, _ => []
  | k + 1, c =>
    BusEvent.read c (m c) :: BusEvent.write 0x1f801810 (m c) :: packet_events m k (c + 4)

/-- The events of a whole linked-list transfer over the headers `hs`. -/
def chain_events (m : Nat → Nat) : List Nat → Trace
  | [] => []
  | a :: hs =>
    BusEvent.read a (m a) :: (packet_events m (m a >>> 24) (a + 4) ++ chain_events m hs)

/-- A memory holding a chain of two packets: the header at 0x100 has two
payload words and points to 0x200, whose header has one payload word and points
to the sentinel. -/
def example_memory : Nat → Nat := fun a =>
  if a = 0x100 then 0x02000200
  else if a = 0x104 then 0x11
  else if a = 0x108 then 0x22
  else if a = 0x200 then 0x01ffffff
  else if a = 0x204 then 0x33
  else 0

/-- The scheduler in the words of the spec: for the channels 6, 5, ..., 0 in
this order, the dispatcher of channel `n` is invoked exactly when the enable
bit `4 * n + 3` of the priority register, as it was on entry, is set. -/
def main_spec (env : Env) (fuel : Nat) (s : dma_state_t) (t : Trace) :
    Option (dma_state_t × Trace) :=
  [6, 5, 4, 3, 2, 1, 0].foldl
    (fun acc n => acc.bind fun r =>
      if s.dpcr.testBit (4 * n + 3) = true then dma.run_channel env fuel r.1 r.2 n else some r)
    (some (s, t))

/-- The spec's description of a memory-to-device transfer of `k` words from
`A`, after the events `t`: for `i = 0, 1, ...` the word read at `A + 4 * i`
(32-bit) is written to the port 0x1f801810. -/
def block_write_spec (env : Env) (t : Trace) (A : Nat) : Nat → Trace
  | 0 => []
  | i + 1 =>
    let done := block_write_spec env t A i
    let w := env (t ++ done) ((A + 4 * i) % 2 ^ 32) % 2 ^ 32
    done ++ [BusEvent.read ((A + 4 * i) % 2 ^ 32) w, BusEvent.write 0x1f801810 w]

/-- A memory whose only header, at 0x100, has count 0 and points to itself. -/
def loop_memory : Nat → Nat := fun a => if a = 0x100 then 0x00000100 else 0

/-- The number of interrupt requests in a trace. -/
def irq_count (t : Trace) : Nat :=
  (t.filter fun e => match e with
    | BusEvent.irq _ => true
    | _ => false).length

/-- The trace `t2` is `t` followed by bus reads and writes only. -/
def extends_quietly (t t2 : Trace) : Prop :=
  ∃ ext, t2 = t ++ ext ∧ irq_count ext = 0

/-- Since the trace `t0` at most one interrupt has been requested, and if one
has, the master-active bit is set and the aggregate is true. -/
def at_most_one_irq (t0 : Trace) (r : dma_state_t × Trace) : Prop :=
  ∃ ext, r.2 = t0 ++ ext ∧
    (irq_count ext = 0 ∨
      (irq_count ext = 1 ∧ r.1.dicr.testBit 31 = true ∧ irq_active r.1.dicr = true))

/-- A flat word-addressed memory behind the bus: a read of `a` is answered
with the last word written to `a`, or with the initial content `m0 a` when `a`
has not been written. -/
def flat_env (m0 : Nat → Nat) : Env := fun t a =>
  t.foldl (fun v e => match e with
    | BusEvent.write b w => if b = a then w else v
    | _ => v) (m0 a)

/-- The addresses `B`, `B - 4`, ..., `k` of them. -/
def down_chain : Nat → Nat → List Nat
  | 0, _ => []
  | k + 1, B => B :: down_chain k (B - 4)

/-- The scheduler in the words of the spec, for any dispatcher `run`: for the
channels 6, 5, ..., 0 in this order, `run` is invoked for channel `n` exactly
when the enable bit `4 * n + 3` of the priority register is set. -/
def main_spec_with {W : Type} (run : dma_state_t → W → Nat → Option (dma_state_t × W))
    (s : dma_state_t) (w : W) : Option (dma_state_t × W) :=
  [6, 5, 4, 3, 2, 1, 0].foldl
    (fun acc n => acc.bind fun r =>
      if r.1.dpcr.testBit (4 * n + 3) = true then run r.1 r.2 n else some r)
    (some (s, w))

/-- A dispatcher that does nothing but record the channel it was invoked
for. -/
def record_call (s : dma_state_t) (calls : List Nat) (n : Nat) :
    Option (dma_state_t × List Nat) :=
  some (s, calls ++ [n])

/-- The result of a sequence of register writes `(address, data)` from reset,
on a bus that answers every read with 0. -/
def run_writes (ws : List (Nat × Nat)) : Option (dma_state_t × Trace) :=
  ws.foldl (fun acc w => acc.bind fun r => dma.io_write (fun _ _ => 0) 0 r.1 r.2 4 w.1 w.2)
    (some (dma_state_t.reset, []))

/-- The state reached from reset by the register writes `ws` (the reset state
if one of them does not return). -/
def reached (ws : List (Nat × Nat)) : dma_state_t :=
  ((run_writes ws).getD (dma_state_t.reset, [])).1

/-! # Theorems -/

/-! ## Bit-level lemmas -/

theorem testBit_one_eq (i : Nat) : Nat.testBit 1 i = decide (i = 0) := by
  have h := @Nat.testBit_two_pow_sub_one 1 i
  simpa using h

theorem testBit_of_lt_32 {c : Nat} (hc : c < 2 ^ 32) {i : Nat} (hi : 32 ≤ i) :
    c.testBit i = false :=
  Nat.testBit_lt_two_pow (lt_of_lt_of_le hc (Nat.pow_le_pow_right (by decide) hi))

theorem testBit_0x7f (i : Nat) : Nat.testBit 0x7f i = decide (i < 7) := by
  have h := @Nat.testBit_two_pow_sub_one 7 i
  simpa using h

theorem testBit_0x80000000 (i : Nat) : Nat.testBit 0x80000000 i = decide (i = 31) := by
  have h := @Nat.testBit_two_pow 31 i
  rw [show (2 : Nat) ^ 31 = 0x80000000 by norm_num] at h
  rw [h]
  by_cases hi : i = 31 <;> simp [hi, eq_comm]

theorem testBit_0x7fffffff (i : Nat) : Nat.testBit 0x7fffffff i = decide (i < 31) := by
  have h := @Nat.testBit_two_pow_sub_one 31 i
  simpa using h

theorem testBit_0xffffffff (i : Nat) : Nat.testBit 0xffffffff i = decide (i < 32) := by
  have h := @Nat.testBit_two_pow_sub_one 32 i
  simpa using h

theorem testBit_0xff000000 (i : Nat) :
    Nat.testBit 0xff000000 i = decide (24 ≤ i ∧ i < 32) := by
  by_cases hi : i < 32
  · interval_cases i <;> rfl
  · rw [testBit_of_lt_32 (by norm_num) (by omega)]
    simp [hi]

theorem testBit_0x7f000000 (i : Nat) :
    Nat.testBit 0x7f000000 i = decide (24 ≤ i ∧ i < 31) := by
  by_cases hi : i < 32
  · interval_cases i <;> rfl
  · rw [testBit_of_lt_32 (by norm_num) (by omega)]
    simp; omega

theorem testBit_0x00ff803f (i : Nat) :
    Nat.testBit 0x00ff803f i = decide (i < 6 ∨ (15 ≤ i ∧ i < 24)) := by
  by_cases hi : i < 32
  · interval_cases i <;> rfl
  · rw [testBit_of_lt_32 (by norm_num) (by omega)]
    simp; omega

theorem and_one_ne_zero (d k : Nat) : (((d >>> k) &&& 1) != 0) = d.testBit k := by
  simp [Nat.testBit, Nat.and_comm]

/-- The signalling test of `update_irq_active_flag` at bit level. -/
theorem signal_iff (d : Nat) :
    ((d >>> 16) &&& (d >>> 24) &&& 0x7f) ≠ 0 ↔
      ∃ i, i < 7 ∧ d.testBit (16 + i) = true ∧ d.testBit (24 + i) = true := by
  constructor
  · intro h
    obtain ⟨i, hi⟩ := Nat.ne_zero_implies_bit_true h
    simp only [Nat.testBit_and, Nat.testBit_shiftRight, testBit_0x7f, Bool.and_eq_true,
      decide_eq_true_eq] at hi
    exact ⟨i, hi.2, hi.1.1, hi.1.2⟩
  · rintro ⟨i, hi, h1, h2⟩ h0
    have : ((d >>> 16) &&& (d >>> 24) &&& 0x7f).testBit i = true := by
      simp only [Nat.testBit_and, Nat.testBit_shiftRight, testBit_0x7f, Bool.and_eq_true,
        decide_eq_true_eq]
      exact ⟨⟨h1, h2⟩, hi⟩
    rw [h0] at this
    simp at this

/-- The aggregate only depends on bits 15..30. -/
theorem irq_active_congr {d e : Nat}
    (h : ∀ i, 15 ≤ i → i ≤ 30 → d.testBit i = e.testBit i) : irq_active d = irq_active e := by
  have hs : (((d >>> 16) &&& (d >>> 24) &&& 0x7f) ≠ 0) ↔
      (((e >>> 16) &&& (e >>> 24) &&& 0x7f) ≠ 0) := by
    rw [signal_iff, signal_iff]
    constructor
    · rintro ⟨i, hi, h1, h2⟩
      exact ⟨i, hi, by rw [← h _ (by omega) (by omega)]; exact h1,
        by rw [← h _ (by omega) (by omega)]; exact h2⟩
    · rintro ⟨i, hi, h1, h2⟩
      exact ⟨i, hi, by rw [h _ (by omega) (by omega)]; exact h1,
        by rw [h _ (by omega) (by omega)]; exact h2⟩
  have hs2 : (((d >>> 16) &&& (d >>> 24) &&& 0x7f) != 0) =
      (((e >>> 16) &&& (e >>> 24) &&& 0x7f) != 0) := by
    rw [Bool.eq_iff_iff]
    simpa using hs
  unfold irq_active
  simp only [and_one_ne_zero, hs2, h 15 (by omega) (by omega), h 23 (by omega) (by omega)]

/-- The code's aggregate is the spec's aggregate. -/
theorem irq_active_eq_spec (d : Nat) : irq_active d = aggregate_spec d := by
  have hs : ((d >>> 16) &&& (d >>> 24) &&& 0x7f) =
      (((d >>> 16) &&& 0x7f) &&& ((d >>> 24) &&& 0x7f)) := by
    apply Nat.eq_of_testBit_eq
    intro i
    simp only [Nat.testBit_and, Nat.testBit_shiftRight, testBit_0x7f]
    cases d.testBit (16 + i) <;> cases d.testBit (24 + i) <;> simp
  unfold irq_active aggregate_spec
  simp only [and_one_ne_zero, hs]

theorem and_0x80000000_eq_zero (d : Nat) : d &&& 0x80000000 = 0 ↔ d.testBit 31 = false := by
  constructor
  · intro h
    have : (d &&& 0x80000000).testBit 31 = false := by rw [h]; simp
    simpa [testBit_0x80000000] using this
  · intro h
    apply Nat.eq_of_testBit_eq
    intro i
    simp only [Nat.testBit_and, testBit_0x80000000, Nat.zero_testBit]
    by_cases hi : i = 31
    · subst hi; simp [h]
    · simp [hi]

/-! ## The interrupt aggregator -/

theorem update_irq_dpcr (s : dma_state_t) (t : Trace) :
    (update_irq_active_flag s t).1.dpcr = s.dpcr := by
  unfold update_irq_active_flag
  split <;> rfl

theorem update_irq_channels (s : dma_state_t) (t : Trace) :
    (update_irq_active_flag s t).1.channels = s.channels := by
  unfold update_irq_active_flag
  split <;> rfl

theorem update_irq_trace (s : dma_state_t) (t : Trace) :
    (update_irq_active_flag s t).2 =
      if irq_active s.dicr = true ∧ s.dicr.testBit 31 = false then t ++ [BusEvent.irq 3]
      else t := by
  unfold update_irq_active_flag
  by_cases ha : irq_active s.dicr = true
  · by_cases hb : s.dicr.testBit 31 = false
    · simp [ha, hb, (and_0x80000000_eq_zero s.dicr).2 hb, bus.irq]
    · have hb2 : ¬ (s.dicr &&& 0x80000000 = 0) := fun h => hb ((and_0x80000000_eq_zero _).1 h)
      simp [ha, hb, hb2]
  · simp [ha]

/-- Bits below 31 are not touched by the aggregator. -/
theorem update_irq_low_bits (s : dma_state_t) (t : Trace) (i : Nat) (hi : i < 31) :
    (update_irq_active_flag s t).1.dicr.testBit i = s.dicr.testBit i := by
  unfold update_irq_active_flag
  split
  · simp [testBit_0x80000000]; omega
  · simp [testBit_0x7fffffff, hi]

/-- Bit 31 after the aggregator is the aggregate. -/
theorem update_irq_bit31 (s : dma_state_t) (t : Trace) :
    (update_irq_active_flag s t).1.dicr.testBit 31 = irq_active s.dicr := by
  unfold update_irq_active_flag
  by_cases ha : irq_active s.dicr = true
  · simp [ha, testBit_0x80000000]
  · simp [ha, testBit_0x7fffffff]

theorem update_irq_active (s : dma_state_t) (t : Trace) :
    irq_active (update_irq_active_flag s t).1.dicr = irq_active s.dicr :=
  irq_active_congr fun i _ h30 => update_irq_low_bits s t i (by omega)

theorem update_irq_inv (s : dma_state_t) (t : Trace) :
    irq_inv (update_irq_active_flag s t).1.dicr := by
  unfold irq_inv
  rw [update_irq_bit31, ← irq_active_eq_spec, update_irq_active]

theorem irq_channel_dpcr (s : dma_state_t) (t : Trace) (n : Nat) :
    (dma.irq_channel s t n).1.dpcr = s.dpcr := by
  unfold dma.irq_channel
  simp only [update_irq_dpcr]
  split <;> rfl

theorem irq_channel_channels (s : dma_state_t) (t : Trace) (n : Nat) :
    (dma.irq_channel s t n).1.channels = s.channels := by
  unfold dma.irq_channel
  simp only [update_irq_channels]
  split <;> rfl

theorem irq_channel_inv (s : dma_state_t) (t : Trace) (n : Nat) :
    irq_inv (dma.irq_channel s t n).1.dicr := by
  unfold dma.irq_channel
  exact update_irq_inv _ _

/-- C5 (edge-triggered interrupt line): `update_irq_active_flag` appends exactly
one request for line 3 to the trace when the aggregate (force bit, or
master-enable and some enabled channel pending) is true and bit 31 was clear on
entry, and leaves the trace as it is in every other case; running it again on
the state it produced raises nothing, whatever the trace. -/
theorem update_irq_active_flag_edge (s : dma_state_t) (t : Trace) :
    (update_irq_active_flag s t).2 =
        (if aggregate_spec s.dicr = true ∧ s.dicr.testBit 31 = false
          then t ++ [BusEvent.irq 3] else t) ∧
      ∀ t2 : Trace, (update_irq_active_flag (update_irq_active_flag s t).1 t2).2 = t2 := by
  refine ⟨?_, ?_⟩
  · rw [update_irq_trace, irq_active_eq_spec]
  · intro t2
    rw [update_irq_trace, update_irq_bit31, update_irq_active]
    by_cases ha : irq_active s.dicr = true <;> simp [ha]

/-! ## Shape of a dispatch -/

theorem run_channel_of_not_recognized (env : Env) (fuel : Nat) (s : dma_state_t) (t : Trace)
    (n : Nat) (h : ¬ recognized s n) : dma.run_channel env fuel s t n = some (s, t) := by
  unfold recognized at h
  unfold dma.run_channel
  have h1 : ¬ (n = 2 ∧ (s.channels 2).control = 0x01000200) := fun hh => h (Or.inl ⟨hh.1, Or.inl hh.2⟩)
  have h2 : ¬ (n = 2 ∧ (s.channels 2).control = 0x01000201) :=
    fun hh => h (Or.inl ⟨hh.1, Or.inr (Or.inl hh.2)⟩)
  have h3 : ¬ (n = 2 ∧ (s.channels 2).control = 0x01000401) :=
    fun hh => h (Or.inl ⟨hh.1, Or.inr (Or.inr hh.2)⟩)
  have h4 : ¬ (n = 6 ∧ (s.channels 6).control = 0x11000002) := fun hh => h (Or.inr hh)
  rw [if_neg h1, if_neg h2, if_neg h3, if_neg h4]

/-- Every result of a dispatch is either the untouched input or the completion
of a channel-2 or channel-6 transfer. -/
theorem run_channel_cases (env : Env) (fuel : Nat) (s : dma_state_t) (t : Trace) (n : Nat)
    (r : dma_state_t × Trace) (h : dma.run_channel env fuel s t n = some r) :
    (¬ recognized s n ∧ r = (s, t)) ∨
      (n = 2 ∧ recognized s 2 ∧ ∃ t1, r = transfer_done s 2 0xfeffffff t1 2) ∨
      (n = 6 ∧ recognized s 6 ∧ ∃ t1, r = transfer_done s 6 0xeeffffff t1 6) := by
  by_cases hr : recognized s n
  · right
    unfold dma.run_channel at h
    rcases hr with ⟨hn, hc⟩ | ⟨hn, hc⟩
    · left
      subst hn
      refine ⟨rfl, Or.inl ⟨rfl, hc⟩, ?_⟩
      by_cases c1 : (s.channels 2).control = 0x01000200
      · simp only [c1, and_self, if_true, Option.some.injEq] at h
        exact ⟨_, h.symm⟩
      by_cases c2 : (s.channels 2).control = 0x01000201
      · simp only [c2, true_and, if_true, Option.some.injEq] at h
        norm_num at h
        exact ⟨_, h.symm⟩
      have c3 : (s.channels 2).control = 0x01000401 := by
        rcases hc with hc | hc | hc
        · exact absurd hc c1
        · exact absurd hc c2
        · exact hc
      simp only [c3, true_and, if_true] at h
      norm_num at h
      unfold run_channel_2_list at h
      split at h
      · exact absurd h (by simp)
      · rename_i t1 _
        simp only [Option.some.injEq] at h
        exact ⟨t1, h.symm⟩
    · right
      subst hn
      refine ⟨rfl, Or.inr ⟨rfl, hc⟩, ?_⟩
      simp only [hc, and_true] at h
      norm_num at h
      exact ⟨_, h.symm⟩
  · left
    rw [run_channel_of_not_recognized env fuel s t n hr] at h
    exact ⟨hr, (Option.some.inj h).symm⟩

theorem transfer_done_dpcr (s : dma_state_t) (c : Fin 7) (keep : Nat) (t : Trace) (n : Nat) :
    (transfer_done s c keep t n).1.dpcr = s.dpcr := by
  unfold transfer_done
  rw [irq_channel_dpcr]
  rfl

theorem transfer_done_channels (s : dma_state_t) (c : Fin 7) (keep : Nat) (t : Trace) (n : Nat) :
    (transfer_done s c keep t n).1.channels =
      Function.update s.channels c
        { s.channels c with control := (s.channels c).control &&& keep } := by
  unfold transfer_done
  rw [irq_channel_channels]
  rfl

theorem transfer_done_inv (s : dma_state_t) (c : Fin 7) (keep : Nat) (t : Trace) (n : Nat) :
    irq_inv (transfer_done s c keep t n).1.dicr :=
  irq_channel_inv _ _ _

theorem transfer_done_address (s : dma_state_t) (c : Fin 7) (keep : Nat) (t : Trace) (n : Nat)
    (d : Fin 7) :
    ((transfer_done s c keep t n).1.channels d).address = (s.channels d).address := by
  rw [transfer_done_channels]
  by_cases h : d = c
  · subst h; simp
  · simp [Function.update_noteq h]

theorem transfer_done_counter (s : dma_state_t) (c : Fin 7) (keep : Nat) (t : Trace) (n : Nat)
    (d : Fin 7) :
    ((transfer_done s c keep t n).1.channels d).counter = (s.channels d).counter := by
  rw [transfer_done_channels]
  by_cases h : d = c
  · subst h; simp
  · simp [Function.update_noteq h]

theorem transfer_done_control_self (s : dma_state_t) (c : Fin 7) (keep : Nat) (t : Trace)
    (n : Nat) :
    ((transfer_done s c keep t n).1.channels c).control = (s.channels c).control &&& keep := by
  rw [transfer_done_channels]
  simp

theorem transfer_done_control_other (s : dma_state_t) (c : Fin 7) (keep : Nat) (t : Trace)
    (n : Nat) (d : Fin 7) (h : d ≠ c) :
    ((transfer_done s c keep t n).1.channels d).control = (s.channels d).control := by
  rw [transfer_done_channels]
  simp [Function.update_noteq h]

/-- A dispatch never changes the priority register. -/
theorem run_channel_dpcr (env : Env) (fuel : Nat) (s : dma_state_t) (t : Trace) (n : Nat)
    (r : dma_state_t × Trace) (h : dma.run_channel env fuel s t n = some r) :
    r.1.dpcr = s.dpcr := by
  rcases run_channel_cases env fuel s t n r h with ⟨_, rfl⟩ | ⟨_, _, t1, rfl⟩ | ⟨_, _, t1, rfl⟩
  · rfl
  · exact transfer_done_dpcr _ _ _ _ _
  · exact transfer_done_dpcr _ _ _ _ _

/-- A dispatch never changes an address register. -/
theorem run_channel_address (env : Env) (fuel : Nat) (s : dma_state_t) (t : Trace) (n : Nat)
    (r : dma_state_t × Trace) (h : dma.run_channel env fuel s t n = some r) (d : Fin 7) :
    (r.1.channels d).address = (s.channels d).address := by
  rcases run_channel_cases env fuel s t n r h with ⟨_, rfl⟩ | ⟨_, _, t1, rfl⟩ | ⟨_, _, t1, rfl⟩
  · rfl
  · exact transfer_done_address _ _ _ _ _ _
  · exact transfer_done_address _ _ _ _ _ _

/-- A dispatch never changes a counter register. -/
theorem run_channel_counter (env : Env) (fuel : Nat) (s : dma_state_t) (t : Trace) (n : Nat)
    (r : dma_state_t × Trace) (h : dma.run_channel env fuel s t n = some r) (d : Fin 7) :
    (r.1.channels d).counter = (s.channels d).counter := by
  rcases run_channel_cases env fuel s t n r h with ⟨_, rfl⟩ | ⟨_, _, t1, rfl⟩ | ⟨_, _, t1, rfl⟩
  · rfl
  · exact transfer_done_counter _ _ _ _ _ _
  · exact transfer_done_counter _ _ _ _ _ _

/-- A dispatch of channel `n` leaves the control word of every other channel. -/
theorem run_channel_control_other (env : Env) (fuel : Nat) (s : dma_state_t) (t : Trace)
    (n : Nat) (r : dma_state_t × Trace) (h : dma.run_channel env fuel s t n = some r)
    (d : Fin 7) (hd : d.val ≠ n) : (r.1.channels d).control = (s.channels d).control := by
  rcases run_channel_cases env fuel s t n r h with ⟨_, rfl⟩ | ⟨hn, _, t1, rfl⟩ | ⟨hn, _, t1, rfl⟩
  · rfl
  · exact transfer_done_control_other _ _ _ _ _ _ (by rintro rfl; exact hd hn.symm)
  · exact transfer_done_control_other _ _ _ _ _ _ (by rintro rfl; exact hd hn.symm)

/-- A dispatch keeps the interrupt invariant. -/
theorem run_channel_inv (env : Env) (fuel : Nat) (s : dma_state_t) (t : Trace) (n : Nat)
    (r : dma_state_t × Trace) (h : dma.run_channel env fuel s t n = some r)
    (hs : irq_inv s.dicr) : irq_inv r.1.dicr := by
  rcases run_channel_cases env fuel s t n r h with ⟨_, rfl⟩ | ⟨_, _, t1, rfl⟩ | ⟨_, _, t1, rfl⟩
  · exact hs
  · exact transfer_done_inv _ _ _ _ _
  · exact transfer_done_inv _ _ _ _ _

/-! ## The scheduler -/

theorem gate_induct (P : dma_state_t × Trace → Prop) (env : Env) (fuel : Nat)
    (hP : ∀ s t n r, P (s, t) → dma.run_channel env fuel s t n = some r → P r)
    (bit n : Nat) (r r2 : dma_state_t × Trace) (h0 : P r)
    (h : dma.main.gate (dma.run_channel env fuel) bit n r = some r2) : P r2 := by
  unfold dma.main.gate at h
  split at h
  · exact hP r.1 r.2 n r2 h0 h
  · cases h; exact h0

/-- Whatever every dispatch preserves, the scheduler preserves. -/
theorem main_induct (P : dma_state_t × Trace → Prop) (env : Env) (fuel : Nat)
    (hP : ∀ s t n r, P (s, t) → dma.run_channel env fuel s t n = some r → P r)
    (s : dma_state_t) (t : Trace) (r : dma_state_t × Trace) (h0 : P (s, t))
    (h : dma.main env fuel s t = some r) : P r := by
  unfold dma.main dma.main_with at h
  simp only [Option.bind_eq_some] at h
  obtain ⟨r1, ⟨r2, ⟨r3, ⟨r4, ⟨r5, ⟨r6, ⟨r7, h7, g6⟩, g5⟩, g4⟩, g3⟩, g2⟩, g1⟩, g0⟩ := h
  cases h7
  have p6 := gate_induct P env fuel hP _ _ _ _ h0 g6
  have p5 := gate_induct P env fuel hP _ _ _ _ p6 g5
  have p4 := gate_induct P env fuel hP _ _ _ _ p5 g4
  have p3 := gate_induct P env fuel hP _ _ _ _ p4 g3
  have p2 := gate_induct P env fuel hP _ _ _ _ p3 g2
  have p1 := gate_induct P env fuel hP _ _ _ _ p2 g1
  exact gate_induct P env fuel hP _ _ _ _ p1 g0

theorem gate_of_not_recognized (env : Env) (fuel : Nat) (bit n : Nat)
    (r : dma_state_t × Trace) (h : ¬ recognized r.1 n) :
    dma.main.gate (dma.run_channel env fuel) bit n r = some r := by
  unfold dma.main.gate
  split
  · rw [run_channel_of_not_recognized env fuel r.1 r.2 n h]
  · rfl

theorem not_recognized_of_ne (s : dma_state_t) (n : Nat) (h2 : n ≠ 2) (h6 : n ≠ 6) :
    ¬ recognized s n := by
  rintro (⟨h, _⟩ | ⟨h, _⟩)
  · exact h2 h
  · exact h6 h

/-- The scheduler only ever dispatches channels 6 and 2, in that order. -/
theorem main_eq (env : Env) (fuel : Nat) (s : dma_state_t) (t : Trace) :
    dma.main env fuel s t =
      (dma.main.gate (dma.run_channel env fuel) 0x08000000 6 (s, t)).bind
        (dma.main.gate (dma.run_channel env fuel) 0x00000800 2) := by
  unfold dma.main dma.main_with
  simp only [Option.some_bind]
  cases h6 : dma.main.gate (dma.run_channel env fuel) 0x08000000 6 (s, t) with
  | none => rfl
  | some r6 =>
    simp only [Option.some_bind]
    rw [gate_of_not_recognized env fuel _ 5 r6 (not_recognized_of_ne _ _ (by decide) (by decide))]
    simp only [Option.some_bind]
    rw [gate_of_not_recognized env fuel _ 4 r6 (not_recognized_of_ne _ _ (by decide) (by decide))]
    simp only [Option.some_bind]
    rw [gate_of_not_recognized env fuel _ 3 r6 (not_recognized_of_ne _ _ (by decide) (by decide))]
    simp only [Option.some_bind]
    cases h2 : dma.main.gate (dma.run_channel env fuel) 0x00000800 2 r6 with
    | none => rfl
    | some r2 =>
      simp only [Option.some_bind]
      rw [gate_of_not_recognized env fuel _ 1 r2 (not_recognized_of_ne _ _ (by decide) (by decide))]
      simp only [Option.some_bind]
      rw [gate_of_not_recognized env fuel _ 0 r2 (not_recognized_of_ne _ _ (by decide) (by decide))]

theorem and_two_pow_ne_zero (d k : Nat) : d &&& 2 ^ k ≠ 0 ↔ d.testBit k = true := by
  constructor
  · intro h
    obtain ⟨i, hi⟩ := Nat.ne_zero_implies_bit_true h
    simp only [Nat.testBit_and, Nat.testBit_two_pow, Bool.and_eq_true, decide_eq_true_eq] at hi
    rw [hi.2]
    exact hi.1
  · intro h h0
    have : (d &&& 2 ^ k).testBit k = true := by
      simp [Nat.testBit_and, Nat.testBit_two_pow, h]
    rw [h0] at this
    simp at this

/-- C10 (unrecognized dispatch is a no-op): if `n` is neither 2 nor 6, or `n = 2`
and channel 2's control word is none of 0x01000200, 0x01000201, 0x01000401, or
`n = 6` and channel 6's control word is not 0x11000002, then `run_channel(n)`
returns with the controller state and the trace (bus reads, bus writes and
interrupt requests) exactly as they were. -/
theorem run_channel_unrecognized_noop (env : Env) (fuel : Nat) (s : dma_state_t) (t : Trace)
    (n : Nat)
    (h : (n ≠ 2 ∧ n ≠ 6) ∨
      (n = 2 ∧ (s.channels 2).control ≠ 0x01000200 ∧ (s.channels 2).control ≠ 0x01000201 ∧
        (s.channels 2).control ≠ 0x01000401) ∨
      (n = 6 ∧ (s.channels 6).control ≠ 0x11000002)) :
    dma.run_channel env fuel s t n = some (s, t) := by
  apply run_channel_of_not_recognized
  rintro (⟨hn, hc⟩ | ⟨hn, hc⟩)
  · rcases h with ⟨h2, _⟩ | ⟨_, a, b, c⟩ | ⟨h6, _⟩
    · exact h2 hn
    · rcases hc with hc | hc | hc
      · exact a hc
      · exact b hc
      · exact c hc
    · omega
  · rcases h with ⟨_, h6⟩ | ⟨h2, _⟩ | ⟨_, a⟩
    · exact h6 hn
    · omega
    · exact a hc

/-- C10 at a concrete input: channel 2 holds channel 6's pattern and channel 6
holds a channel-2 pattern, both enabled; neither dispatch does anything. -/
theorem run_channel_unrecognized_noop_witness :
    dma.run_channel (fun _ _ => 7) 3
        (example_state 0x08000800 0 ⟨0x100, 0x00010001, 0x11000002⟩ ⟨0x200, 1, 0x01000200⟩) [] 2 =
      some (example_state 0x08000800 0 ⟨0x100, 0x00010001, 0x11000002⟩ ⟨0x200, 1, 0x01000200⟩, [])
    ∧ dma.run_channel (fun _ _ => 7) 3
        (example_state 0x08000800 0 ⟨0x100, 0x00010001, 0x11000002⟩ ⟨0x200, 1, 0x01000200⟩) [] 6 =
      some (example_state 0x08000800 0 ⟨0x100, 0x00010001, 0x11000002⟩ ⟨0x200, 1, 0x01000200⟩, []) :=
  ⟨run_channel_unrecognized_noop _ _ _ _ 2 (Or.inr (Or.inl (by decide))),
   run_channel_unrecognized_noop _ _ _ _ 6 (Or.inr (Or.inr (by decide)))⟩

/-- C6 (scheduler priority order): when the enable bits of channel 6 (bit 27)
and channel 2 (bit 11) are set in `dpcr` and both channels hold a recognized
start pattern, `dma::main` is the channel-6 transfer, run to completion,
followed by the dispatch of channel 2 on the state and trace that channel 6
left; channel 2 still holds its start pattern at that point. -/
theorem main_priority_order (env : Env) (fuel : Nat) (s : dma_state_t) (t : Trace)
    (h27 : s.dpcr.testBit 27 = true) (h11 : s.dpcr.testBit 11 = true)
    (h6 : (s.channels 6).control = 0x11000002)
    (h2 : (s.channels 2).control = 0x01000200 ∨ (s.channels 2).control = 0x01000201 ∨
      (s.channels 2).control = 0x01000401) :
    dma.run_channel env fuel s t 6 = some (run_channel_6 s t) ∧
      recognized (run_channel_6 s t).1 2 ∧
      dma.main env fuel s t =
        (dma.run_channel env fuel s t 6).bind
          (fun r => dma.run_channel env fuel r.1 r.2 2) := by
  have e6 : dma.run_channel env fuel s t 6 = some (run_channel_6 s t) := by
    unfold dma.run_channel
    simp [h6]
  have b27 : s.dpcr &&& 0x08000000 ≠ 0 := by
    have := (and_two_pow_ne_zero s.dpcr 27).2 h27
    norm_num at this
    exact this
  have b11 : s.dpcr &&& 0x00000800 ≠ 0 := by
    have := (and_two_pow_ne_zero s.dpcr 11).2 h11
    norm_num at this
    exact this
  refine ⟨e6, ?_, ?_⟩
  · refine Or.inl ⟨rfl, ?_⟩
    rw [run_channel_control_other env fuel s t 6 _ e6 2 (by decide)]
    exact h2
  · rw [main_eq]
    have g6 : dma.main.gate (dma.run_channel env fuel) 0x08000000 6 (s, t) = dma.run_channel env fuel s t 6 := by
      unfold dma.main.gate
      rw [if_pos b27]
    rw [g6, e6]
    simp only [Option.some_bind]
    unfold dma.main.gate
    rw [run_channel_dpcr env fuel s t 6 _ e6, if_pos b11]

/-- C6 at a concrete input: channel 6 builds a two-entry table and channel 2
then reads one word from the port. -/
theorem main_priority_order_witness :
    dma.run_channel (fun _ _ => 7) 3
        (example_state 0x08000800 0 ⟨0x100, 0x00010001, 0x01000200⟩ ⟨0x200, 2, 0x11000002⟩) [] 6 =
        some (run_channel_6
          (example_state 0x08000800 0 ⟨0x100, 0x00010001, 0x01000200⟩ ⟨0x200, 2, 0x11000002⟩) []) ∧
      recognized (run_channel_6
          (example_state 0x08000800 0 ⟨0x100, 0x00010001, 0x01000200⟩ ⟨0x200, 2, 0x11000002⟩)
          []).1 2 ∧
      dma.main (fun _ _ => 7) 3
          (example_state 0x08000800 0 ⟨0x100, 0x00010001, 0x01000200⟩ ⟨0x200, 2, 0x11000002⟩) [] =
        (dma.run_channel (fun _ _ => 7) 3
          (example_state 0x08000800 0 ⟨0x100, 0x00010001, 0x01000200⟩ ⟨0x200, 2, 0x11000002⟩)
          [] 6).bind
          (fun r => dma.run_channel (fun _ _ => 7) 3 r.1 r.2 2) :=
  main_priority_order _ _ _ _ (by decide) (by decide) (by decide) (by decide)

/-! ## Register writes -/

theorem fin_ofNat_val (c : Fin 7) : (Fin.ofNat c.val : Fin 7) = c := by
  apply Fin.ext
  simp [Fin.ofNat, Nat.mod_eq_of_lt c.isLt]

theorem store_channel (s : dma_state_t) (t : Trace) (address data : Nat) (c : Fin 7)
    (hc : get_channel_index address = c.val) :
    dma.io_write.store s t address data =
      match get_register_index address with
      | 0 => (s.set_channel c { s.channels c with address := data &&& 0x00ffffff }, t)
      | 1 => (s.set_channel c { s.channels c with counter := data &&& 0xffffffff }, t)
      | 2 => (s.set_channel c { s.channels c with control := data &&& 0x71770703 }, t)
      | _ => (s, t) := by
  unfold dma.io_write.store
  have h7 : ¬ (c.val = 7) := by have := c.isLt; omega
  simp only [hc, h7, if_false, fin_ofNat_val]

theorem store_dpcr_of_channel (s : dma_state_t) (t : Trace) (address data : Nat) (c : Fin 7)
    (hc : get_channel_index address = c.val) :
    (dma.io_write.store s t address data).1.dpcr = s.dpcr := by
  rw [store_channel s t address data c hc]
  split <;> rfl

theorem store_trace_of_channel (s : dma_state_t) (t : Trace) (address data : Nat) (c : Fin 7)
    (hc : get_channel_index address = c.val) :
    (dma.io_write.store s t address data).2 = t := by
  rw [store_channel s t address data c hc]
  split <;> rfl

theorem gate_dpcr (env : Env) (fuel bit n : Nat) (r r2 : dma_state_t × Trace)
    (h : dma.main.gate (dma.run_channel env fuel) bit n r = some r2) : r2.1.dpcr = r.1.dpcr := by
  unfold dma.main.gate at h
  split at h
  · exact run_channel_dpcr env fuel r.1 r.2 n r2 h
  · cases h; rfl

theorem gate_control_other (env : Env) (fuel bit n : Nat) (r r2 : dma_state_t × Trace)
    (h : dma.main.gate (dma.run_channel env fuel) bit n r = some r2) (d : Fin 7) (hd : d.val ≠ n) :
    (r2.1.channels d).control = (r.1.channels d).control := by
  unfold dma.main.gate at h
  split at h
  · exact run_channel_control_other env fuel r.1 r.2 n r2 h d hd
  · cases h; rfl

/-- What the gate of channel 6 does to channel 6's control word. -/
theorem gate_control_6 (env : Env) (fuel bit : Nat) (r r2 : dma_state_t × Trace)
    (h : dma.main.gate (dma.run_channel env fuel) bit 6 r = some r2) :
    (r2.1.channels 6).control =
      if r.1.dpcr &&& bit ≠ 0 ∧ (r.1.channels 6).control = 0x11000002 then 0x00000002
      else (r.1.channels 6).control := by
  unfold dma.main.gate at h
  by_cases hb : r.1.dpcr &&& bit ≠ 0
  · rw [if_pos hb] at h
    rcases run_channel_cases env fuel r.1 r.2 6 r2 h with ⟨hn, rfl⟩ | ⟨h26, _⟩ | ⟨_, hr, t1, rfl⟩
    · have : ¬ (r.1.channels 6).control = 0x11000002 := fun hh => hn (Or.inr ⟨rfl, hh⟩)
      simp [this]
    · omega
    · have hc : (r.1.channels 6).control = 0x11000002 := by
        rcases hr with ⟨h62, _⟩ | ⟨_, hh⟩
        · omega
        · exact hh
      rw [transfer_done_control_self, if_pos ⟨hb, hc⟩, hc]
      rfl
  · rw [if_neg hb] at h
    cases h
    simp [hb]

/-- What the gate of channel 2 does to channel 2's control word. -/
theorem gate_control_2 (env : Env) (fuel bit : Nat) (r r2 : dma_state_t × Trace)
    (h : dma.main.gate (dma.run_channel env fuel) bit 2 r = some r2) :
    (r2.1.channels 2).control =
      if r.1.dpcr &&& bit ≠ 0 ∧ ((r.1.channels 2).control = 0x01000200 ∨
          (r.1.channels 2).control = 0x01000201 ∨ (r.1.channels 2).control = 0x01000401)
      then (r.1.channels 2).control &&& 0xfeffffff
      else (r.1.channels 2).control := by
  unfold dma.main.gate at h
  by_cases hb : r.1.dpcr &&& bit ≠ 0
  · rw [if_pos hb] at h
    rcases run_channel_cases env fuel r.1 r.2 2 r2 h with ⟨hn, rfl⟩ | ⟨_, hr, t1, rfl⟩ | ⟨h26, _⟩
    · have : ¬ ((r.1.channels 2).control = 0x01000200 ∨
          (r.1.channels 2).control = 0x01000201 ∨ (r.1.channels 2).control = 0x01000401) :=
        fun hh => hn (Or.inl ⟨rfl, hh⟩)
      rw [if_neg (fun hh => this hh.2)]
    · have hc : (r.1.channels 2).control = 0x01000200 ∨
          (r.1.channels 2).control = 0x01000201 ∨ (r.1.channels 2).control = 0x01000401 := by
        rcases hr with ⟨_, hh⟩ | ⟨h62, _⟩
        · exact hh
        · omega
      rw [transfer_done_control_self, if_pos ⟨hb, hc⟩]
    · omega
  · rw [if_neg hb] at h
    cases h
    rw [if_neg (fun hh => hb hh.1)]

theorem enable_bit_6 (d : Nat) : d &&& 0x08000000 ≠ 0 ↔ d.testBit 27 = true :=
  and_two_pow_ne_zero d 27

theorem enable_bit_2 (d : Nat) : d &&& 0x00000800 ≠ 0 ↔ d.testBit 11 = true :=
  and_two_pow_ne_zero d 11

theorem io_write_eq (env : Env) (fuel : Nat) (s : dma_state_t) (t : Trace) (width : Nat)
    (address data : Nat) :
    dma.io_write env fuel s t width address data =
      dma.main env fuel (dma.io_write.store s t address data).1
        (dma.io_write.store s t address data).2 := rfl

/-- On a quiescent state the scheduler does nothing. -/
theorem main_of_quiescent (env : Env) (fuel : Nat) (s : dma_state_t) (t : Trace)
    (h : quiescent s) : dma.main env fuel s t = some (s, t) := by
  have g6 : dma.main.gate (dma.run_channel env fuel) 0x08000000 6 (s, t) = some (s, t) := by
    unfold dma.main.gate
    split
    · rename_i hb
      exact run_channel_of_not_recognized env fuel s t 6
        (fun hr => h.1 ⟨(enable_bit_6 _).1 hb, hr⟩)
    · rfl
  have g2 : dma.main.gate (dma.run_channel env fuel) 0x00000800 2 (s, t) = some (s, t) := by
    unfold dma.main.gate
    split
    · rename_i hb
      exact run_channel_of_not_recognized env fuel s t 2
        (fun hr => h.2 ⟨(enable_bit_2 _).1 hb, hr⟩)
    · rfl
  rw [main_eq, g6, Option.some_bind, g2]

/-- C8 (address-register masking and read-back): after an `io_write` of `v` to
the address register (register 0) of a channel `c` in 0..6 has returned,
whatever transfers the scheduler ran, `io_read` of that register returns
`v AND 0x00ffffff`, which has no bit set in its top byte. -/
theorem io_write_address_readback (env : Env) (fuel : Nat) (s : dma_state_t) (t : Trace)
    (width width2 address v : Nat) (c : Fin 7) (r : dma_state_t × Trace)
    (hc : get_channel_index address = c.val) (hr : get_register_index address = 0)
    (h : dma.io_write env fuel s t width address v = some r) :
    dma.io_read r.1 width2 address = v &&& 0x00ffffff ∧
      dma.io_read r.1 width2 address &&& 0xff000000 = 0 := by
  have h7 : ¬ (c.val = 7) := by have := c.isLt; omega
  have e1 : dma.io_read r.1 width2 address = (r.1.channels c).address := by
    unfold dma.io_read
    simp only [hc, h7, if_false, hr, fin_ofNat_val]
  have e2 : (r.1.channels c).address = v &&& 0x00ffffff := by
    rw [io_write_eq] at h
    refine main_induct (fun q => (q.1.channels c).address = v &&& 0x00ffffff) env fuel ?_ _ _ r ?_ h
    · intro s0 t0 n q hq hrun
      show (q.1.channels c).address = _
      rw [run_channel_address env fuel s0 t0 n q hrun c]
      exact hq
    · show ((dma.io_write.store s t address v).1.channels c).address = _
      rw [store_channel s t address v c hc, hr]
      simp [dma_state_t.set_channel]
  rw [e1, e2]
  refine ⟨rfl, ?_⟩
  apply Nat.eq_of_testBit_eq
  intro i
  simp only [Nat.testBit_and, testBit_0xff000000, Nat.zero_testBit]
  have := @Nat.testBit_two_pow_sub_one 24 i
  norm_num at this
  rw [this]
  by_cases h1 : i < 24
  · have : ¬ (24 ≤ i ∧ i < 32) := by omega
    simp [this]
  · simp [h1]

/-- C8 at a concrete input: 0xff123456 written to the address register of
channel 2 (at 0x1f8010a0) of the reset state reads back as 0x00123456. -/
theorem io_write_address_readback_witness :
    dma.io_write (fun _ _ => 0) 0 dma_state_t.reset [] 4 0x1f8010a0 0xff123456 =
        some (dma.io_write.store dma_state_t.reset [] 0x1f8010a0 0xff123456) ∧
      dma.io_read (dma.io_write.store dma_state_t.reset [] 0x1f8010a0 0xff123456).1 4
        0x1f8010a0 = 0xff123456 &&& 0x00ffffff ∧
      dma.io_read (dma.io_write.store dma_state_t.reset [] 0x1f8010a0 0xff123456).1 4
        0x1f8010a0 &&& 0xff000000 = 0 :=
  ⟨main_of_quiescent _ _ _ _ (by decide),
   io_write_address_readback (fun _ _ => 0) 0 dma_state_t.reset [] 4 4 0x1f8010a0 0xff123456 2
    (dma.io_write.store dma_state_t.reset [] 0x1f8010a0 0xff123456) (by decide) (by decide)
    (main_of_quiescent _ _ _ _ (by decide))⟩

/-- C7, as stated, fails: from reset, enable channel 6 and then write
0x11000002 to channel 6's control register.  The second write returns, and the
control register then holds 0x00000002, not `0x11000002 AND 0x71770703`. -/
theorem io_write_control_counterexample :
    ((dma.io_write (fun _ _ => 0) 0 dma_state_t.reset [] 4 0x1f8010f0 0x08000000).bind
        (fun r => dma.io_write (fun _ _ => 0) 0 r.1 r.2 4 0x1f8010e8 0x11000002)).map
        (fun r => ((r.1.channels 6).control,
          decide ((r.1.channels 6).control = 0x11000002 &&& 0x71770703))) =
      some (0x00000002, false) := by
  decide

/-- C7, amended (control-register masking): after an `io_write` of `v` to the
control register (register 2) of a channel `c` in 0..6 has returned, the
register holds `v AND 0x71770703`, unless that value is a recognized start
pattern of channel `c` and the channel's enable bit is set in `dpcr`: then the
scheduler has run the transfer and the register holds the pattern with the busy
bits cleared (0x00000002 for channel 6; the pattern without bit 24 for channel
2). -/
theorem io_write_control_masked (env : Env) (fuel : Nat) (s : dma_state_t) (t : Trace)
    (width address v : Nat) (c : Fin 7) (r : dma_state_t × Trace)
    (hc : get_channel_index address = c.val) (hr : get_register_index address = 2)
    (h : dma.io_write env fuel s t width address v = some r) :
    (r.1.channels c).control =
      if c = 6 ∧ s.dpcr.testBit 27 = true ∧ v &&& 0x71770703 = 0x11000002 then 0x00000002
      else if c = 2 ∧ s.dpcr.testBit 11 = true ∧
          (v &&& 0x71770703 = 0x01000200 ∨ v &&& 0x71770703 = 0x01000201 ∨
            v &&& 0x71770703 = 0x01000401)
        then (v &&& 0x71770703) &&& 0xfeffffff
      else v &&& 0x71770703 := by
  rw [io_write_eq, main_eq] at h
  obtain ⟨r6, g6, g2⟩ := Option.bind_eq_some.1 h
  have hd : (dma.io_write.store s t address v).1.dpcr = s.dpcr :=
    store_dpcr_of_channel s t address v c hc
  have hctl : ((dma.io_write.store s t address v).1.channels c).control = v &&& 0x71770703 := by
    rw [store_channel s t address v c hc, hr]
    simp [dma_state_t.set_channel]
  have hd6 : r6.1.dpcr = s.dpcr := by
    rw [gate_dpcr env fuel _ _ _ _ g6]
    exact hd
  by_cases c6 : c = 6
  · subst c6
    rw [gate_control_other env fuel _ _ _ _ g2 6 (by decide), gate_control_6 env fuel _ _ _ g6]
    show (if (dma.io_write.store s t address v).1.dpcr &&& 0x08000000 ≠ 0 ∧
      ((dma.io_write.store s t address v).1.channels 6).control = 0x11000002 then 0x00000002
      else ((dma.io_write.store s t address v).1.channels 6).control) = _
    rw [hd, hctl]
    have : ¬ ((6 : Fin 7) = 2) := by decide
    simp only [enable_bit_6, this, false_and, if_false, true_and]
  · by_cases c2 : c = 2
    · subst c2
      have e2 := gate_control_2 env fuel _ _ _ g2
      rw [gate_control_other env fuel _ _ _ _ g6 2 (by decide), hd6] at e2
      change (r.1.channels 2).control = (if s.dpcr &&& 0x00000800 ≠ 0 ∧
        (((dma.io_write.store s t address v).1.channels 2).control = 0x01000200 ∨
          ((dma.io_write.store s t address v).1.channels 2).control = 0x01000201 ∨
          ((dma.io_write.store s t address v).1.channels 2).control = 0x01000401) then
        ((dma.io_write.store s t address v).1.channels 2).control &&& 0xfeffffff
        else ((dma.io_write.store s t address v).1.channels 2).control) at e2
      rw [hctl] at e2
      rw [e2]
      have : ¬ ((2 : Fin 7) = 6) := by decide
      simp only [enable_bit_2, this, false_and, if_false, true_and]
    · have n6 : c.val ≠ 6 := fun hh => c6 (Fin.ext hh)
      have n2 : c.val ≠ 2 := fun hh => c2 (Fin.ext hh)
      rw [gate_control_other env fuel _ _ _ _ g2 c n2,
        gate_control_other env fuel _ _ _ _ g6 c n6]
      show ((dma.io_write.store s t address v).1.channels c).control = _
      rw [hctl]
      simp only [c6, c2, false_and, if_false]

/-- C7 amended, at a concrete input: with channel 6 enabled, writing 0x11000002
to its control register (at 0x1f8010e8) returns with 0x00000002 in it. -/
theorem io_write_control_masked_witness :
    dma.io_write (fun _ _ => 0) 0
        (example_state 0x08000000 0 ⟨0, 0, 0⟩ ⟨0x1000, 4, 0⟩) [] 4 0x1f8010e8 0x11000002 =
      some ((dma.io_write (fun _ _ => 0) 0
        (example_state 0x08000000 0 ⟨0, 0, 0⟩ ⟨0x1000, 4, 0⟩) [] 4 0x1f8010e8 0x11000002).get
          (by decide)) ∧
    ((((dma.io_write (fun _ _ => 0) 0
        (example_state 0x08000000 0 ⟨0, 0, 0⟩ ⟨0x1000, 4, 0⟩) [] 4 0x1f8010e8 0x11000002).get
          (by decide)).1.channels 6).control =
      if (6 : Fin 7) = 6 ∧
          (example_state 0x08000000 0 ⟨0, 0, 0⟩ ⟨0x1000, 4, 0⟩).dpcr.testBit 27 = true ∧
          0x11000002 &&& 0x71770703 = 0x11000002 then 0x00000002
      else if (6 : Fin 7) = 2 ∧
          (example_state 0x08000000 0 ⟨0, 0, 0⟩ ⟨0x1000, 4, 0⟩).dpcr.testBit 11 = true ∧
          (0x11000002 &&& 0x71770703 = 0x01000200 ∨ 0x11000002 &&& 0x71770703 = 0x01000201 ∨
            0x11000002 &&& 0x71770703 = 0x01000401)
        then (0x11000002 &&& 0x71770703) &&& 0xfeffffff
      else 0x11000002 &&& 0x71770703) :=
  ⟨(Option.some_get _).symm,
   io_write_control_masked (fun _ _ => 0) 0 (example_state 0x08000000 0 ⟨0, 0, 0⟩ ⟨0x1000, 4, 0⟩)
    [] 4 0x1f8010e8 0x11000002 6 _ (by decide) (by decide) (Option.some_get _).symm⟩

/-! ## The interrupt control register -/

theorem store_dicr (s : dma_state_t) (t : Trace) (address data : Nat)
    (hc : get_channel_index address = 7) (hr : get_register_index address = 1) :
    dma.io_write.store s t address data =
      update_irq_active_flag { s with dicr := dicr_written s.dicr data } t := by
  unfold dma.io_write.store
  simp only [hc, hr, if_true]
  rfl

/-- The register update of `io_write` keeps the interrupt invariant. -/
theorem store_inv (s : dma_state_t) (t : Trace) (address data : Nat) (h : irq_inv s.dicr) :
    irq_inv (dma.io_write.store s t address data).1.dicr := by
  unfold dma.io_write.store
  by_cases h7 : get_channel_index address = 7
  · simp only [h7, if_true]
    split
    · exact h
    · exact update_irq_inv _ _
    · exact h
  · simp only [h7, if_false]
    split <;> exact h

theorem main_inv (env : Env) (fuel : Nat) (s : dma_state_t) (t : Trace)
    (r : dma_state_t × Trace) (hs : irq_inv s.dicr) (h : dma.main env fuel s t = some r) :
    irq_inv r.1.dicr :=
  main_induct (fun q => irq_inv q.1.dicr) env fuel
    (fun s0 t0 n q hq hrun => run_channel_inv env fuel s0 t0 n q hrun hq) s t r hs h

theorem io_write_inv (env : Env) (fuel : Nat) (s : dma_state_t) (t : Trace)
    (width address data : Nat) (r : dma_state_t × Trace) (hs : irq_inv s.dicr)
    (h : dma.io_write env fuel s t width address data = some r) : irq_inv r.1.dicr :=
  main_inv env fuel _ _ r (store_inv s t address data hs) h

theorem dicr_written_congr (dicr data data2 : Nat)
    (h : ∀ i, i ≠ 31 → data.testBit i = data2.testBit i) :
    dicr_written dicr data = dicr_written dicr data2 := by
  unfold dicr_written
  apply Nat.eq_of_testBit_eq
  intro i
  simp only [Nat.testBit_and, Nat.testBit_or, Nat.testBit_xor, testBit_0xff000000,
    testBit_0x00ff803f, testBit_0xffffffff, testBit_0x7f000000]
  by_cases hi : i = 31
  · subst hi
    simp
  · rw [h i hi]

/-- C9 (the master-active bit is computed, never written): the predicate
"bit 31 of `dicr` equals bit 15 OR (bit 23 AND ((bits 16..22 AND bits 24..30)
!= 0))" holds in the reset state; it is preserved by `io_write` to any address
with any data, by `dma::main` and by `run_channel`, and it holds after
`irq_channel`; so it holds in every state reachable from reset; and two values
written to the interrupt control register that differ only in bit 31 give the
same result. -/
theorem master_active_computed :
    irq_inv dma_state_t.reset.dicr ∧
    (∀ (env : Env) (fuel : Nat) (s : dma_state_t) (t : Trace) (width address data : Nat)
      (r : dma_state_t × Trace), irq_inv s.dicr →
      dma.io_write env fuel s t width address data = some r → irq_inv r.1.dicr) ∧
    (∀ (env : Env) (fuel : Nat) (s : dma_state_t) (t : Trace) (r : dma_state_t × Trace),
      irq_inv s.dicr → dma.main env fuel s t = some r → irq_inv r.1.dicr) ∧
    (∀ (env : Env) (fuel : Nat) (s : dma_state_t) (t : Trace) (n : Nat)
      (r : dma_state_t × Trace), irq_inv s.dicr →
      dma.run_channel env fuel s t n = some r → irq_inv r.1.dicr) ∧
    (∀ (s : dma_state_t) (t : Trace) (n : Nat), irq_inv (dma.irq_channel s t n).1.dicr) ∧
    (∀ s : dma_state_t, Reachable s → irq_inv s.dicr) ∧
    (∀ (env : Env) (fuel : Nat) (s : dma_state_t) (t : Trace) (width address data data2 : Nat),
      get_channel_index address = 7 → get_register_index address = 1 →
      (∀ i, i ≠ 31 → data.testBit i = data2.testBit i) →
      dma.io_write env fuel s t width address data =
        dma.io_write env fuel s t width address data2) := by
  refine ⟨by decide, ?_, ?_, ?_, ?_, ?_, ?_⟩
  · intro env fuel s t width address data r hs h
    exact io_write_inv env fuel s t width address data r hs h
  · intro env fuel s t r hs h
    exact main_inv env fuel s t r hs h
  · intro env fuel s t n r hs h
    exact run_channel_inv env fuel s t n r h hs
  · intro s t n
    exact irq_channel_inv s t n
  · intro s hs
    induction hs with
    | reset => decide
    | write env fuel s t width address data r _ h ih =>
      exact io_write_inv env fuel s t width address data r ih h
  · intro env fuel s t width address data data2 hc hr hd
    rw [io_write_eq, io_write_eq, store_dicr s t address data hc hr,
      store_dicr s t address data2 hc hr, dicr_written_congr s.dicr data data2 hd]

/-- C9 at a concrete input: from reset, 0x80808000 (force bit, master enable
and bit 31) is written to the interrupt control register at 0x1f8010f4; the
write returns and the invariant holds in the state it leaves. -/
theorem master_active_computed_witness :
    dma.io_write (fun _ _ => 0) 0 dma_state_t.reset [] 4 0x1f8010f4 0x80808000 =
      some (dma.io_write.store dma_state_t.reset [] 0x1f8010f4 0x80808000) ∧
    irq_inv (dma.io_write.store dma_state_t.reset [] 0x1f8010f4 0x80808000).1.dicr :=
  ⟨main_of_quiescent _ _ _ _ (by decide),
   master_active_computed.2.1 (fun _ _ => 0) 0 dma_state_t.reset [] 4 0x1f8010f4 0x80808000 _
    (by decide) (main_of_quiescent _ _ _ _ (by decide))⟩

/-- The scheduler leaves no enabled channel with a recognized start pattern. -/
theorem main_quiescent (env : Env) (fuel : Nat) (s : dma_state_t) (t : Trace)
    (r : dma_state_t × Trace) (h : dma.main env fuel s t = some r) : quiescent r.1 := by
  rw [main_eq] at h
  obtain ⟨r6, g6, g2⟩ := Option.bind_eq_some.1 h
  have d6 : r6.1.dpcr = s.dpcr := gate_dpcr env fuel _ _ _ _ g6
  have d2 : r.1.dpcr = r6.1.dpcr := gate_dpcr env fuel _ _ _ _ g2
  have c6 := gate_control_6 env fuel _ _ _ g6
  have c62 : (r.1.channels 6).control = (r6.1.channels 6).control :=
    gate_control_other env fuel _ _ _ _ g2 6 (by decide)
  have c2 := gate_control_2 env fuel _ _ _ g2
  refine ⟨?_, ?_⟩
  · rintro ⟨hb, hrec⟩
    have hp : (r.1.channels 6).control = 0x11000002 := by
      rcases hrec with ⟨h62, _⟩ | ⟨_, hh⟩
      · omega
      · exact hh
    rw [c62] at hp
    rw [d2, d6] at hb
    have hb2 : s.dpcr &&& 0x08000000 ≠ 0 := (enable_bit_6 _).2 hb
    by_cases hc : (s.channels 6).control = 0x11000002
    · have hcond : (s, t).1.dpcr &&& 0x08000000 ≠ 0 ∧ ((s, t).1.channels 6).control = 0x11000002 :=
        ⟨hb2, hc⟩
      rw [if_pos hcond] at c6
      rw [c6] at hp
      exact absurd hp (by decide)
    · have hcond : ¬ ((s, t).1.dpcr &&& 0x08000000 ≠ 0 ∧
          ((s, t).1.channels 6).control = 0x11000002) := fun hh => hc hh.2
      rw [if_neg hcond] at c6
      rw [c6] at hp
      exact hc hp
  · rintro ⟨hb, hrec⟩
    have hp : (r.1.channels 2).control = 0x01000200 ∨ (r.1.channels 2).control = 0x01000201 ∨
        (r.1.channels 2).control = 0x01000401 := by
      rcases hrec with ⟨_, hh⟩ | ⟨h62, _⟩
      · exact hh
      · omega
    rw [d2] at hb
    have hb2 : r6.1.dpcr &&& 0x00000800 ≠ 0 := (enable_bit_2 _).2 hb
    by_cases hc : (r6.1.channels 2).control = 0x01000200 ∨
        (r6.1.channels 2).control = 0x01000201 ∨ (r6.1.channels 2).control = 0x01000401
    · rw [if_pos ⟨hb2, hc⟩] at c2
      rw [c2] at hp
      rcases hc with hc | hc | hc <;> rw [hc] at hp <;> revert hp <;> decide
    · rw [if_neg (fun hh => hc hh.2)] at c2
      rw [c2] at hp
      exact hc hp

/-- Every state reachable from reset is quiescent. -/
theorem reachable_quiescent (s : dma_state_t) (h : Reachable s) : quiescent s := by
  induction h with
  | reset => decide
  | write env fuel s t width address data r _ hw _ =>
    rw [io_write_eq] at hw
    exact main_quiescent env fuel _ _ r hw

theorem run_writes_foldl_reachable (ws : List (Nat × Nat)) :
    ∀ acc : Option (dma_state_t × Trace), (∀ r, acc = some r → Reachable r.1) →
      ∀ r, ws.foldl
        (fun acc w => acc.bind fun r => dma.io_write (fun _ _ => 0) 0 r.1 r.2 4 w.1 w.2) acc =
        some r → Reachable r.1 := by
  induction ws with
  | nil => intro acc hacc r h; exact hacc r h
  | cons w ws ih =>
    intro acc hacc r h
    rw [List.foldl_cons] at h
    refine ih _ ?_ r h
    intro r2 h2
    obtain ⟨r1, h1, hw⟩ := Option.bind_eq_some.1 h2
    exact Reachable.write _ _ r1.1 r1.2 _ _ _ r2 (hacc r1 h1) hw

/-- A state reached by register writes from reset is reachable. -/
theorem reached_reachable (ws : List (Nat × Nat)) : Reachable (reached ws) := by
  unfold reached
  cases h : run_writes ws with
  | none => exact Reachable.reset
  | some r =>
    refine run_writes_foldl_reachable ws _ ?_ r h
    intro r0 h0
    cases h0
    exact Reachable.reset

theorem store_dicr_quiescent (s : dma_state_t) (t : Trace) (address data : Nat)
    (hc : get_channel_index address = 7) (hr : get_register_index address = 1)
    (hq : quiescent s) : quiescent (dma.io_write.store s t address data).1 := by
  rw [store_dicr s t address data hc hr]
  unfold quiescent recognized at *
  rw [update_irq_dpcr, update_irq_channels]
  exact hq

/-- Bits 24..30 after a write to the interrupt control register. -/
theorem store_dicr_pending (s : dma_state_t) (t : Trace) (address data : Nat)
    (hc : get_channel_index address = 7) (hr : get_register_index address = 1) :
    (dma.io_write.store s t address data).1.dicr &&& 0x7f000000 =
      (s.dicr &&& 0x7f000000) &&& (0xffffffff ^^^ (data &&& 0x7f000000)) := by
  rw [store_dicr s t address data hc hr]
  apply Nat.eq_of_testBit_eq
  intro i
  by_cases hi : 24 ≤ i ∧ i < 31
  · rw [Nat.testBit_and, update_irq_low_bits _ _ i hi.2]
    show ((dicr_written s.dicr data).testBit i && _) = _
    unfold dicr_written
    simp only [Nat.testBit_and, Nat.testBit_or, Nat.testBit_xor, testBit_0xff000000,
      testBit_0x00ff803f, testBit_0xffffffff, testBit_0x7f000000]
    have h1 : (24 ≤ i ∧ i < 32) := ⟨hi.1, by omega⟩
    have h2 : ¬ (i < 6 ∨ (15 ≤ i ∧ i < 24)) := by omega
    have h3 : i < 32 := by omega
    simp [hi, h1, h2, h3]
  · simp only [Nat.testBit_and, testBit_0x7f000000, hi, decide_False, Bool.and_false,
      Bool.false_and]

/-! ## Channel 2, device to memory -/

theorem block_read_spec_length (env : Env) (t : Trace) (A k : Nat) :
    (block_read_spec env t A k).length = 2 * k := by
  induction k with
  | zero => rfl
  | succ k ih => simp [block_read_spec, ih]; omega

theorem block_read_spec_mod (env : Env) (t : Trace) (A k : Nat) :
    block_read_spec env t (A % 2 ^ 32) k = block_read_spec env t A k := by
  induction k with
  | zero => rfl
  | succ k ih => simp only [block_read_spec, ih, Nat.mod_add_mod]

theorem block_read_spec_add (env : Env) (t : Trace) (A j k : Nat) :
    block_read_spec env t A (j + k) =
      block_read_spec env t A j ++
        block_read_spec env (t ++ block_read_spec env t A j) (A + 4 * j) k := by
  induction k with
  | zero => simp [block_read_spec]
  | succ k ih =>
    rw [← Nat.add_assoc]
    simp only [block_read_spec, ih, List.append_assoc]
    have : A + 4 * (j + k) = A + 4 * j + 4 * k := by ring
    rw [this]

theorem block_read_spec_take (env : Env) (t : Trace) (A : Nat) (i k : Nat) (h : i ≤ k) :
    (block_read_spec env t A k).take (2 * i) = block_read_spec env t A i := by
  obtain ⟨d, rfl⟩ := Nat.exists_eq_add_of_le h
  rw [block_read_spec_add, List.take_left' (block_read_spec_length env t A i)]

/-- The two events of the `i`-th word of a device-to-memory transfer. -/
theorem block_read_spec_get (env : Env) (t : Trace) (A : Nat) (i k : Nat) (h : i < k) :
    (block_read_spec env t A k)[2 * i]? =
        some (BusEvent.read 0x1f801810
          (env (t ++ (block_read_spec env t A k).take (2 * i)) 0x1f801810 % 2 ^ 32)) ∧
      (block_read_spec env t A k)[2 * i + 1]? =
        some (BusEvent.write ((A + 4 * i) % 2 ^ 32)
          (env (t ++ (block_read_spec env t A k).take (2 * i)) 0x1f801810 % 2 ^ 32)) := by
  rw [block_read_spec_take env t A i k (Nat.le_of_lt h)]
  obtain ⟨d, rfl⟩ := Nat.exists_eq_add_of_le (Nat.succ_le_of_lt h)
  rw [Nat.succ_eq_add_one, block_read_spec_add]
  have hl : (block_read_spec env t A (i + 1)).length = 2 * i + 2 := by
    rw [block_read_spec_length]; ring
  rw [List.getElem?_append_left (by omega), List.getElem?_append_left (by omega)]
  simp only [block_read_spec]
  have hl2 := block_read_spec_length env t A i
  rw [List.getElem?_append_right (by omega), List.getElem?_append_right (by omega)]
  simp [hl2]

theorem data_read_inner (env : Env) (k : Nat) :
    ∀ (A : Nat) (t : Trace), A < 2 ^ 32 →
      run_channel_2_data_read.inner env k A t =
        ((A + 4 * k) % 2 ^ 32, t ++ block_read_spec env t A k) := by
  induction k with
  | zero =>
    intro A t hA
    have hA2 : A % 4294967296 = A := Nat.mod_eq_of_lt hA
    simp [run_channel_2_data_read.inner, block_read_spec, hA2]
  | succ k ih =>
    intro A t hA
    have h1 : block_read_spec env t A (1 + k) = _ := block_read_spec_add env t A 1 k
    rw [Nat.add_comm 1 k] at h1
    rw [h1]
    simp only [run_channel_2_data_read.inner, bus.read, bus.write]
    rw [ih _ _ (Nat.mod_lt _ (by norm_num)), block_read_spec_mod]
    simp only [block_read_spec, List.append_nil, List.nil_append, List.append_assoc,
      List.singleton_append, Nat.mul_zero, Nat.add_zero, Nat.mod_eq_of_lt hA, Nat.mul_one]
    congr 1
    omega

theorem data_read_outer (env : Env) (bs : Nat) (k : Nat) :
    ∀ (A : Nat) (t : Trace), A < 2 ^ 32 →
      run_channel_2_data_read.outer env bs k A t =
        ((A + 4 * (bs * k)) % 2 ^ 32, t ++ block_read_spec env t A (bs * k)) := by
  induction k with
  | zero =>
    intro A t hA
    have hA2 : A % 4294967296 = A := Nat.mod_eq_of_lt hA
    simp [run_channel_2_data_read.outer, block_read_spec, hA2]
  | succ k ih =>
    intro A t hA
    simp only [run_channel_2_data_read.outer]
    rw [data_read_inner env bs A t hA, ih _ _ (Nat.mod_lt _ (by norm_num)), block_read_spec_mod]
    have h1 : bs * (k + 1) = bs + bs * k := by ring
    rw [h1, block_read_spec_add, List.append_assoc]
    congr 1
    omega

theorem and_0xffff (x : Nat) : x &&& 0xffff = x % 0x10000 :=
  Nat.and_pow_two_sub_one_eq_mod x 16

theorem decode_block_size (counter : Nat) :
    (if ((counter >>> 0) &&& 0xffff) ≠ 0 then (counter >>> 0) &&& 0xffff else 0x10000) =
      block_size counter := by
  unfold block_size
  rw [Nat.shiftRight_zero, and_0xffff]
  by_cases h : counter % 0x10000 = 0 <;> simp [h]

theorem decode_block_count (counter : Nat) :
    (if ((counter >>> 16) &&& 0xffff) ≠ 0 then (counter >>> 16) &&& 0xffff else 0x10000) =
      block_count counter := by
  unfold block_count
  rw [and_0xffff, Nat.shiftRight_eq_div_pow]
  by_cases h : counter / 2 ^ 16 % 0x10000 = 0
  · simp only [h, ne_eq, not_true_eq_false, if_false]
    rw [if_pos (by simpa using h)]
  · simp only [h, ne_eq, not_false_eq_true, if_true]
    rw [if_neg (by simpa using h)]

/-- The aggregator and `irq_channel` add at most one request for line 3 to the
trace. -/
theorem update_irq_trace_shape (s : dma_state_t) (t : Trace) :
    ∃ q, (update_irq_active_flag s t).2 = t ++ q ∧ (q = [] ∨ q = [BusEvent.irq 3]) := by
  rw [update_irq_trace]
  by_cases h : irq_active s.dicr = true ∧ s.dicr.testBit 31 = false
  · rw [if_pos h]
    exact ⟨[BusEvent.irq 3], rfl, Or.inr rfl⟩
  · rw [if_neg h]
    exact ⟨[], by simp, Or.inl rfl⟩

theorem irq_channel_trace (s : dma_state_t) (t : Trace) (n : Nat) :
    ∃ q, (dma.irq_channel s t n).2 = t ++ q ∧ (q = [] ∨ q = [BusEvent.irq 3]) := by
  unfold dma.irq_channel
  exact update_irq_trace_shape _ _

theorem transfer_done_trace (s : dma_state_t) (c : Fin 7) (keep : Nat) (t : Trace) (n : Nat) :
    ∃ q, (transfer_done s c keep t n).2 = t ++ q ∧ (q = [] ∨ q = [BusEvent.irq 3]) :=
  irq_channel_trace _ _ _

theorem run_channel_2_data_read_eq (env : Env) (s : dma_state_t) (t : Trace)
    (hA : (s.channels 2).address < 2 ^ 32) :
    run_channel_2_data_read env s t =
      transfer_done s 2 0xfeffffff
        (t ++ block_read_spec env t (s.channels 2).address
          (block_size (s.channels 2).counter * block_count (s.channels 2).counter)) 2 := by
  unfold run_channel_2_data_read
  simp only [decode_block_size, decode_block_count]
  rw [data_read_outer env _ _ _ t hA]
  rfl

/-- C1 (channel-2 device-to-memory block read): with `control = 0x01000200`,
address register `A` and a counter encoding block size `bs` and block count
`ba` (a zero field meaning 0x10000), `run_channel(2)` returns; the bus accesses
it adds to the trace are exactly `bs * ba` pairs, the `i`-th pair being a read
of the port 0x1f801810 followed by a write of the word just read to
`(A + 4 * i) mod 2^32`; after them comes at most one interrupt request; and
the control register is left at 0x00000200. -/
theorem run_channel_2_block_read (env : Env) (fuel : Nat) (s : dma_state_t) (t : Trace)
    (hc : (s.channels 2).control = 0x01000200) (hA : (s.channels 2).address < 2 ^ 32) :
    ∃ (s2 : dma_state_t) (q : Trace),
      dma.run_channel env fuel s t 2 =
        some (s2, t ++ block_read_spec env t (s.channels 2).address
          (block_size (s.channels 2).counter * block_count (s.channels 2).counter) ++ q) ∧
      (q = [] ∨ q = [BusEvent.irq 3]) ∧
      (s2.channels 2).control = 0x00000200 ∧
      (block_read_spec env t (s.channels 2).address
        (block_size (s.channels 2).counter * block_count (s.channels 2).counter)).length =
        2 * (block_size (s.channels 2).counter * block_count (s.channels 2).counter) ∧
      ∀ i, i < block_size (s.channels 2).counter * block_count (s.channels 2).counter →
        (block_read_spec env t (s.channels 2).address
          (block_size (s.channels 2).counter * block_count (s.channels 2).counter))[2 * i]? =
          some (BusEvent.read 0x1f801810
            (env (t ++ (block_read_spec env t (s.channels 2).address
              (block_size (s.channels 2).counter * block_count (s.channels 2).counter)).take
                (2 * i)) 0x1f801810 % 2 ^ 32)) ∧
        (block_read_spec env t (s.channels 2).address
          (block_size (s.channels 2).counter * block_count (s.channels 2).counter))[2 * i + 1]? =
          some (BusEvent.write (((s.channels 2).address + 4 * i) % 2 ^ 32)
            (env (t ++ (block_read_spec env t (s.channels 2).address
              (block_size (s.channels 2).counter * block_count (s.channels 2).counter)).take
                (2 * i)) 0x1f801810 % 2 ^ 32)) := by
  obtain ⟨q, hq, hq2⟩ := transfer_done_trace s 2 0xfeffffff
    (t ++ block_read_spec env t (s.channels 2).address
      (block_size (s.channels 2).counter * block_count (s.channels 2).counter)) 2
  refine ⟨(run_channel_2_data_read env s t).1, q, ?_, hq2, ?_,
    block_read_spec_length _ _ _ _, fun i hi => block_read_spec_get env t _ i _ hi⟩
  · unfold dma.run_channel
    simp only [hc, and_self, if_true]
    rw [← hq, ← run_channel_2_data_read_eq env s t hA]
  · rw [run_channel_2_data_read_eq env s t hA, transfer_done_control_self, hc]
    rfl

/-- C1 at the spec's example: block size 4, block count 2, address 0x1000.
Eight words are read from the port and written to 0x1000, 0x1004, ..., 0x101c
in the order read. -/
theorem run_channel_2_block_read_witness :
    ((example_state 0x00000800 0 ⟨0x1000, 0x00020004, 0x01000200⟩ ⟨0, 0, 0⟩).channels 2).control =
        0x01000200 ∧
      ((example_state 0x00000800 0 ⟨0x1000, 0x00020004, 0x01000200⟩ ⟨0, 0, 0⟩).channels 2).address <
        2 ^ 32 ∧
      ∃ (s2 : dma_state_t) (q : Trace),
        dma.run_channel counting_env 0
            (example_state 0x00000800 0 ⟨0x1000, 0x00020004, 0x01000200⟩ ⟨0, 0, 0⟩) [] 2 =
          some (s2,
            [BusEvent.read 0x1f801810 0xA0, BusEvent.write 0x1000 0xA0,
             BusEvent.read 0x1f801810 0xA2, BusEvent.write 0x1004 0xA2,
             BusEvent.read 0x1f801810 0xA4, BusEvent.write 0x1008 0xA4,
             BusEvent.read 0x1f801810 0xA6, BusEvent.write 0x100c 0xA6,
             BusEvent.read 0x1f801810 0xA8, BusEvent.write 0x1010 0xA8,
             BusEvent.read 0x1f801810 0xAA, BusEvent.write 0x1014 0xAA,
             BusEvent.read 0x1f801810 0xAC, BusEvent.write 0x1018 0xAC,
             BusEvent.read 0x1f801810 0xAE, BusEvent.write 0x101c 0xAE] ++ q) ∧
        (q = [] ∨ q = [BusEvent.irq 3]) ∧ (s2.channels 2).control = 0x00000200 := by
  refine ⟨by decide, by decide, ?_⟩
  obtain ⟨s2, q, h1, h2, h3, _⟩ := run_channel_2_block_read counting_env 0
    (example_state 0x00000800 0 ⟨0x1000, 0x00020004, 0x01000200⟩ ⟨0, 0, 0⟩) [] (by decide)
    (by decide)
  exact ⟨s2, q, h1, h2, h3⟩

/-! ## Channel 6, ordering table -/

theorem table_links_length (A k : Nat) : (table_links A k).length = k := by
  induction k with
  | zero => rfl
  | succ k ih => simp [table_links, ih]

theorem table_links_add (A j k : Nat) :
    table_links A (j + k) = table_links A j ++ table_links (sub32 A (4 * j)) k := by
  induction k with
  | zero => simp [table_links]
  | succ k ih =>
    rw [← Nat.add_assoc]
    simp only [table_links, ih, List.append_assoc]
    have h1 : sub32 (sub32 A (4 * j)) (4 * k) = sub32 A (4 * (j + k)) := by
      unfold sub32; omega
    have h2 : sub32 (sub32 A (4 * j)) (4 * (k + 1)) = sub32 A (4 * (j + k + 1)) := by
      unfold sub32; omega
    rw [h1, h2]

theorem table_links_get (A i k : Nat) (h : i < k) :
    (table_links A k)[i]? = some (BusEvent.write (sub32 A (4 * i)) (sub32 A (4 * (i + 1)))) := by
  obtain ⟨d, rfl⟩ := Nat.exists_eq_add_of_le (Nat.succ_le_of_lt h)
  rw [Nat.succ_eq_add_one, table_links_add,
    List.getElem?_append_left (by rw [table_links_length]; omega)]
  simp only [table_links]
  rw [List.getElem?_append_right (by rw [table_links_length])]
  simp [table_links_length]

theorem channel_6_loop (k : Nat) :
    ∀ (A : Nat) (t : Trace), A < 2 ^ 32 →
      run_channel_6.loop k A t = (sub32 A (4 * k), t ++ table_links A k) := by
  induction k with
  | zero =>
    intro A t hA
    have : sub32 A 0 = A := by unfold sub32; omega
    simp [run_channel_6.loop, table_links, this]
  | succ k ih =>
    intro A t hA
    have h1 : table_links A (1 + k) = _ := table_links_add A 1 k
    rw [Nat.add_comm 1 k] at h1
    have e : (A + 2 ^ 32 - 4) % 2 ^ 32 = sub32 A 4 := by unfold sub32; omega
    have e0 : sub32 A 0 = A := by unfold sub32; omega
    have e2 : sub32 (sub32 A 4) (4 * k) = sub32 A (4 * (k + 1)) := by unfold sub32; omega
    simp only [run_channel_6.loop, bus.write]
    rw [e, ih _ _ (by unfold sub32; omega), h1, e2]
    simp [table_links, e0]

theorem decode_table_count (counter : Nat) :
    (if (counter &&& 0xffff) ≠ 0 then counter &&& 0xffff else 0x10000) = table_count counter := by
  unfold table_count
  rw [and_0xffff]
  by_cases h : counter % 0x10000 = 0 <;> simp [h]

theorem run_channel_6_eq (s : dma_state_t) (t : Trace) (hA : (s.channels 6).address < 2 ^ 32) :
    run_channel_6 s t =
      transfer_done s 6 0xeeffffff
        (t ++ table_spec (s.channels 6).address (table_count (s.channels 6).counter)) 6 := by
  unfold run_channel_6
  simp only [decode_table_count]
  rw [channel_6_loop _ _ t hA]
  simp only [bus.write, table_spec, List.append_assoc]
  rfl

/-- C2 (channel-6 ordering-table build): with `control = 0x11000002`, address
register `A` and a counter whose low 16 bits are `n` (0 meaning 0x10000),
`run_channel(6)` returns; the bus accesses it adds to the trace are exactly `n`
writes: for `i` from 0 to `n - 2` the value `A - 4 * (i + 1)` to the address
`A - 4 * i`, then the terminator 0x00ffffff to `A - 4 * (n - 1)`, with the
differences taken in 32-bit arithmetic (they are the plain differences when
`4 * (n - 1) <= A`); after them comes at most one interrupt request; and the
control register is left at 0x00000002. -/
theorem run_channel_6_table (env : Env) (fuel : Nat) (s : dma_state_t) (t : Trace)
    (hc : (s.channels 6).control = 0x11000002) (hA : (s.channels 6).address < 2 ^ 32) :
    ∃ (s2 : dma_state_t) (q : Trace),
      dma.run_channel env fuel s t 6 =
        some (s2, t ++ table_spec (s.channels 6).address (table_count (s.channels 6).counter)
          ++ q) ∧
      (q = [] ∨ q = [BusEvent.irq 3]) ∧
      (s2.channels 6).control = 0x00000002 ∧
      (table_spec (s.channels 6).address (table_count (s.channels 6).counter)).length =
        table_count (s.channels 6).counter ∧
      (∀ i, i + 1 < table_count (s.channels 6).counter →
        (table_spec (s.channels 6).address (table_count (s.channels 6).counter))[i]? =
          some (BusEvent.write (sub32 (s.channels 6).address (4 * i))
            (sub32 (s.channels 6).address (4 * (i + 1))))) ∧
      (table_spec (s.channels 6).address (table_count (s.channels 6).counter))[
          table_count (s.channels 6).counter - 1]? =
        some (BusEvent.write
          (sub32 (s.channels 6).address (4 * (table_count (s.channels 6).counter - 1)))
          0x00ffffff) ∧
      (4 * (table_count (s.channels 6).counter - 1) ≤ (s.channels 6).address →
        ∀ i, i < table_count (s.channels 6).counter →
          sub32 (s.channels 6).address (4 * i) = (s.channels 6).address - 4 * i) := by
  have hn : 1 ≤ table_count (s.channels 6).counter := by
    unfold table_count; split <;> omega
  obtain ⟨q, hq, hq2⟩ := transfer_done_trace s 6 0xeeffffff
    (t ++ table_spec (s.channels 6).address (table_count (s.channels 6).counter)) 6
  refine ⟨(run_channel_6 s t).1, q, ?_, hq2, ?_, ?_, ?_, ?_, ?_⟩
  · unfold dma.run_channel
    have h1 : ¬ ((6 : Nat) = 2) := by decide
    simp only [hc, h1, false_and, if_false, true_and, if_true]
    rw [← hq, ← run_channel_6_eq s t hA]
  · rw [run_channel_6_eq s t hA, transfer_done_control_self, hc]
    rfl
  · simp only [table_spec, List.length_append, table_links_length, List.length_singleton]
    omega
  · intro i hi
    unfold table_spec
    rw [List.getElem?_append_left (by rw [table_links_length]; omega)]
    exact table_links_get _ _ _ (by omega)
  · unfold table_spec
    rw [List.getElem?_append_right (by rw [table_links_length])]
    simp [table_links_length]
  · intro hle i hi
    unfold sub32
    omega

/-- C2 at the spec's example: `A = 0x1000`, `n = 4` gives the three links and
the terminator at 0x0ff4; with `n = 1` only the terminator is written, at `A`. -/
theorem run_channel_6_table_witness :
    ((example_state 0x08000000 0 ⟨0, 0, 0⟩ ⟨0x1000, 4, 0x11000002⟩).channels 6).control =
        0x11000002 ∧
      ((example_state 0x08000000 0 ⟨0, 0, 0⟩ ⟨0x1000, 4, 0x11000002⟩).channels 6).address <
        2 ^ 32 ∧
      (∃ (s2 : dma_state_t) (q : Trace),
        dma.run_channel counting_env 0
            (example_state 0x08000000 0 ⟨0, 0, 0⟩ ⟨0x1000, 4, 0x11000002⟩) [] 6 =
          some (s2,
            [BusEvent.write 0x1000 0x00000ffc, BusEvent.write 0x0ffc 0x00000ff8,
             BusEvent.write 0x0ff8 0x00000ff4, BusEvent.write 0x0ff4 0x00ffffff] ++ q) ∧
        (q = [] ∨ q = [BusEvent.irq 3]) ∧ (s2.channels 6).control = 0x00000002) ∧
      (∃ (s2 : dma_state_t) (q : Trace),
        dma.run_channel counting_env 0
            (example_state 0x08000000 0 ⟨0, 0, 0⟩ ⟨0x1000, 1, 0x11000002⟩) [] 6 =
          some (s2, [BusEvent.write 0x1000 0x00ffffff] ++ q) ∧
        (q = [] ∨ q = [BusEvent.irq 3]) ∧ (s2.channels 6).control = 0x00000002) := by
  refine ⟨by decide, by decide, ?_, ?_⟩
  · obtain ⟨s2, q, h1, h2, h3, _⟩ := run_channel_6_table counting_env 0
      (example_state 0x08000000 0 ⟨0, 0, 0⟩ ⟨0x1000, 4, 0x11000002⟩) [] (by decide) (by decide)
    exact ⟨s2, q, h1, h2, h3⟩
  · obtain ⟨s2, q, h1, h2, h3, _⟩ := run_channel_6_table counting_env 0
      (example_state 0x08000000 0 ⟨0, 0, 0⟩ ⟨0x1000, 1, 0x11000002⟩) [] (by decide) (by decide)
    exact ⟨s2, q, h1, h2, h3⟩

/-! ## Channel 2, linked list -/

theorem port_writes_append (t u : Trace) : port_writes (t ++ u) = port_writes t ++ port_writes u := by
  unfold port_writes
  rw [List.filterMap_append]

theorem port_writes_packet_events (m : Nat → Nat) (k : Nat) :
    ∀ c, port_writes (packet_events m k c) = (List.range k).map fun j => m (c + 4 * j) := by
  induction k with
  | zero => intro c; rfl
  | succ k ih =>
    intro c
    have h := ih (c + 4)
    rw [List.range_succ_eq_map, List.map_cons, List.map_map]
    simp only [packet_events]
    have e : port_writes (BusEvent.read c (m c) :: BusEvent.write 0x1f801810 (m c) ::
        packet_events m k (c + 4)) = m c :: port_writes (packet_events m k (c + 4)) := by
      simp [port_writes]
    rw [e, h]
    congr 1
    apply List.map_congr_left
    intro j _
    simp only [Function.comp, Nat.succ_eq_add_one]
    congr 1
    ring

theorem keeps_packet_events (m : Nat → Nat) (k : Nat) :
    ∀ c, (packet_events m k c).all keeps_memory = true := by
  induction k with
  | zero => intro c; rfl
  | succ k ih =>
    intro c
    simp only [packet_events, List.all_cons, ih (c + 4), keeps_memory]
    simp

theorem port_writes_chain_events (m : Nat → Nat) (hs : List Nat) :
    port_writes (chain_events m hs) = (hs.map (packet_payload m)).flatten := by
  induction hs with
  | nil => rfl
  | cons a hs ih =>
    simp only [chain_events, List.map_cons, List.flatten_cons]
    have e : port_writes (BusEvent.read a (m a) ::
        (packet_events m (m a >>> 24) (a + 4) ++ chain_events m hs)) =
        port_writes (packet_events m (m a >>> 24) (a + 4) ++ chain_events m hs) := by
      simp [port_writes]
    rw [e, port_writes_append, ih, port_writes_packet_events]
    rfl

theorem keeps_chain_events (m : Nat → Nat) (hs : List Nat) :
    (chain_events m hs).all keeps_memory = true := by
  induction hs with
  | nil => rfl
  | cons a hs ih =>
    simp only [chain_events, List.all_cons, List.all_append, ih, keeps_packet_events, keeps_memory]
    simp

theorem reads_memory_lt (env : Env) (t : Trace) (m : Nat → Nat) (hmem : reads_memory env t m)
    (a : Nat) (ha : a ≠ 0x1f801810) : m a < 2 ^ 32 := by
  have h := hmem [] a rfl ha
  rw [← h]
  exact Nat.mod_lt _ (by norm_num)

theorem list_packet (env : Env) (t : Trace) (m : Nat → Nat) (hmem : reads_memory env t m)
    (k : Nat) :
    ∀ (c : Nat) (ext : Trace), ext.all keeps_memory = true → c + 4 * k < 0x1f801810 →
      (run_channel_2_list.packet env k c (t ++ ext)).2 = t ++ ext ++ packet_events m k c := by
  induction k with
  | zero =>
    intro c ext _ _
    simp [run_channel_2_list.packet, packet_events]
  | succ k ih =>
    intro c ext hext hc
    have hv : env (t ++ ext) c % 2 ^ 32 = m c := hmem ext c hext (by omega)
    have hc4 : (c + 4) % 2 ^ 32 = c + 4 := Nat.mod_eq_of_lt (by omega)
    simp only [run_channel_2_list.packet, bus.read, bus.write]
    rw [hv, hc4]
    have hk : (ext ++ [BusEvent.read c (m c), BusEvent.write 0x1f801810 (m c)]).all keeps_memory
        = true := by
      rw [List.all_append, hext]
      simp [keeps_memory]
    have h := ih (c + 4) (ext ++ [BusEvent.read c (m c), BusEvent.write 0x1f801810 (m c)]) hk
      (by omega)
    simp only [List.append_assoc, List.singleton_append, List.cons_append, List.nil_append,
      packet_events] at h ⊢
    exact h

theorem list_loop (env : Env) (t : Trace) (m : Nat → Nat) (hmem : reads_memory env t m)
    (A : Nat) (hs : List Nat) (hchain : Chain m A hs) :
    ∀ (fuel : Nat) (ext : Trace), A < 0x1000000 → hs.length ≤ fuel →
      ext.all keeps_memory = true →
      run_channel_2_list.loop env fuel A (t ++ ext) = some (t ++ ext ++ chain_events m hs) := by
  induction hchain with
  | done =>
    intro fuel ext _ _ _
    unfold run_channel_2_list.loop
    simp [chain_events]
  | next a hs hne _ ih =>
    intro fuel ext ha hfuel hext
    obtain ⟨f, rfl⟩ : ∃ f, fuel = f + 1 := ⟨fuel - 1, by simp at hfuel; omega⟩
    have hv : env (t ++ ext) a % 2 ^ 32 = m a := hmem ext a hext (by omega)
    have hlt : m a < 2 ^ 32 := reads_memory_lt env t m hmem a (by omega)
    have hcount : m a >>> 24 < 256 := by
      rw [Nat.shiftRight_eq_div_pow]
      omega
    have ha4 : (a + 4) % 2 ^ 32 = a + 4 := Nat.mod_eq_of_lt (by omega)
    have hnext : m a &&& 0xffffff = m a % 0x1000000 := Nat.and_pow_two_sub_one_eq_mod (m a) 24
    have hk : (ext ++ [BusEvent.read a (m a)]).all keeps_memory = true := by
      rw [List.all_append, hext]
      simp [keeps_memory]
    have hp := list_packet env t m hmem (m a >>> 24) (a + 4) (ext ++ [BusEvent.read a (m a)]) hk
      (by omega)
    have hk2 : (ext ++ [BusEvent.read a (m a)] ++ packet_events m (m a >>> 24) (a + 4)).all
        keeps_memory = true := by
      rw [List.all_append, hk, keeps_packet_events]
      rfl
    have hrec := ih f (ext ++ [BusEvent.read a (m a)] ++ packet_events m (m a >>> 24) (a + 4))
      (Nat.mod_lt _ (by norm_num)) (by simp at hfuel; omega) hk2
    unfold run_channel_2_list.loop
    rw [if_neg hne]
    simp only [bus.read]
    rw [hv, ha4, hnext]
    simp only [List.append_assoc] at hp hrec ⊢
    rw [hp, hrec]
    simp [chain_events]

/-- C3 (channel-2 linked-list transfer): let the address register hold a 24-bit
address `A`, let the environment answer reads from a memory `m` that only port
writes do not change, and let the chain of headers `hs` followed from `A` reach
the sentinel 0xffffff.  Then `run_channel(2)` with `control = 0x01000401`
returns whenever the fuel admits `hs.length` loop iterations; the words it
writes to the port 0x1f801810 are the payloads of the packets of `hs`,
concatenated in chain order, the last packet included; it writes nowhere else;
if `A` is the sentinel it makes no bus access at all; and the control register
is left at 0x00000401. -/
theorem run_channel_2_list_chain (env : Env) (fuel : Nat) (s : dma_state_t) (t : Trace)
    (m : Nat → Nat) (hs : List Nat)
    (hc : (s.channels 2).control = 0x01000401) (hA : (s.channels 2).address < 0x1000000)
    (hmem : reads_memory env t m) (hchain : Chain m (s.channels 2).address hs)
    (hfuel : hs.length ≤ fuel) :
    ∃ (s2 : dma_state_t) (q : Trace),
      dma.run_channel env fuel s t 2 = some (s2, t ++ chain_events m hs ++ q) ∧
      (q = [] ∨ q = [BusEvent.irq 3]) ∧
      port_writes (chain_events m hs) = (hs.map (packet_payload m)).flatten ∧
      (chain_events m hs).all keeps_memory = true ∧
      ((s.channels 2).address = 0xffffff → chain_events m hs = []) ∧
      (s2.channels 2).control = 0x00000401 := by
  have hl := list_loop env t m hmem _ hs hchain fuel [] hA hfuel rfl
  rw [List.append_nil] at hl
  obtain ⟨q, hq, hq2⟩ := transfer_done_trace s 2 0xfeffffff (t ++ chain_events m hs) 2
  have hrun : dma.run_channel env fuel s t 2 =
      some (transfer_done s 2 0xfeffffff (t ++ chain_events m hs) 2) := by
    unfold dma.run_channel
    have h1 : ¬ ((0x01000401 : Nat) = 0x01000200) := by decide
    have h2 : ¬ ((0x01000401 : Nat) = 0x01000201) := by decide
    simp only [hc, h1, h2, and_false, if_false, and_self, if_true]
    unfold run_channel_2_list
    rw [hl]
    rfl
  refine ⟨(transfer_done s 2 0xfeffffff (t ++ chain_events m hs) 2).1, q, ?_, hq2,
    port_writes_chain_events m hs, keeps_chain_events m hs, ?_, ?_⟩
  · rw [hrun, ← hq]
  · intro hsent
    generalize (s.channels 2).address = A at hchain hsent
    cases hchain with
    | done => rfl
    | next a hs hne _ => exact absurd hsent hne
  · rw [transfer_done_control_self, hc]
    rfl

theorem example_memory_reads : reads_memory (fun _ a => example_memory a) [] example_memory := by
  intro ext a _ _
  show example_memory a % 2 ^ 32 = example_memory a
  unfold example_memory
  split_ifs <;> rfl

theorem example_memory_chain : Chain example_memory 0x100 [0x100, 0x200] :=
  Chain.next 0x100 [0x200] (by decide) (Chain.next 0x200 [] (by decide) Chain.done)

/-- C3 at a concrete input: the two-packet chain of `example_memory`, started
at 0x100, sends 0x11, 0x22, 0x33 to the port. -/
theorem run_channel_2_list_chain_witness :
    reads_memory (fun _ a => example_memory a) [] example_memory ∧
      Chain example_memory 0x100 [0x100, 0x200] ∧
      ∃ (s2 : dma_state_t) (q : Trace),
        dma.run_channel (fun _ a => example_memory a) 2
            (example_state 0x00000800 0 ⟨0x100, 0, 0x01000401⟩ ⟨0, 0, 0⟩) [] 2 =
          some (s2,
            [BusEvent.read 0x100 0x02000200,
             BusEvent.read 0x104 0x11, BusEvent.write 0x1f801810 0x11,
             BusEvent.read 0x108 0x22, BusEvent.write 0x1f801810 0x22,
             BusEvent.read 0x200 0x01ffffff,
             BusEvent.read 0x204 0x33, BusEvent.write 0x1f801810 0x33] ++ q) ∧
        (q = [] ∨ q = [BusEvent.irq 3]) ∧
        port_writes (chain_events example_memory [0x100, 0x200]) = [0x11, 0x22, 0x33] ∧
        (s2.channels 2).control = 0x00000401 := by
  refine ⟨example_memory_reads, example_memory_chain, ?_⟩
  obtain ⟨s2, q, h1, h2, h3, _, _, h6⟩ := run_channel_2_list_chain
    (fun _ a => example_memory a) 2
    (example_state 0x00000800 0 ⟨0x100, 0, 0x01000401⟩ ⟨0, 0, 0⟩) [] example_memory
    [0x100, 0x200] (by decide) (by decide) example_memory_reads example_memory_chain (by decide)
  exact ⟨s2, q, h1, h2, h3, h6⟩

/-! ## Completion flags -/

theorem and_one_shiftLeft_ne_zero (d k : Nat) : d &&& 1 <<< k ≠ 0 ↔ d.testBit k = true := by
  rw [Nat.one_shiftLeft]
  exact and_two_pow_ne_zero d k

/-- What `irq_channel` does to the bits below 31 of `dicr`: it sets bit
`n + 24` when bit `n + 16` is set, and nothing else. -/
theorem irq_channel_bit (s : dma_state_t) (t : Trace) (n i : Nat) (hi : i < 31) :
    (dma.irq_channel s t n).1.dicr.testBit i =
      (s.dicr.testBit i || (decide (i = n + 24) && s.dicr.testBit (n + 16))) := by
  unfold dma.irq_channel
  rw [update_irq_low_bits _ _ i hi]
  by_cases hm : s.dicr.testBit (n + 16) = true
  · rw [if_pos ((and_one_shiftLeft_ne_zero _ _).2 hm)]
    simp only [Nat.testBit_or, Nat.one_shiftLeft, Nat.testBit_two_pow, hm, Bool.and_true]
    by_cases h : i = n + 24
    · simp [h]
    · have h2 : ¬ (n + 24 = i) := fun hh => h hh.symm
      simp [h, h2]
  · rw [if_neg (fun hh => hm ((and_one_shiftLeft_ne_zero _ _).1 hh))]
    simp [hm]

theorem transfer_done_bit (s : dma_state_t) (c : Fin 7) (keep : Nat) (t : Trace) (n i : Nat)
    (hi : i < 31) :
    (transfer_done s c keep t n).1.dicr.testBit i =
      (s.dicr.testBit i || (decide (i = n + 24) && s.dicr.testBit (n + 16))) := by
  unfold transfer_done
  rw [irq_channel_bit _ _ _ _ hi]
  rfl

/-- C11, as stated, fails: with pending flag 26 already set and mask bit 18
clear, `irq_channel(2)` leaves the pending flag set although the mask bit is
not enabled; the same holds after a completed channel-2 block read; and the
situation is reached from reset by six register writes (enable the mask, enable
channel 2, run a one-word block read, clear the mask without acknowledging,
run the block read again). -/
theorem irq_channel_pending_counterexample :
    ((dma.irq_channel (example_state 0 0x04000000 ⟨0, 0, 0⟩ ⟨0, 0, 0⟩) [] 2).1.dicr.testBit 26,
      (dma.irq_channel (example_state 0 0x04000000 ⟨0, 0, 0⟩ ⟨0, 0, 0⟩) [] 2).1.dicr.testBit 18,
      (example_state 0 0x04000000 ⟨0, 0, 0⟩ ⟨0, 0, 0⟩).dicr.testBit 18) = (true, false, false) ∧
    (dma.run_channel (fun _ _ => 0) 0
        (example_state 0x00000800 0x04000000 ⟨0, 0x00010001, 0x01000200⟩ ⟨0, 0, 0⟩) [] 2).map
      (fun r => (r.1.dicr.testBit 26, r.1.dicr.testBit 18, (r.1.channels 2).control)) =
      some (true, false, 0x00000200) ∧
    ((((((dma.io_write (fun _ _ => 0) 0 dma_state_t.reset [] 4 0x1f8010f4 0x00040000).bind
        (fun r => dma.io_write (fun _ _ => 0) 0 r.1 r.2 4 0x1f8010f0 0x00000800)).bind
        (fun r => dma.io_write (fun _ _ => 0) 0 r.1 r.2 4 0x1f8010a4 0x00010001)).bind
        (fun r => dma.io_write (fun _ _ => 0) 0 r.1 r.2 4 0x1f8010a8 0x01000200)).bind
        (fun r => dma.io_write (fun _ _ => 0) 0 r.1 r.2 4 0x1f8010f4 0x00000000)).bind
        (fun r => dma.io_write (fun _ _ => 0) 0 r.1 r.2 4 0x1f8010a8 0x01000200)).map
      (fun r => (r.1.dicr.testBit 26, r.1.dicr.testBit 18, (r.1.channels 2).control)) =
      some (true, false, 0x00000200) := by
  decide

/-- C11, amended (completion-flag request): for every channel `n` in 0..6 and
every controller state, after `irq_channel(n)` the pending bit `24 + n` of
`dicr` is set if and only if it was set before or the mask bit `16 + n` is
enabled, and the mask bit is as before; in particular after a completed
channel-2 transfer the pending flag 26 is set iff it was set before or the
mask bit 18 was enabled. -/
theorem irq_channel_pending (s : dma_state_t) (t : Trace) (n : Nat) (hn : n ≤ 6) :
    (dma.irq_channel s t n).1.dicr.testBit (24 + n) =
        (s.dicr.testBit (24 + n) || s.dicr.testBit (16 + n)) ∧
      (dma.irq_channel s t n).1.dicr.testBit (16 + n) = s.dicr.testBit (16 + n) ∧
      ∀ (env : Env) (fuel : Nat) (r : dma_state_t × Trace), recognized s 2 →
        dma.run_channel env fuel s t 2 = some r →
        r.1.dicr.testBit 26 = (s.dicr.testBit 26 || s.dicr.testBit 18) := by
  refine ⟨?_, ?_, ?_⟩
  · rw [irq_channel_bit s t n (24 + n) (by omega), Nat.add_comm n 16]
    simp [Nat.add_comm]
  · rw [irq_channel_bit s t n (16 + n) (by omega)]
    have : ¬ (16 + n = n + 24) := by omega
    simp [this]
  · intro env fuel r hrec hrun
    rcases run_channel_cases env fuel s t 2 r hrun with ⟨hnr, _⟩ | ⟨_, _, t1, rfl⟩ | ⟨h26, _⟩
    · exact absurd hrec hnr
    · rw [transfer_done_bit s 2 _ t1 2 26 (by decide)]
      simp
    · omega

/-- C11 amended, at a concrete input: mask bit 18 set and no flag pending;
`irq_channel(2)` sets flag 26. -/
theorem irq_channel_pending_witness :
    (2 : Nat) ≤ 6 ∧
    (dma.irq_channel (example_state 0 0x00040000 ⟨0, 0, 0⟩ ⟨0, 0, 0⟩) [] 2).1.dicr.testBit
        (24 + 2) =
      ((example_state 0 0x00040000 ⟨0, 0, 0⟩ ⟨0, 0, 0⟩).dicr.testBit (24 + 2) ||
        (example_state 0 0x00040000 ⟨0, 0, 0⟩ ⟨0, 0, 0⟩).dicr.testBit (16 + 2)) ∧
    (dma.irq_channel (example_state 0 0x00040000 ⟨0, 0, 0⟩ ⟨0, 0, 0⟩) [] 2).1.dicr.testBit
        (24 + 2) = true :=
  ⟨by decide,
   (irq_channel_pending (example_state 0 0x00040000 ⟨0, 0, 0⟩ ⟨0, 0, 0⟩) [] 2 (by decide)).1,
   by decide⟩

/-! ## Frame of a dispatch on `dicr` -/

/-- A dispatch of channel `n` leaves every bit of `dicr` below 31 other than
bit `24 + n`. -/
theorem run_channel_dicr_bit (env : Env) (fuel : Nat) (s : dma_state_t) (t : Trace) (n : Nat)
    (r : dma_state_t × Trace) (h : dma.run_channel env fuel s t n = some r) (i : Nat)
    (hi : i < 31) (hne : i ≠ 24 + n) : r.1.dicr.testBit i = s.dicr.testBit i := by
  rcases run_channel_cases env fuel s t n r h with ⟨_, rfl⟩ | ⟨hn, _, t1, rfl⟩ | ⟨hn, _, t1, rfl⟩
  · rfl
  · rw [transfer_done_bit _ _ _ _ _ _ hi]
    have : ¬ (i = 2 + 24) := by omega
    simp [this]
  · rw [transfer_done_bit _ _ _ _ _ _ hi]
    have : ¬ (i = 6 + 24) := by omega
    simp [this]

theorem run_channel_dicr_low (env : Env) (fuel : Nat) (s : dma_state_t) (t : Trace) (n : Nat)
    (r : dma_state_t × Trace) (h : dma.run_channel env fuel s t n = some r) (i : Nat)
    (hi : i < 24) : r.1.dicr.testBit i = s.dicr.testBit i := by
  rcases run_channel_cases env fuel s t n r h with ⟨_, rfl⟩ | ⟨hn, _, t1, rfl⟩ | ⟨hn, _, t1, rfl⟩
  · rfl
  · rw [transfer_done_bit _ _ _ _ _ _ (by omega)]
    have : ¬ (i = 2 + 24) := by omega
    simp [this]
  · rw [transfer_done_bit _ _ _ _ _ _ (by omega)]
    have : ¬ (i = 6 + 24) := by omega
    simp [this]

/-- Bits 0..23 right after the register update of a write to the interrupt
control register. -/
theorem store_dicr_low (s : dma_state_t) (t : Trace) (address w : Nat)
    (hc : get_channel_index address = 7) (hr : get_register_index address = 1) (i : Nat)
    (hi : i < 24) :
    (dma.io_write.store s t address w).1.dicr.testBit i =
      (w.testBit i && Nat.testBit 0x00ff803f i) := by
  rw [store_dicr s t address w hc hr, update_irq_low_bits _ _ i (by omega)]
  show (dicr_written s.dicr w).testBit i = _
  unfold dicr_written
  simp only [Nat.testBit_and, Nat.testBit_or, Nat.testBit_xor, testBit_0xff000000,
    testBit_0xffffffff, testBit_0x7f000000]
  have h1 : ¬ (24 ≤ i ∧ i < 32) := by omega
  have h2 : ¬ (24 ≤ i ∧ i < 31) := by omega
  have h3 : i < 32 := by omega
  have h4 : ¬ (24 ≤ i) := by omega
  simp [h1, h2, h3, h4]

/-- C13 (interrupt-control write mask): after an `io_write` of `w` to the
interrupt control register has returned, bits 0..23 of `dicr` are exactly
`w AND 0x00ff803f`, whatever they were before and whatever transfers the
scheduler ran; so bits 6..14 are zero, and the force bit 15, the mask bits
16..22 and the master-enable bit 23 are those of `w`. -/
theorem io_write_dicr_mask (env : Env) (fuel : Nat) (s : dma_state_t) (t : Trace)
    (width address w : Nat) (r : dma_state_t × Trace)
    (hc : get_channel_index address = 7) (hr : get_register_index address = 1)
    (h : dma.io_write env fuel s t width address w = some r) :
    r.1.dicr &&& 0x00ffffff = w &&& 0x00ff803f ∧
      (∀ i, 6 ≤ i → i ≤ 14 → r.1.dicr.testBit i = false) ∧
      (∀ i, 15 ≤ i → i ≤ 23 → r.1.dicr.testBit i = w.testBit i) := by
  have hbits : ∀ i, i < 24 → r.1.dicr.testBit i = (w.testBit i && Nat.testBit 0x00ff803f i) := by
    rw [io_write_eq] at h
    refine main_induct
      (fun q => ∀ i, i < 24 → q.1.dicr.testBit i = (w.testBit i && Nat.testBit 0x00ff803f i))
      env fuel ?_ _ _ r ?_ h
    · intro s0 t0 n q hq hrun i hi
      show q.1.dicr.testBit i = _
      rw [run_channel_dicr_low env fuel s0 t0 n q hrun i hi]
      exact hq i hi
    · intro i hi
      exact store_dicr_low s t address w hc hr i hi
  refine ⟨?_, ?_, ?_⟩
  · apply Nat.eq_of_testBit_eq
    intro i
    have e : Nat.testBit 0x00ffffff i = decide (i < 24) := by
      have h24 := @Nat.testBit_two_pow_sub_one 24 i
      simpa using h24
    simp only [Nat.testBit_and, e]
    by_cases hi : i < 24
    · rw [hbits i hi]
      simp [hi]
    · have h0 : decide (i < 6 ∨ (15 ≤ i ∧ i < 24)) = false := by
        simp only [decide_eq_false_iff_not]; omega
      rw [testBit_0x00ff803f, h0]
      simp [hi]
  · intro i h6 h14
    rw [hbits i (by omega), testBit_0x00ff803f]
    have : ¬ (i < 6 ∨ (15 ≤ i ∧ i < 24)) := by omega
    simp [this]
  · intro i h15 h23
    rw [hbits i (by omega), testBit_0x00ff803f]
    have : (i < 6 ∨ (15 ≤ i ∧ i < 24)) := by omega
    simp [this]

/-- C13 at a concrete input: with force, master-enable and all mask bits set,
writing 0x0000ffff leaves only bits 0..5 and the force bit in bits 0..23. -/
theorem io_write_dicr_mask_witness :
    dma.io_write (fun _ _ => 0) 0 (example_state 0 0x00ff8000 ⟨0, 0, 0⟩ ⟨0, 0, 0⟩) [] 4
        0x1f8010f4 0x0000ffff =
      some (dma.io_write.store (example_state 0 0x00ff8000 ⟨0, 0, 0⟩ ⟨0, 0, 0⟩) [] 0x1f8010f4
        0x0000ffff) ∧
    (dma.io_write.store (example_state 0 0x00ff8000 ⟨0, 0, 0⟩ ⟨0, 0, 0⟩) [] 0x1f8010f4
        0x0000ffff).1.dicr &&& 0x00ffffff = 0x0000ffff &&& 0x00ff803f ∧
    (dma.io_write.store (example_state 0 0x00ff8000 ⟨0, 0, 0⟩ ⟨0, 0, 0⟩) [] 0x1f8010f4
        0x0000ffff).1.dicr &&& 0x00ffffff = 0x0000803f :=
  ⟨main_of_quiescent _ _ _ _ (by decide),
   (io_write_dicr_mask (fun _ _ => 0) 0 (example_state 0 0x00ff8000 ⟨0, 0, 0⟩ ⟨0, 0, 0⟩) [] 4
      0x1f8010f4 0x0000ffff _ (by decide) (by decide) (main_of_quiescent _ _ _ _ (by decide))).1,
   by decide⟩

/-! ## The read-only status windows -/

theorem store_status (s : dma_state_t) (t : Trace) (address data : Nat)
    (hc : get_channel_index address = 7)
    (hr : get_register_index address = 2 ∨ get_register_index address = 3) :
    dma.io_write.store s t address data = (s, t) := by
  unfold dma.io_write.store
  rcases hr with hr | hr <;> simp [hc, hr]

theorem io_read_status (s : dma_state_t) (width address : Nat)
    (hc : get_channel_index address = 7)
    (hr : get_register_index address = 2 ∨ get_register_index address = 3) :
    dma.io_read s width address =
      if get_register_index address = 2 then 0x7ffac68b else 0x00fffff7 := by
  unfold dma.io_read
  rcases hr with hr | hr <;> simp [hc, hr]

/-- C14 (read-only status windows): an `io_write` of any value to channel-7
register 2 or 3 stores nothing: it is the scheduler run on the unchanged
state.  So in every controller state reachable from reset by `io_write` calls,
and in any state in which no enabled channel holds a recognized start pattern,
it returns the same controller state and the same trace (no bus access, no
interrupt); and in every state `io_read` of register 2 returns 0x7ffac68b and
of register 3 returns 0x00fffff7. -/
theorem io_write_status_noop (env : Env) (fuel : Nat) (s : dma_state_t) (t : Trace)
    (width address v : Nat)
    (hc : get_channel_index address = 7)
    (hr : get_register_index address = 2 ∨ get_register_index address = 3) :
    dma.io_write.store s t address v = (s, t) ∧
      dma.io_write env fuel s t width address v = dma.main env fuel s t ∧
      (Reachable s ∨ quiescent s → dma.io_write env fuel s t width address v = some (s, t)) ∧
      ∀ (s2 : dma_state_t) (width2 : Nat),
        dma.io_read s2 width2 address =
          if get_register_index address = 2 then 0x7ffac68b else 0x00fffff7 := by
  have hw : dma.io_write env fuel s t width address v = dma.main env fuel s t := by
    rw [io_write_eq, store_status s t address v hc hr]
  refine ⟨store_status s t address v hc hr, hw, ?_,
    fun s2 width2 => io_read_status s2 width2 address hc hr⟩
  intro hs
  rw [hw]
  exact main_of_quiescent env fuel s t (hs.elim (reachable_quiescent s) id)

/-- C14 at a concrete input: the state reached from reset by writing 1 to
channel 6's counter and 0x11000002 to its control register (channel 6 is not
enabled, so the pattern stays); a write to register 3 (at 0x1f8010fc) changes
nothing and the register reads 0x00fffff7. -/
theorem io_write_status_noop_witness :
    (Reachable (reached [(0x1f8010e4, 1), (0x1f8010e8, 0x11000002)]) ∨
      quiescent (reached [(0x1f8010e4, 1), (0x1f8010e8, 0x11000002)])) ∧
    dma.io_write (fun _ _ => 0) 0 (reached [(0x1f8010e4, 1), (0x1f8010e8, 0x11000002)]) [] 4
        0x1f8010fc 0xffffffff =
      some (reached [(0x1f8010e4, 1), (0x1f8010e8, 0x11000002)], []) ∧
    dma.io_read (reached [(0x1f8010e4, 1), (0x1f8010e8, 0x11000002)]) 4 0x1f8010fc =
      0x00fffff7 ∧
    ((reached [(0x1f8010e4, 1), (0x1f8010e8, 0x11000002)]).channels 6).control = 0x11000002 :=
  ⟨Or.inl (reached_reachable _),
   (io_write_status_noop (fun _ _ => 0) 0 (reached [(0x1f8010e4, 1), (0x1f8010e8, 0x11000002)])
      [] 4 0x1f8010fc 0xffffffff (by decide) (by decide)).2.2.1
      (Or.inl (reached_reachable _)),
   by decide, by decide⟩

/-! ## Enable gating -/

/-- A gate tests the enable bit of its channel, which no dispatch changes. -/
theorem bind_gate_eq (env : Env) (fuel : Nat) (s : dma_state_t) (k n : Nat)
    (x : Option (dma_state_t × Trace)) (hx : ∀ r, x = some r → r.1.dpcr = s.dpcr) :
    x.bind (dma.main.gate (dma.run_channel env fuel) (2 ^ k) n) =
        (x.bind fun r =>
          if s.dpcr.testBit k = true then dma.run_channel env fuel r.1 r.2 n else some r) ∧
      ∀ r, x.bind (dma.main.gate (dma.run_channel env fuel) (2 ^ k) n) = some r →
        r.1.dpcr = s.dpcr := by
  cases x with
  | none => exact ⟨rfl, fun r h => by simp at h⟩
  | some r0 =>
    have h0 : r0.1.dpcr = s.dpcr := hx r0 rfl
    refine ⟨?_, ?_⟩
    · simp only [Option.some_bind, dma.main.gate, h0]
      by_cases hb : s.dpcr.testBit k = true
      · rw [if_pos ((and_two_pow_ne_zero _ _).2 hb), if_pos hb]
      · rw [if_neg (fun hh => hb ((and_two_pow_ne_zero _ _).1 hh)), if_neg hb]
    · intro r hr
      rw [Option.some_bind] at hr
      rw [gate_dpcr env fuel _ _ _ _ hr]
      exact h0

theorem main_eq_spec (env : Env) (fuel : Nat) (s : dma_state_t) (t : Trace) :
    dma.main env fuel s t = main_spec env fuel s t := by
  have h7 : ∀ r, some (s, t) = some r → r.1.dpcr = s.dpcr := by
    intro r hr; cases hr; rfl
  have g6 := bind_gate_eq env fuel s 27 6 _ h7
  have g5 := bind_gate_eq env fuel s 23 5 _ g6.2
  have g4 := bind_gate_eq env fuel s 19 4 _ g5.2
  have g3 := bind_gate_eq env fuel s 15 3 _ g4.2
  have g2 := bind_gate_eq env fuel s 11 2 _ g3.2
  have g1 := bind_gate_eq env fuel s 7 1 _ g2.2
  have g0 := bind_gate_eq env fuel s 3 0 _ g1.2
  unfold dma.main dma.main_with main_spec
  simp only [List.foldl]
  rw [← g6.1, ← g5.1, ← g4.1, ← g3.1, ← g2.1, ← g1.1, ← g0.1]
  rfl

theorem store_dpcr (s : dma_state_t) (t : Trace) (address data : Nat)
    (hc : get_channel_index address = 7) (hr : get_register_index address = 0) :
    dma.io_write.store s t address data = ({ s with dpcr := data }, t) := by
  unfold dma.io_write.store
  simp [hc, hr]

theorem gate_skip (env : Env) (fuel : Nat) (k n : Nat) (r : dma_state_t × Trace)
    (h : r.1.dpcr.testBit k = false) : dma.main.gate (dma.run_channel env fuel) (2 ^ k) n r = some r := by
  unfold dma.main.gate
  rw [if_neg]
  intro hh
  rw [(and_two_pow_ne_zero _ _).1 hh] at h
  exact absurd h (by decide)

theorem gate_take (env : Env) (fuel : Nat) (k n : Nat) (r : dma_state_t × Trace)
    (h : r.1.dpcr.testBit k = true) :
    dma.main.gate (dma.run_channel env fuel) (2 ^ k) n r = dma.run_channel env fuel r.1 r.2 n := by
  unfold dma.main.gate
  rw [if_pos ((and_two_pow_ne_zero _ _).2 h)]

theorem gate_eq_testBit {W : Type}
    (run : dma_state_t → W → Nat → Option (dma_state_t × W)) (k n : Nat)
    (r : dma_state_t × W) :
    dma.main.gate run (2 ^ k) n r =
      if r.1.dpcr.testBit k = true then run r.1 r.2 n else some r := by
  unfold dma.main.gate
  by_cases hb : r.1.dpcr.testBit k = true
  · rw [if_pos ((and_two_pow_ne_zero _ _).2 hb), if_pos hb]
  · rw [if_neg (fun hh => hb ((and_two_pow_ne_zero _ _).1 hh)), if_neg hb]

/-- The scheduler, for any dispatcher, is the scheduler of the spec. -/
theorem main_with_eq_spec {W : Type}
    (run : dma_state_t → W → Nat → Option (dma_state_t × W)) (s : dma_state_t) (w : W) :
    dma.main_with run s w = main_spec_with run s w := by
  have e6 : dma.main.gate run 0x08000000 6 =
      fun r => if r.1.dpcr.testBit (4 * 6 + 3) = true then run r.1 r.2 6 else some r :=
    funext fun r => gate_eq_testBit run 27 6 r
  have e5 : dma.main.gate run 0x00800000 5 =
      fun r => if r.1.dpcr.testBit (4 * 5 + 3) = true then run r.1 r.2 5 else some r :=
    funext fun r => gate_eq_testBit run 23 5 r
  have e4 : dma.main.gate run 0x00080000 4 =
      fun r => if r.1.dpcr.testBit (4 * 4 + 3) = true then run r.1 r.2 4 else some r :=
    funext fun r => gate_eq_testBit run 19 4 r
  have e3 : dma.main.gate run 0x00008000 3 =
      fun r => if r.1.dpcr.testBit (4 * 3 + 3) = true then run r.1 r.2 3 else some r :=
    funext fun r => gate_eq_testBit run 15 3 r
  have e2 : dma.main.gate run 0x00000800 2 =
      fun r => if r.1.dpcr.testBit (4 * 2 + 3) = true then run r.1 r.2 2 else some r :=
    funext fun r => gate_eq_testBit run 11 2 r
  have e1 : dma.main.gate run 0x00000080 1 =
      fun r => if r.1.dpcr.testBit (4 * 1 + 3) = true then run r.1 r.2 1 else some r :=
    funext fun r => gate_eq_testBit run 7 1 r
  have e0 : dma.main.gate run 0x00000008 0 =
      fun r => if r.1.dpcr.testBit (4 * 0 + 3) = true then run r.1 r.2 0 else some r :=
    funext fun r => gate_eq_testBit run 3 0 r
  unfold dma.main_with main_spec_with
  rw [e6, e5, e4, e3, e2, e1, e0]
  rfl

/-- With the recording dispatcher, the spec's scheduler records the channels
of `ns` whose enable bit is set, in the order of `ns`. -/
theorem record_call_foldl (s : dma_state_t) (ns : List Nat) :
    ∀ calls : List Nat,
      ns.foldl
          (fun acc n => acc.bind fun r =>
            if r.1.dpcr.testBit (4 * n + 3) = true then record_call r.1 r.2 n else some r)
          (some (s, calls)) =
        some (s, calls ++ ns.filter fun n => s.dpcr.testBit (4 * n + 3)) := by
  induction ns with
  | nil => intro calls; simp
  | cons n ns ih =>
    intro calls
    rw [List.foldl_cons, Option.some_bind]
    by_cases hb : s.dpcr.testBit (4 * n + 3) = true
    · have e : (if (s, calls).1.dpcr.testBit (4 * n + 3) = true
          then record_call (s, calls).1 (s, calls).2 n else some (s, calls)) =
          some (s, calls ++ [n]) := by
        rw [if_pos hb]
        rfl
      rw [e, ih, List.filter_cons, if_pos hb, List.append_assoc]
      rfl
    · have e : (if (s, calls).1.dpcr.testBit (4 * n + 3) = true
          then record_call (s, calls).1 (s, calls).2 n else some (s, calls)) =
          some (s, calls) := by
        rw [if_neg hb]
      rw [e, ih, List.filter_cons, if_neg hb]

theorem main_with_record_call (s : dma_state_t) :
    dma.main_with record_call s [] =
      some (s, [6, 5, 4, 3, 2, 1, 0].filter fun n => s.dpcr.testBit (4 * n + 3)) := by
  rw [main_with_eq_spec]
  unfold main_spec_with
  rw [record_call_foldl s _ []]
  rfl

/-- C15 (enable gating): `dma::main`, for any dispatcher it is given, is the
scheduler of the spec, which for the channels 6, 5, ..., 0 in turn invokes the
dispatcher of channel `n` exactly when bit `4 * n + 3` of `dpcr` is set; with a
dispatcher that only records its calls, the channels recorded are those of 6,
5, ..., 0 whose enable bit is set, so channel `n` is dispatched if and only if
`n <= 6` and bit `4 * n + 3` is set; with the dispatcher `run_channel`, when
bits 11 and 27 are both clear `dma::main` returns the state and the trace
unchanged, whatever the control words are; and a later write to `dpcr` that
sets bit 27 (bit 11) runs the channel-6 (channel-2) transfer that was
waiting. -/
theorem main_enable_gating (env : Env) (fuel : Nat) (s : dma_state_t) (t : Trace) :
    (∀ (W : Type) (run : dma_state_t → W → Nat → Option (dma_state_t × W))
        (s0 : dma_state_t) (w : W), dma.main_with run s0 w = main_spec_with run s0 w) ∧
      dma.main_with record_call s [] =
        some (s, [6, 5, 4, 3, 2, 1, 0].filter fun n => s.dpcr.testBit (4 * n + 3)) ∧
      (∀ n : Nat,
        (∃ calls, dma.main_with record_call s [] = some (s, calls) ∧ n ∈ calls) ↔
          (n ≤ 6 ∧ s.dpcr.testBit (4 * n + 3) = true)) ∧
      dma.main env fuel s t = main_spec env fuel s t ∧
      (s.dpcr.testBit 11 = false → s.dpcr.testBit 27 = false →
        dma.main env fuel s t = some (s, t)) ∧
      (∀ (width address data : Nat), get_channel_index address = 7 →
        get_register_index address = 0 →
        (data.testBit 27 = true → data.testBit 11 = false →
          (s.channels 6).control = 0x11000002 →
          dma.io_write env fuel s t width address data =
            some (run_channel_6 { s with dpcr := data } t)) ∧
        (data.testBit 11 = true → data.testBit 27 = false →
          dma.io_write env fuel s t width address data =
            dma.run_channel env fuel { s with dpcr := data } t 2)) := by
  refine ⟨fun W run s0 w => main_with_eq_spec run s0 w, main_with_record_call s, ?_,
    main_eq_spec env fuel s t, ?_, ?_⟩
  · intro n
    rw [main_with_record_call]
    constructor
    · rintro ⟨calls, hc, hn⟩
      have hcalls : calls = [6, 5, 4, 3, 2, 1, 0].filter fun n => s.dpcr.testBit (4 * n + 3) := by
        have h2 := Option.some.inj hc
        exact (congrArg Prod.snd h2).symm
      rw [hcalls, List.mem_filter] at hn
      refine ⟨?_, hn.2⟩
      have hm := hn.1
      simp only [List.mem_cons, List.mem_singleton, List.not_mem_nil, or_false] at hm
      omega
    · rintro ⟨hle, hb⟩
      refine ⟨_, rfl, ?_⟩
      rw [List.mem_filter]
      refine ⟨?_, hb⟩
      simp only [List.mem_cons, List.mem_singleton, List.not_mem_nil, or_false]
      omega
  · intro h11 h27
    rw [main_eq]
    have g6 := gate_skip env fuel 27 6 (s, t) h27
    have g2 := gate_skip env fuel 11 2 (s, t) h11
    norm_num at g6 g2
    rw [g6, Option.some_bind, g2]
  · intro width address data hc hr
    refine ⟨?_, ?_⟩
    · intro h27 h11 h6
      rw [io_write_eq, store_dpcr s t address data hc hr, main_eq]
      have g6 := gate_take env fuel 27 6 ({ s with dpcr := data }, t) h27
      have e6 : dma.run_channel env fuel { s with dpcr := data } t 6 =
          some (run_channel_6 { s with dpcr := data } t) := by
        unfold dma.run_channel
        simp [h6]
      have hd : (run_channel_6 { s with dpcr := data } t).1.dpcr = data :=
        run_channel_dpcr env fuel { s with dpcr := data } t 6 _ e6
      have g2 := gate_skip env fuel 11 2 (run_channel_6 { s with dpcr := data } t)
        (by rw [hd]; exact h11)
      norm_num at g6 g2
      rw [g6, e6, Option.some_bind, g2]
    · intro h11 h27
      rw [io_write_eq, store_dpcr s t address data hc hr, main_eq]
      have g6 := gate_skip env fuel 27 6 ({ s with dpcr := data }, t) h27
      have g2 := gate_take env fuel 11 2 ({ s with dpcr := data }, t) h11
      norm_num at g6 g2
      rw [g6, Option.some_bind, g2]

/-- C15 at a concrete input: with `dpcr = 0x08800808` the dispatcher is invoked
for channels 6, 5, 2, 0 and for no other; and with channel 6 holding its start
pattern but no enable bit set the scheduler does nothing, while writing
0x08000000 to `dpcr` (at 0x1f8010f0) then runs the transfer. -/
theorem main_enable_gating_witness :
    dma.main_with record_call (example_state 0x08800808 0 ⟨0, 0, 0⟩ ⟨0, 0, 0⟩) [] =
      some (example_state 0x08800808 0 ⟨0, 0, 0⟩ ⟨0, 0, 0⟩,
        [6, 5, 4, 3, 2, 1, 0].filter fun n =>
          (example_state 0x08800808 0 ⟨0, 0, 0⟩ ⟨0, 0, 0⟩).dpcr.testBit (4 * n + 3)) ∧
    ([6, 5, 4, 3, 2, 1, 0].filter fun n =>
        (example_state 0x08800808 0 ⟨0, 0, 0⟩ ⟨0, 0, 0⟩).dpcr.testBit (4 * n + 3)) =
      [6, 5, 2, 0] ∧
    dma.main (fun _ _ => 0) 0 (example_state 0 0 ⟨0, 0, 0⟩ ⟨0x1000, 2, 0x11000002⟩) [] =
      some (example_state 0 0 ⟨0, 0, 0⟩ ⟨0x1000, 2, 0x11000002⟩, []) ∧
    dma.io_write (fun _ _ => 0) 0 (example_state 0 0 ⟨0, 0, 0⟩ ⟨0x1000, 2, 0x11000002⟩) [] 4
        0x1f8010f0 0x08000000 =
      some (run_channel_6
        { example_state 0 0 ⟨0, 0, 0⟩ ⟨0x1000, 2, 0x11000002⟩ with dpcr := 0x08000000 } []) ∧
    (run_channel_6
        { example_state 0 0 ⟨0, 0, 0⟩ ⟨0x1000, 2, 0x11000002⟩ with dpcr := 0x08000000 } []).2 =
      [BusEvent.write 0x1000 0x00000ffc, BusEvent.write 0x0ffc 0x00ffffff] :=
  ⟨(main_enable_gating (fun _ _ => 0) 0 (example_state 0x08800808 0 ⟨0, 0, 0⟩ ⟨0, 0, 0⟩)
      []).2.1,
   by decide,
   (main_enable_gating (fun _ _ => 0) 0 (example_state 0 0 ⟨0, 0, 0⟩ ⟨0x1000, 2, 0x11000002⟩)
      []).2.2.2.2.1 (by decide) (by decide),
   ((main_enable_gating (fun _ _ => 0) 0 (example_state 0 0 ⟨0, 0, 0⟩ ⟨0x1000, 2, 0x11000002⟩)
      []).2.2.2.2.2 4 0x1f8010f0 0x08000000 (by decide) (by decide)).1 (by decide) (by decide)
      (by decide),
   by decide⟩

/-! ## Quiescence -/

theorem quiescent_iff (s : dma_state_t) :
    quiescent s ↔
      (s.dpcr.testBit 27 = true → (s.channels 6).control ≠ 0x11000002) ∧
      (s.dpcr.testBit 11 = true → (s.channels 2).control ≠ 0x01000200 ∧
        (s.channels 2).control ≠ 0x01000201 ∧ (s.channels 2).control ≠ 0x01000401) := by
  unfold quiescent recognized
  constructor
  · rintro ⟨h6, h2⟩
    refine ⟨fun hb hc => h6 ⟨hb, Or.inr ⟨rfl, hc⟩⟩, fun hb => ⟨?_, ?_, ?_⟩⟩
    · exact fun hc => h2 ⟨hb, Or.inl ⟨rfl, Or.inl hc⟩⟩
    · exact fun hc => h2 ⟨hb, Or.inl ⟨rfl, Or.inr (Or.inl hc)⟩⟩
    · exact fun hc => h2 ⟨hb, Or.inl ⟨rfl, Or.inr (Or.inr hc)⟩⟩
  · rintro ⟨h6, h2⟩
    refine ⟨?_, ?_⟩
    · rintro ⟨hb, (⟨h62, _⟩ | ⟨_, hc⟩)⟩
      · omega
      · exact h6 hb hc
    · rintro ⟨hb, (⟨_, hc⟩ | ⟨h26, _⟩)⟩
      · obtain ⟨a, b, c⟩ := h2 hb
        rcases hc with hc | hc | hc
        · exact a hc
        · exact b hc
        · exact c hc
      · omega

/-- C18 (quiescence after scheduling): whenever `dma::main` returns, in the
state it leaves an enabled channel 6 does not hold 0x11000002 and an enabled
channel 2 holds none of 0x01000200, 0x01000201, 0x01000401, so a second
`dma::main` returns the same state and trace (no bus access, no interrupt);
hence the same holds of every state reachable from reset by `io_write`
calls. -/
theorem main_leaves_quiescent :
    (∀ (env : Env) (fuel : Nat) (s : dma_state_t) (t : Trace) (r : dma_state_t × Trace),
      dma.main env fuel s t = some r →
      (r.1.dpcr.testBit 27 = true → (r.1.channels 6).control ≠ 0x11000002) ∧
      (r.1.dpcr.testBit 11 = true → (r.1.channels 2).control ≠ 0x01000200 ∧
        (r.1.channels 2).control ≠ 0x01000201 ∧ (r.1.channels 2).control ≠ 0x01000401) ∧
      ∀ (env2 : Env) (fuel2 : Nat) (t2 : Trace),
        dma.main env2 fuel2 r.1 t2 = some (r.1, t2)) ∧
    (∀ s : dma_state_t, Reachable s →
      (s.dpcr.testBit 27 = true → (s.channels 6).control ≠ 0x11000002) ∧
      (s.dpcr.testBit 11 = true → (s.channels 2).control ≠ 0x01000200 ∧
        (s.channels 2).control ≠ 0x01000201 ∧ (s.channels 2).control ≠ 0x01000401)) := by
  refine ⟨?_, ?_⟩
  · intro env fuel s t r h
    have hq := main_quiescent env fuel s t r h
    have h2 := (quiescent_iff r.1).1 hq
    exact ⟨h2.1, h2.2, fun env2 fuel2 t2 => main_of_quiescent env2 fuel2 r.1 t2 hq⟩
  · intro s hs
    exact (quiescent_iff s).1 (reachable_quiescent s hs)

/-- C18 at a concrete input: both channels enabled and holding start patterns;
the scheduler returns and leaves channel 6 at 0x00000002 and channel 2 at
0x00000200. -/
theorem main_leaves_quiescent_witness :
    dma.main (fun _ _ => 0) 0
        (example_state 0x08000800 0 ⟨0x100, 0x00010001, 0x01000200⟩ ⟨0x1000, 2, 0x11000002⟩) [] =
      some ((dma.main (fun _ _ => 0) 0
        (example_state 0x08000800 0 ⟨0x100, 0x00010001, 0x01000200⟩ ⟨0x1000, 2, 0x11000002⟩)
        []).get (by decide)) ∧
    (((dma.main (fun _ _ => 0) 0
        (example_state 0x08000800 0 ⟨0x100, 0x00010001, 0x01000200⟩ ⟨0x1000, 2, 0x11000002⟩)
        []).get (by decide)).1.dpcr.testBit 27 = true →
      (((dma.main (fun _ _ => 0) 0
        (example_state 0x08000800 0 ⟨0x100, 0x00010001, 0x01000200⟩ ⟨0x1000, 2, 0x11000002⟩)
        []).get (by decide)).1.channels 6).control ≠ 0x11000002) ∧
    (dma.main (fun _ _ => 0) 0
        (example_state 0x08000800 0 ⟨0x100, 0x00010001, 0x01000200⟩ ⟨0x1000, 2, 0x11000002⟩)
        []).map (fun r => ((r.1.channels 6).control, (r.1.channels 2).control)) =
      some (0x00000002, 0x00000200) :=
  ⟨(Option.some_get _).symm,
   (main_leaves_quiescent.1 (fun _ _ => 0) 0
      (example_state 0x08000800 0 ⟨0x100, 0x00010001, 0x01000200⟩ ⟨0x1000, 2, 0x11000002⟩) [] _
      (Option.some_get _).symm).1,
   by decide⟩

/-! ## Frame of a dispatch -/

theorem testBit_clear_24 (i : Nat) (hi : i ≠ 24) (c : Nat) (hc : c < 2 ^ 32) :
    (c &&& 0xfeffffff).testBit i = c.testBit i := by
  rw [Nat.testBit_and]
  by_cases h32 : i < 32
  · have : Nat.testBit 0xfeffffff i = true := by
      interval_cases i <;> first | rfl | exact absurd rfl hi
    rw [this, Bool.and_true]
  · rw [testBit_of_lt_32 hc (by omega)]
    rfl

theorem testBit_clear_24_28 (i : Nat) (h24 : i ≠ 24) (h28 : i ≠ 28) (c : Nat) (hc : c < 2 ^ 32) :
    (c &&& 0xeeffffff).testBit i = c.testBit i := by
  rw [Nat.testBit_and]
  by_cases h32 : i < 32
  · have : Nat.testBit 0xeeffffff i = true := by
      interval_cases i <;> first | rfl | exact absurd rfl h24 | exact absurd rfl h28
    rw [this, Bool.and_true]
  · rw [testBit_of_lt_32 hc (by omega)]
    rfl

/-- C19 (transfer frame): a `run_channel(n)` that returns leaves `dpcr`, every
channel's address and counter registers and every other channel's control
register unchanged; of channel `n`'s control register it can change only bit
24 when `n = 2` and only bits 24 and 28 when `n = 6`, and for any other `n` it
changes nothing at all; of `dicr` it can change only bits `24 + n` and 31. -/
theorem run_channel_frame (env : Env) (fuel : Nat) (s : dma_state_t) (t : Trace) (n : Nat)
    (r : dma_state_t × Trace) (h : dma.run_channel env fuel s t n = some r) :
    r.1.dpcr = s.dpcr ∧
      (∀ d : Fin 7, (r.1.channels d).address = (s.channels d).address ∧
        (r.1.channels d).counter = (s.channels d).counter) ∧
      (∀ d : Fin 7, d.val ≠ n → (r.1.channels d).control = (s.channels d).control) ∧
      (n = 2 → ∀ i, i ≠ 24 →
        (r.1.channels 2).control.testBit i = (s.channels 2).control.testBit i) ∧
      (n = 6 → ∀ i, i ≠ 24 → i ≠ 28 →
        (r.1.channels 6).control.testBit i = (s.channels 6).control.testBit i) ∧
      (n ≠ 2 → n ≠ 6 → r = (s, t)) ∧
      (∀ i, i < 32 → i ≠ 31 → i ≠ 24 + n → r.1.dicr.testBit i = s.dicr.testBit i) := by
  refine ⟨run_channel_dpcr env fuel s t n r h,
    fun d => ⟨run_channel_address env fuel s t n r h d, run_channel_counter env fuel s t n r h d⟩,
    fun d hd => run_channel_control_other env fuel s t n r h d hd, ?_, ?_, ?_, ?_⟩
  · intro hn i hi
    rcases run_channel_cases env fuel s t n r h with ⟨_, rfl⟩ | ⟨_, hr, t1, rfl⟩ | ⟨h6, _⟩
    · rfl
    · rw [transfer_done_control_self]
      apply testBit_clear_24 i hi
      rcases hr with ⟨_, hc | hc | hc⟩ | ⟨h62, _⟩
      · rw [hc]; norm_num
      · rw [hc]; norm_num
      · rw [hc]; norm_num
      · omega
    · omega
  · intro hn i h24 h28
    rcases run_channel_cases env fuel s t n r h with ⟨_, rfl⟩ | ⟨h2, _⟩ | ⟨_, hr, t1, rfl⟩
    · rfl
    · omega
    · rw [transfer_done_control_self]
      apply testBit_clear_24_28 i h24 h28
      rcases hr with ⟨h62, _⟩ | ⟨_, hc⟩
      · omega
      · rw [hc]; norm_num
  · intro h2 h6
    rcases run_channel_cases env fuel s t n r h with ⟨_, hr⟩ | ⟨hn, _⟩ | ⟨hn, _⟩
    · exact hr
    · exact absurd hn h2
    · exact absurd hn h6
  · intro i _ h31 hne
    exact run_channel_dicr_bit env fuel s t n r h i (by omega) hne

theorem run_channel_6_of_pattern (env : Env) (fuel : Nat) (s : dma_state_t) (t : Trace)
    (h6 : (s.channels 6).control = 0x11000002) :
    dma.run_channel env fuel s t 6 = some (run_channel_6 s t) := by
  unfold dma.run_channel
  simp [h6]

/-- C19 at a concrete input: a channel-6 transfer with the mask bit 22 set;
the address and counter registers of channel 6 are as before although the
transfer walked down from the address. -/
theorem run_channel_frame_witness :
    dma.run_channel (fun _ _ => 0) 0
        (example_state 0x08000000 0x00400000 ⟨0, 0, 0⟩ ⟨0x1000, 4, 0x11000002⟩) [] 6 =
      some (run_channel_6
        (example_state 0x08000000 0x00400000 ⟨0, 0, 0⟩ ⟨0x1000, 4, 0x11000002⟩) []) ∧
    (∀ d : Fin 7,
      ((run_channel_6 (example_state 0x08000000 0x00400000 ⟨0, 0, 0⟩ ⟨0x1000, 4, 0x11000002⟩)
          []).1.channels d).address =
        ((example_state 0x08000000 0x00400000 ⟨0, 0, 0⟩ ⟨0x1000, 4, 0x11000002⟩).channels
          d).address ∧
      ((run_channel_6 (example_state 0x08000000 0x00400000 ⟨0, 0, 0⟩ ⟨0x1000, 4, 0x11000002⟩)
          []).1.channels d).counter =
        ((example_state 0x08000000 0x00400000 ⟨0, 0, 0⟩ ⟨0x1000, 4, 0x11000002⟩).channels
          d).counter) ∧
    (run_channel_6 (example_state 0x08000000 0x00400000 ⟨0, 0, 0⟩ ⟨0x1000, 4, 0x11000002⟩)
      []).1.dicr = 0x40400000 :=
  ⟨run_channel_6_of_pattern _ _ _ _ (by decide),
   (run_channel_frame (fun _ _ => 0) 0
      (example_state 0x08000000 0x00400000 ⟨0, 0, 0⟩ ⟨0x1000, 4, 0x11000002⟩) [] 6 _
      (run_channel_6_of_pattern _ _ _ _ (by decide))).2.1,
   by decide⟩

/-! ## Channel 2, memory to device -/

theorem block_write_spec_length (env : Env) (t : Trace) (A k : Nat) :
    (block_write_spec env t A k).length = 2 * k := by
  induction k with
  | zero => rfl
  | succ k ih => simp [block_write_spec, ih]; omega

theorem block_write_spec_mod (env : Env) (t : Trace) (A k : Nat) :
    block_write_spec env t (A % 2 ^ 32) k = block_write_spec env t A k := by
  induction k with
  | zero => rfl
  | succ k ih => simp only [block_write_spec, ih, Nat.mod_add_mod]

theorem block_write_spec_add (env : Env) (t : Trace) (A j k : Nat) :
    block_write_spec env t A (j + k) =
      block_write_spec env t A j ++
        block_write_spec env (t ++ block_write_spec env t A j) (A + 4 * j) k := by
  induction k with
  | zero => simp [block_write_spec]
  | succ k ih =>
    rw [← Nat.add_assoc]
    simp only [block_write_spec, ih, List.append_assoc]
    have : A + 4 * (j + k) = A + 4 * j + 4 * k := by ring
    rw [this]

theorem block_write_spec_take (env : Env) (t : Trace) (A : Nat) (i k : Nat) (h : i ≤ k) :
    (block_write_spec env t A k).take (2 * i) = block_write_spec env t A i := by
  obtain ⟨d, rfl⟩ := Nat.exists_eq_add_of_le h
  rw [block_write_spec_add, List.take_left' (block_write_spec_length env t A i)]

/-- The two events of the `i`-th word of a memory-to-device transfer. -/
theorem block_write_spec_get (env : Env) (t : Trace) (A : Nat) (i k : Nat) (h : i < k) :
    (block_write_spec env t A k)[2 * i]? =
        some (BusEvent.read ((A + 4 * i) % 2 ^ 32)
          (env (t ++ (block_write_spec env t A k).take (2 * i)) ((A + 4 * i) % 2 ^ 32) % 2 ^ 32)) ∧
      (block_write_spec env t A k)[2 * i + 1]? =
        some (BusEvent.write 0x1f801810
          (env (t ++ (block_write_spec env t A k).take (2 * i)) ((A + 4 * i) % 2 ^ 32) % 2 ^ 32)) := by
  rw [block_write_spec_take env t A i k (Nat.le_of_lt h)]
  obtain ⟨d, rfl⟩ := Nat.exists_eq_add_of_le (Nat.succ_le_of_lt h)
  rw [Nat.succ_eq_add_one, block_write_spec_add]
  have hl : (block_write_spec env t A (i + 1)).length = 2 * i + 2 := by
    rw [block_write_spec_length]; ring
  rw [List.getElem?_append_left (by omega), List.getElem?_append_left (by omega)]
  simp only [block_write_spec]
  have hl2 := block_write_spec_length env t A i
  rw [List.getElem?_append_right (by omega), List.getElem?_append_right (by omega)]
  simp [hl2]

theorem data_write_inner (env : Env) (k : Nat) :
    ∀ (A : Nat) (t : Trace), A < 2 ^ 32 →
      run_channel_2_data_write.inner env k A t =
        ((A + 4 * k) % 2 ^ 32, t ++ block_write_spec env t A k) := by
  induction k with
  | zero =>
    intro A t hA
    have hA2 : A % 4294967296 = A := Nat.mod_eq_of_lt hA
    simp [run_channel_2_data_write.inner, block_write_spec, hA2]
  | succ k ih =>
    intro A t hA
    have h1 : block_write_spec env t A (1 + k) = _ := block_write_spec_add env t A 1 k
    rw [Nat.add_comm 1 k] at h1
    rw [h1]
    simp only [run_channel_2_data_write.inner, bus.read, bus.write]
    rw [ih _ _ (Nat.mod_lt _ (by norm_num)), block_write_spec_mod]
    simp only [block_write_spec, List.append_nil, List.nil_append, List.append_assoc,
      List.singleton_append, Nat.mul_zero, Nat.add_zero, Nat.mod_eq_of_lt hA, Nat.mul_one]
    congr 1
    omega

theorem data_write_outer (env : Env) (bs : Nat) (k : Nat) :
    ∀ (A : Nat) (t : Trace), A < 2 ^ 32 →
      run_channel_2_data_write.outer env bs k A t =
        ((A + 4 * (bs * k)) % 2 ^ 32, t ++ block_write_spec env t A (bs * k)) := by
  induction k with
  | zero =>
    intro A t hA
    have hA2 : A % 4294967296 = A := Nat.mod_eq_of_lt hA
    simp [run_channel_2_data_write.outer, block_write_spec, hA2]
  | succ k ih =>
    intro A t hA
    simp only [run_channel_2_data_write.outer]
    rw [data_write_inner env bs A t hA, ih _ _ (Nat.mod_lt _ (by norm_num)), block_write_spec_mod]
    have h1 : bs * (k + 1) = bs + bs * k := by ring
    rw [h1, block_write_spec_add, List.append_assoc]
    congr 1
    omega

theorem run_channel_2_data_write_eq (env : Env) (s : dma_state_t) (t : Trace)
    (hA : (s.channels 2).address < 2 ^ 32) :
    run_channel_2_data_write env s t =
      transfer_done s 2 0xfeffffff
        (t ++ block_write_spec env t (s.channels 2).address
          (block_size (s.channels 2).counter * block_count (s.channels 2).counter)) 2 := by
  unfold run_channel_2_data_write
  simp only [decode_block_size, decode_block_count]
  rw [data_write_outer env _ _ _ t hA]
  rfl

/-- C12 (channel-2 memory-to-device block write): with `control = 0x01000201`,
address register `A` and a counter encoding block size `bs` and block count
`ba` (a zero field meaning 0x10000), `run_channel(2)` returns; the bus accesses
it adds to the trace are exactly `bs * ba` pairs, the `i`-th pair being a read
of `(A + 4 * i) mod 2^32` followed by a write of the word just read to the port
0x1f801810, so every write goes to the port and the reads ascend from `A`
(literally `A + 4 * i` when the transfer does not run past `2^32`); after them
comes at most one interrupt request; and the control register is left at
0x00000201. -/
theorem run_channel_2_block_write (env : Env) (fuel : Nat) (s : dma_state_t) (t : Trace)
    (hc : (s.channels 2).control = 0x01000201) (hA : (s.channels 2).address < 2 ^ 32) :
    ∃ (s2 : dma_state_t) (q : Trace),
      dma.run_channel env fuel s t 2 =
        some (s2, t ++ block_write_spec env t (s.channels 2).address
          (block_size (s.channels 2).counter * block_count (s.channels 2).counter) ++ q) ∧
      (q = [] ∨ q = [BusEvent.irq 3]) ∧
      (s2.channels 2).control = 0x00000201 ∧
      (block_write_spec env t (s.channels 2).address
        (block_size (s.channels 2).counter * block_count (s.channels 2).counter)).length =
        2 * (block_size (s.channels 2).counter * block_count (s.channels 2).counter) ∧
      ∀ i, i < block_size (s.channels 2).counter * block_count (s.channels 2).counter →
        (block_write_spec env t (s.channels 2).address
          (block_size (s.channels 2).counter * block_count (s.channels 2).counter))[2 * i]? =
          some (BusEvent.read (((s.channels 2).address + 4 * i) % 2 ^ 32)
            (env (t ++ (block_write_spec env t (s.channels 2).address
              (block_size (s.channels 2).counter * block_count (s.channels 2).counter)).take
                (2 * i)) (((s.channels 2).address + 4 * i) % 2 ^ 32) % 2 ^ 32)) ∧
        (block_write_spec env t (s.channels 2).address
          (block_size (s.channels 2).counter * block_count (s.channels 2).counter))[2 * i + 1]? =
          some (BusEvent.write 0x1f801810
            (env (t ++ (block_write_spec env t (s.channels 2).address
              (block_size (s.channels 2).counter * block_count (s.channels 2).counter)).take
                (2 * i)) (((s.channels 2).address + 4 * i) % 2 ^ 32) % 2 ^ 32)) ∧
        ((s.channels 2).address +
            4 * (block_size (s.channels 2).counter * block_count (s.channels 2).counter) ≤
            2 ^ 32 →
          ((s.channels 2).address + 4 * i) % 2 ^ 32 = (s.channels 2).address + 4 * i) := by
  obtain ⟨q, hq, hq2⟩ := transfer_done_trace s 2 0xfeffffff
    (t ++ block_write_spec env t (s.channels 2).address
      (block_size (s.channels 2).counter * block_count (s.channels 2).counter)) 2
  refine ⟨(run_channel_2_data_write env s t).1, q, ?_, hq2, ?_,
    block_write_spec_length _ _ _ _, fun i hi =>
      ⟨(block_write_spec_get env t _ i _ hi).1, (block_write_spec_get env t _ i _ hi).2,
        fun hle => Nat.mod_eq_of_lt (by omega)⟩⟩
  · unfold dma.run_channel
    have h1 : ¬ ((0x01000201 : Nat) = 0x01000200) := by decide
    simp only [hc, h1, and_false, if_false, and_self, if_true]
    rw [← hq, ← run_channel_2_data_write_eq env s t hA]
  · rw [run_channel_2_data_write_eq env s t hA, transfer_done_control_self, hc]
    rfl

/-- C12 at a concrete input: block size 2, block count 2, address 0x2000, and
a memory holding `a + 1` at every address `a`. -/
theorem run_channel_2_block_write_witness :
    ((example_state 0x00000800 0 ⟨0x2000, 0x00020002, 0x01000201⟩ ⟨0, 0, 0⟩).channels 2).control =
        0x01000201 ∧
      ((example_state 0x00000800 0 ⟨0x2000, 0x00020002, 0x01000201⟩ ⟨0, 0, 0⟩).channels 2).address <
        2 ^ 32 ∧
      ∃ (s2 : dma_state_t) (q : Trace),
        dma.run_channel (fun _ a => a + 1) 0
            (example_state 0x00000800 0 ⟨0x2000, 0x00020002, 0x01000201⟩ ⟨0, 0, 0⟩) [] 2 =
          some (s2,
            [BusEvent.read 0x2000 0x2001, BusEvent.write 0x1f801810 0x2001,
             BusEvent.read 0x2004 0x2005, BusEvent.write 0x1f801810 0x2005,
             BusEvent.read 0x2008 0x2009, BusEvent.write 0x1f801810 0x2009,
             BusEvent.read 0x200c 0x200d, BusEvent.write 0x1f801810 0x200d] ++ q) ∧
        (q = [] ∨ q = [BusEvent.irq 3]) ∧ (s2.channels 2).control = 0x00000201 := by
  refine ⟨by decide, by decide, ?_⟩
  obtain ⟨s2, q, h1, h2, h3, _⟩ := run_channel_2_block_write (fun _ a => a + 1) 0
    (example_state 0x00000800 0 ⟨0x2000, 0x00020002, 0x01000201⟩ ⟨0, 0, 0⟩) [] (by decide)
    (by decide)
  exact ⟨s2, q, h1, h2, h3⟩

/-! ## Channel 2, linked list without a sentinel -/

/-- If the list loop returns, the chain followed from its start address
reaches the sentinel. -/
theorem list_loop_some (env : Env) (t : Trace) (m : Nat → Nat) (hmem : reads_memory env t m)
    (fuel : Nat) :
    ∀ (A : Nat) (ext t2 : Trace), A < 0x1000000 → ext.all keeps_memory = true →
      run_channel_2_list.loop env fuel A (t ++ ext) = some t2 → ∃ hs, Chain m A hs := by
  induction fuel with
  | zero =>
    intro A ext t2 _ _ h
    unfold run_channel_2_list.loop at h
    by_cases hA : A = 0xffffff
    · subst hA
      exact ⟨[], Chain.done⟩
    · rw [if_neg hA] at h
      exact absurd h (by simp)
  | succ f ih =>
    intro A ext t2 ha hext h
    by_cases hA : A = 0xffffff
    · subst hA
      exact ⟨[], Chain.done⟩
    · have hv : env (t ++ ext) A % 2 ^ 32 = m A := hmem ext A hext (by omega)
      have hlt : m A < 2 ^ 32 := reads_memory_lt env t m hmem A (by omega)
      have hcount : m A >>> 24 < 256 := by
        rw [Nat.shiftRight_eq_div_pow]
        omega
      have ha4 : (A + 4) % 2 ^ 32 = A + 4 := Nat.mod_eq_of_lt (by omega)
      have hnext : m A &&& 0xffffff = m A % 0x1000000 :=
        Nat.and_pow_two_sub_one_eq_mod (m A) 24
      have hk : (ext ++ [BusEvent.read A (m A)]).all keeps_memory = true := by
        rw [List.all_append, hext]
        simp [keeps_memory]
      have hp := list_packet env t m hmem (m A >>> 24) (A + 4) (ext ++ [BusEvent.read A (m A)])
        hk (by omega)
      have hk2 : (ext ++ [BusEvent.read A (m A)] ++ packet_events m (m A >>> 24) (A + 4)).all
          keeps_memory = true := by
        rw [List.all_append, hk, keeps_packet_events]
        rfl
      unfold run_channel_2_list.loop at h
      rw [if_neg hA] at h
      simp only [bus.read] at h
      rw [hv, ha4, hnext] at h
      simp only [List.append_assoc] at hp h
      rw [hp] at h
      have h2 : run_channel_2_list.loop env f (m A % 0x1000000)
          (t ++ (ext ++ [BusEvent.read A (m A)] ++ packet_events m (m A >>> 24) (A + 4))) =
          some t2 := by
        simp only [List.append_assoc]
        exact h
      obtain ⟨hs, hch⟩ := ih (m A % 0x1000000) _ t2 (Nat.mod_lt _ (by norm_num)) hk2 h2
      exact ⟨A :: hs, Chain.next A hs hA hch⟩

/-- C16 (an unterminated chain diverges): let the address register hold a
24-bit address `A`, let the environment answer reads from a memory `m` that
only port writes do not change, and let no chain of headers followed from `A`
reach the sentinel 0xffffff.  Then for every number of loop iterations the
`while` loop of the linked-list transfer is still running, and
`run_channel(2)` with `control = 0x01000401` never returns, so the busy bit is
never cleared. -/
theorem run_channel_2_list_diverges (env : Env) (s : dma_state_t) (t : Trace) (m : Nat → Nat)
    (hc : (s.channels 2).control = 0x01000401) (hA : (s.channels 2).address < 0x1000000)
    (hmem : reads_memory env t m) (hno : ∀ hs, ¬ Chain m (s.channels 2).address hs) :
    ∀ fuel : Nat,
      run_channel_2_list.loop env fuel (s.channels 2).address t = none ∧
      dma.run_channel env fuel s t 2 = none := by
  intro fuel
  have hl : run_channel_2_list.loop env fuel (s.channels 2).address t = none := by
    cases hr : run_channel_2_list.loop env fuel (s.channels 2).address t with
    | none => rfl
    | some t2 =>
      have hr2 : run_channel_2_list.loop env fuel (s.channels 2).address (t ++ []) = some t2 := by
        rw [List.append_nil]; exact hr
      obtain ⟨hs, hch⟩ := list_loop_some env t m hmem fuel _ [] t2 hA rfl hr2
      exact absurd hch (hno hs)
  refine ⟨hl, ?_⟩
  unfold dma.run_channel
  have h1 : ¬ ((0x01000401 : Nat) = 0x01000200) := by decide
  have h2 : ¬ ((0x01000401 : Nat) = 0x01000201) := by decide
  simp only [hc, h1, h2, and_false, if_false, and_self, if_true]
  unfold run_channel_2_list
  rw [hl]

theorem loop_memory_reads : reads_memory (fun _ a => loop_memory a) [] loop_memory := by
  intro ext a _ _
  show loop_memory a % 2 ^ 32 = loop_memory a
  unfold loop_memory
  split_ifs <;> rfl

theorem loop_memory_no_chain : ∀ hs, ¬ Chain loop_memory 0x100 hs := by
  intro hs h
  generalize ha : (0x100 : Nat) = a at h
  induction h with
  | done => exact absurd ha (by decide)
  | next a hs _ _ ih =>
    subst ha
    exact ih rfl

/-- C16 at the claim's example: address register 0x100 and the word 0x00000100
at 0x100; with a million iterations allowed the loop has still not ended. -/
theorem run_channel_2_list_diverges_witness :
    reads_memory (fun _ a => loop_memory a) [] loop_memory ∧
      (∀ hs, ¬ Chain loop_memory 0x100 hs) ∧
      run_channel_2_list.loop (fun _ a => loop_memory a) 1000000 0x100 [] = none ∧
      dma.run_channel (fun _ a => loop_memory a) 1000000
        (example_state 0x00000800 0 ⟨0x100, 0, 0x01000401⟩ ⟨0, 0, 0⟩) [] 2 = none :=
  ⟨loop_memory_reads, loop_memory_no_chain,
   run_channel_2_list_diverges (fun _ a => loop_memory a)
    (example_state 0x00000800 0 ⟨0x100, 0, 0x01000401⟩ ⟨0, 0, 0⟩) [] loop_memory (by decide)
    (by decide) loop_memory_reads loop_memory_no_chain 1000000⟩

/-! ## Interrupt requests per register write -/

theorem irq_count_append (t u : Trace) : irq_count (t ++ u) = irq_count t + irq_count u := by
  unfold irq_count
  rw [List.filter_append, List.length_append]

theorem extends_quietly_refl (t : Trace) : extends_quietly t t :=
  ⟨[], by simp, rfl⟩

theorem extends_quietly_trans {t t2 t3 : Trace} (h1 : extends_quietly t t2)
    (h2 : extends_quietly t2 t3) : extends_quietly t t3 := by
  obtain ⟨e1, rfl, c1⟩ := h1
  obtain ⟨e2, rfl, c2⟩ := h2
  exact ⟨e1 ++ e2, by simp, by rw [irq_count_append, c1, c2]⟩

theorem extends_quietly_read (env : Env) (t : Trace) (a : Nat) :
    extends_quietly t (bus.read env t a).2 :=
  ⟨[BusEvent.read a (env t a % 2 ^ 32)], rfl, rfl⟩

theorem extends_quietly_write (t : Trace) (a v : Nat) : extends_quietly t (bus.write t a v) :=
  ⟨[BusEvent.write a v], rfl, rfl⟩

theorem data_read_inner_quiet (env : Env) (k : Nat) :
    ∀ (A : Nat) (t : Trace), extends_quietly t (run_channel_2_data_read.inner env k A t).2 := by
  induction k with
  | zero => intro A t; exact extends_quietly_refl t
  | succ k ih =>
    intro A t
    simp only [run_channel_2_data_read.inner]
    exact extends_quietly_trans
      (extends_quietly_trans (extends_quietly_read env t _) (extends_quietly_write _ _ _))
      (ih _ _)

theorem data_read_outer_quiet (env : Env) (bs k : Nat) :
    ∀ (A : Nat) (t : Trace),
      extends_quietly t (run_channel_2_data_read.outer env bs k A t).2 := by
  induction k with
  | zero => intro A t; exact extends_quietly_refl t
  | succ k ih =>
    intro A t
    simp only [run_channel_2_data_read.outer]
    exact extends_quietly_trans (data_read_inner_quiet env bs A t) (ih _ _)

theorem data_write_inner_quiet (env : Env) (k : Nat) :
    ∀ (A : Nat) (t : Trace), extends_quietly t (run_channel_2_data_write.inner env k A t).2 := by
  induction k with
  | zero => intro A t; exact extends_quietly_refl t
  | succ k ih =>
    intro A t
    simp only [run_channel_2_data_write.inner]
    exact extends_quietly_trans
      (extends_quietly_trans (extends_quietly_read env t _) (extends_quietly_write _ _ _))
      (ih _ _)

theorem data_write_outer_quiet (env : Env) (bs k : Nat) :
    ∀ (A : Nat) (t : Trace),
      extends_quietly t (run_channel_2_data_write.outer env bs k A t).2 := by
  induction k with
  | zero => intro A t; exact extends_quietly_refl t
  | succ k ih =>
    intro A t
    simp only [run_channel_2_data_write.outer]
    exact extends_quietly_trans (data_write_inner_quiet env bs A t) (ih _ _)

theorem list_packet_quiet (env : Env) (k : Nat) :
    ∀ (A : Nat) (t : Trace), extends_quietly t (run_channel_2_list.packet env k A t).2 := by
  induction k with
  | zero => intro A t; exact extends_quietly_refl t
  | succ k ih =>
    intro A t
    simp only [run_channel_2_list.packet]
    exact extends_quietly_trans
      (extends_quietly_trans (extends_quietly_read env t _) (extends_quietly_write _ _ _))
      (ih _ _)

theorem list_loop_quiet (env : Env) (fuel : Nat) :
    ∀ (A : Nat) (t t2 : Trace), run_channel_2_list.loop env fuel A t = some t2 →
      extends_quietly t t2 := by
  induction fuel with
  | zero =>
    intro A t t2 h
    unfold run_channel_2_list.loop at h
    split at h
    · cases h; exact extends_quietly_refl t
    · exact absurd h (by simp)
  | succ f ih =>
    intro A t t2 h
    unfold run_channel_2_list.loop at h
    split at h
    · cases h; exact extends_quietly_refl t
    · simp only at h
      exact extends_quietly_trans
        (extends_quietly_trans (extends_quietly_read env t A) (list_packet_quiet env _ _ _))
        (ih _ _ _ h)

theorem channel_6_loop_quiet (k : Nat) :
    ∀ (A : Nat) (t : Trace), extends_quietly t (run_channel_6.loop k A t).2 := by
  induction k with
  | zero => intro A t; exact extends_quietly_refl t
  | succ k ih =>
    intro A t
    simp only [run_channel_6.loop]
    exact extends_quietly_trans (extends_quietly_write _ _ _) (ih _ _)

/-- As `run_channel_cases`, with the trace the transfer leaves before its
completion is signalled: the entry trace followed by reads and writes only. -/
theorem run_channel_cases_quiet (env : Env) (fuel : Nat) (s : dma_state_t) (t : Trace) (n : Nat)
    (r : dma_state_t × Trace) (h : dma.run_channel env fuel s t n = some r) :
    r = (s, t) ∨
      ∃ (c : Fin 7) (keep : Nat) (t1 : Trace) (k : Nat),
        r = transfer_done s c keep t1 k ∧ extends_quietly t t1 := by
  unfold dma.run_channel at h
  split at h
  · right
    cases h
    exact ⟨2, 0xfeffffff, _, 2, rfl, data_read_outer_quiet env _ _ _ t⟩
  · split at h
    · right
      cases h
      exact ⟨2, 0xfeffffff, _, 2, rfl, data_write_outer_quiet env _ _ _ t⟩
    · split at h
      · right
        unfold run_channel_2_list at h
        split at h
        · exact absurd h (by simp)
        · rename_i t1 hl
          cases h
          exact ⟨2, 0xfeffffff, t1, 2, rfl, list_loop_quiet env fuel _ t t1 hl⟩
      · split at h
        · right
          cases h
          exact ⟨6, 0xeeffffff, _, 6, rfl,
            extends_quietly_trans (channel_6_loop_quiet _ _ t) (extends_quietly_write _ _ _)⟩
        · left
          cases h
          rfl

theorem irq_active_iff (d : Nat) :
    irq_active d = true ↔
      d.testBit 15 = true ∨
        (d.testBit 23 = true ∧
          ∃ i, i < 7 ∧ d.testBit (16 + i) = true ∧ d.testBit (24 + i) = true) := by
  unfold irq_active
  rw [and_one_ne_zero, and_one_ne_zero]
  simp only [Bool.or_eq_true, Bool.and_eq_true, bne_iff_ne]
  rw [signal_iff]

/-- Setting further bits never turns the aggregate off. -/
theorem irq_active_or (d x : Nat) (h : irq_active d = true) : irq_active (d ||| x) = true := by
  rw [irq_active_iff] at h ⊢
  rcases h with h | ⟨h23, i, hi, h1, h2⟩
  · left
    simp [Nat.testBit_or, h]
  · right
    refine ⟨by simp [Nat.testBit_or, h23], i, hi, by simp [Nat.testBit_or, h1],
      by simp [Nat.testBit_or, h2]⟩

theorem at_most_one_irq_update (t0 : Trace) (s : dma_state_t) (t : Trace)
    (h : at_most_one_irq t0 (s, t)) : at_most_one_irq t0 (update_irq_active_flag s t) := by
  obtain ⟨ext, ht, hcase⟩ := h
  have ht2 : t = t0 ++ ext := ht
  rcases hcase with h0 | ⟨h1, hb, ha⟩
  · by_cases hr : irq_active s.dicr = true ∧ s.dicr.testBit 31 = false
    · refine ⟨ext ++ [BusEvent.irq 3], ?_, Or.inr ⟨?_, ?_, ?_⟩⟩
      · rw [update_irq_trace, if_pos hr, ht2, List.append_assoc]
      · rw [irq_count_append, h0]
        rfl
      · rw [update_irq_bit31]
        exact hr.1
      · rw [update_irq_active]
        exact hr.1
    · refine ⟨ext, ?_, Or.inl h0⟩
      rw [update_irq_trace, if_neg hr, ht2]
  · have hb2 : s.dicr.testBit 31 = true := hb
    have ha2 : irq_active s.dicr = true := ha
    have hr : ¬ (irq_active s.dicr = true ∧ s.dicr.testBit 31 = false) := by
      rintro ⟨_, hf⟩
      rw [hb2] at hf
      exact absurd hf (by decide)
    refine ⟨ext, ?_, Or.inr ⟨h1, ?_, ?_⟩⟩
    · rw [update_irq_trace, if_neg hr, ht2]
    · rw [update_irq_bit31]
      exact ha2
    · rw [update_irq_active]
      exact ha2

theorem at_most_one_irq_irq_channel (t0 : Trace) (s : dma_state_t) (t : Trace) (n : Nat)
    (h : at_most_one_irq t0 (s, t)) : at_most_one_irq t0 (dma.irq_channel s t n) := by
  unfold dma.irq_channel
  apply at_most_one_irq_update
  split
  · obtain ⟨ext, ht, hcase⟩ := h
    refine ⟨ext, ht, ?_⟩
    rcases hcase with h0 | ⟨h1, hb, ha⟩
    · exact Or.inl h0
    · have hb2 : s.dicr.testBit 31 = true := hb
      refine Or.inr ⟨h1, ?_, irq_active_or _ _ ha⟩
      show (s.dicr ||| 1 <<< (n + 24)).testBit 31 = true
      rw [Nat.testBit_or, hb2]
      rfl
  · exact h

theorem at_most_one_irq_transfer_done (t0 : Trace) (s : dma_state_t) (t t1 : Trace)
    (c : Fin 7) (keep k : Nat) (h : at_most_one_irq t0 (s, t)) (hq : extends_quietly t t1) :
    at_most_one_irq t0 (transfer_done s c keep t1 k) := by
  unfold transfer_done
  apply at_most_one_irq_irq_channel
  obtain ⟨ext, ht, hcase⟩ := h
  obtain ⟨e, rfl, he⟩ := hq
  have ht2 : t = t0 ++ ext := ht
  refine ⟨ext ++ e, ?_, ?_⟩
  · show t ++ e = t0 ++ (ext ++ e)
    rw [ht2, List.append_assoc]
  · rw [irq_count_append, he, Nat.add_zero]
    exact hcase

theorem at_most_one_irq_run_channel (t0 : Trace) (env : Env) (fuel : Nat) (s : dma_state_t)
    (t : Trace) (n : Nat) (r : dma_state_t × Trace) (h0 : at_most_one_irq t0 (s, t))
    (h : dma.run_channel env fuel s t n = some r) : at_most_one_irq t0 r := by
  rcases run_channel_cases_quiet env fuel s t n r h with rfl | ⟨c, keep, t1, k, rfl, hq⟩
  · exact h0
  · exact at_most_one_irq_transfer_done t0 s t t1 c keep k h0 hq

theorem at_most_one_irq_start (s : dma_state_t) (t : Trace) : at_most_one_irq t (s, t) :=
  ⟨[], by simp, Or.inl rfl⟩

theorem at_most_one_irq_store (s : dma_state_t) (t : Trace) (address data : Nat) :
    at_most_one_irq t (dma.io_write.store s t address data) := by
  unfold dma.io_write.store
  by_cases h7 : get_channel_index address = 7
  · simp only [h7, if_true]
    split
    · exact at_most_one_irq_start _ t
    · exact at_most_one_irq_update t _ t (at_most_one_irq_start _ t)
    · exact at_most_one_irq_start _ t
  · simp only [h7, if_false]
    split <;> exact at_most_one_irq_start _ t

/-- C17 (at most one interrupt per register write): for every controller
state, consistent or not, every address and every data value, if `io_write`
returns then the events it added to the trace contain at most one interrupt
request. -/
theorem io_write_at_most_one_irq (env : Env) (fuel : Nat) (s : dma_state_t) (t : Trace)
    (width address data : Nat) (r : dma_state_t × Trace)
    (h : dma.io_write env fuel s t width address data = some r) :
    ∃ ext, r.2 = t ++ ext ∧ irq_count ext ≤ 1 := by
  rw [io_write_eq] at h
  have hj : at_most_one_irq t r :=
    main_induct (at_most_one_irq t) env fuel
      (fun s0 t0 n q hq hrun => at_most_one_irq_run_channel t env fuel s0 t0 n q hq hrun)
      _ _ r (at_most_one_irq_store s t address data) h
  obtain ⟨ext, hext, hcase⟩ := hj
  refine ⟨ext, hext, ?_⟩
  rcases hcase with h0 | ⟨h1, _⟩
  · omega
  · omega

/-- C17 at a concrete input: channels 6 and 2 are both enabled and hold start
patterns, bit 31 is set although nothing is pending, and the write sets the
master enable and all mask bits; both transfers complete inside the write and
the line is raised once. -/
theorem io_write_at_most_one_irq_witness :
    dma.io_write (fun _ _ => 0) 0
        (example_state 0x08000800 0x80000000 ⟨0x100, 0x00010001, 0x01000200⟩
          ⟨0x1000, 1, 0x11000002⟩) [] 4 0x1f8010f4 0x00ff0000 =
      some ((dma.io_write (fun _ _ => 0) 0
        (example_state 0x08000800 0x80000000 ⟨0x100, 0x00010001, 0x01000200⟩
          ⟨0x1000, 1, 0x11000002⟩) [] 4 0x1f8010f4 0x00ff0000).get (by decide)) ∧
    (∃ ext, ((dma.io_write (fun _ _ => 0) 0
        (example_state 0x08000800 0x80000000 ⟨0x100, 0x00010001, 0x01000200⟩
          ⟨0x1000, 1, 0x11000002⟩) [] 4 0x1f8010f4 0x00ff0000).get (by decide)).2 = [] ++ ext ∧
      irq_count ext ≤ 1) ∧
    (dma.io_write (fun _ _ => 0) 0
        (example_state 0x08000800 0x80000000 ⟨0x100, 0x00010001, 0x01000200⟩
          ⟨0x1000, 1, 0x11000002⟩) [] 4 0x1f8010f4 0x00ff0000).map (fun r => r.2) =
      some [BusEvent.write 0x1000 0x00ffffff, BusEvent.irq 3,
        BusEvent.read 0x1f801810 0, BusEvent.write 0x100 0] :=
  ⟨(Option.some_get _).symm,
   io_write_at_most_one_irq (fun _ _ => 0) 0
    (example_state 0x08000800 0x80000000 ⟨0x100, 0x00010001, 0x01000200⟩
      ⟨0x1000, 1, 0x11000002⟩) [] 4 0x1f8010f4 0x00ff0000 _ (Option.some_get _).symm,
   by decide⟩

/-! ## An ordering table is an empty chain -/

theorem flat_foldl_no_write (a : Nat) (u : Trace)
    (h : ∀ e ∈ u, ∀ w, e ≠ BusEvent.write a w) :
    ∀ v : Nat, u.foldl (fun v e => match e with
      | BusEvent.write b w => if b = a then w else v
      | _ => v) v = v := by
  induction u with
  | nil => intro v; rfl
  | cons e u ih =>
    intro v
    rw [List.foldl_cons]
    have hu : ∀ e2 ∈ u, ∀ w, e2 ≠ BusEvent.write a w :=
      fun e2 he2 => h e2 (List.mem_cons_of_mem _ he2)
    have he := h e (List.mem_cons_self _ _)
    cases e with
    | read b w => exact ih hu v
    | irq k => exact ih hu v
    | write b w =>
      have hb : ¬ (b = a) := by
        intro hba
        exact he w (by rw [hba])
      simp only [hb, if_false]
      exact ih hu v

theorem flat_env_append_no_write (m0 : Nat → Nat) (t u : Trace) (a : Nat)
    (h : ∀ e ∈ u, ∀ w, e ≠ BusEvent.write a w) :
    flat_env m0 (t ++ u) a = flat_env m0 t a := by
  unfold flat_env
  rw [List.foldl_append]
  exact flat_foldl_no_write a u h _

theorem flat_env_last_write (m0 : Nat → Nat) (t u : Trace) (a w : Nat)
    (h : ∀ e ∈ u, ∀ v, e ≠ BusEvent.write a v) :
    flat_env m0 (t ++ BusEvent.write a w :: u) a = w := by
  have e1 : t ++ BusEvent.write a w :: u = (t ++ [BusEvent.write a w]) ++ u := by simp
  rw [e1, flat_env_append_no_write m0 _ u a h]
  unfold flat_env
  rw [List.foldl_append]
  simp

theorem keeps_memory_no_write (u : Trace) (hu : u.all keeps_memory = true) (a : Nat)
    (ha : a ≠ 0x1f801810) : ∀ e ∈ u, ∀ w, e ≠ BusEvent.write a w := by
  intro e he w hew
  have hk := List.all_eq_true.1 hu e he
  rw [hew] at hk
  simp only [keeps_memory, decide_eq_true_eq] at hk
  exact ha hk

/-- A flat memory answers reads from its current content as long as only the
port is written. -/
theorem flat_env_reads_memory (m0 : Nat → Nat) (t : Trace) :
    reads_memory (flat_env m0) t (fun a => flat_env m0 t a % 2 ^ 32) := by
  intro ext a hext ha
  show flat_env m0 (t ++ ext) a % 2 ^ 32 = flat_env m0 t a % 2 ^ 32
  rw [flat_env_append_no_write m0 t ext a (keeps_memory_no_write ext hext a ha)]

theorem table_links_mem (B k : Nat) :
    ∀ e ∈ table_links B k,
      ∃ j, j < k ∧ e = BusEvent.write (sub32 B (4 * j)) (sub32 B (4 * (j + 1))) := by
  induction k with
  | zero => intro e he; simp [table_links] at he
  | succ k ih =>
    intro e he
    simp only [table_links, List.mem_append, List.mem_singleton] at he
    rcases he with he | he
    · obtain ⟨j, hj, hej⟩ := ih e he
      exact ⟨j, by omega, hej⟩
    · exact ⟨k, by omega, he⟩

theorem irq_tail_no_write (q : Trace) (hq : q = [] ∨ q = [BusEvent.irq 3]) (a : Nat) :
    ∀ e ∈ q, ∀ w, e ≠ BusEvent.write a w := by
  intro e he w hew
  rcases hq with rfl | rfl
  · simp at he
  · simp only [List.mem_singleton] at he
    rw [he] at hew
    exact absurd hew (by simp)

/-- After the table is built, entry `i` (not the last) holds the address of
entry `i + 1`. -/
theorem table_memory_link (m0 : Nat → Nat) (t q : Trace) (A n i : Nat)
    (hA : A < 0x1000000) (hn : 4 * (n - 1) ≤ A) (hq : q = [] ∨ q = [BusEvent.irq 3])
    (hi : i + 1 < n) :
    flat_env m0 (t ++ table_spec A n ++ q) (A - 4 * i) = A - 4 * (i + 1) := by
  have e1 : sub32 A (4 * i) = A - 4 * i := by unfold sub32; omega
  have e2 : sub32 A (4 * (i + 1)) = A - 4 * (i + 1) := by unfold sub32; omega
  have hd : n - 1 = (i + 1) + (n - 1 - (i + 1)) := by omega
  have hsplit : table_links A (n - 1) =
      table_links A i ++ [BusEvent.write (sub32 A (4 * i)) (sub32 A (4 * (i + 1)))] ++
        table_links (sub32 A (4 * (i + 1))) (n - 1 - (i + 1)) := by
    conv_lhs => rw [hd]
    rw [table_links_add]
    rfl
  have htrace : t ++ table_spec A n ++ q =
      (t ++ table_links A i) ++
        BusEvent.write (sub32 A (4 * i)) (sub32 A (4 * (i + 1))) ::
          (table_links (sub32 A (4 * (i + 1))) (n - 1 - (i + 1)) ++
            [BusEvent.write (sub32 A (4 * (n - 1))) 0x00ffffff] ++ q) := by
    unfold table_spec
    rw [hsplit]
    simp [List.append_assoc]
  rw [htrace, ← e1, ← e2]
  apply flat_env_last_write
  intro e he v hev
  simp only [List.mem_append, List.mem_singleton] at he
  rcases he with (he | he) | he
  · obtain ⟨j, hj, hej⟩ := table_links_mem _ _ e he
    rw [hej] at hev
    injection hev with hadr _
    unfold sub32 at hadr
    omega
  · rw [he] at hev
    injection hev with hadr _
    unfold sub32 at hadr
    omega
  · exact irq_tail_no_write q hq _ e he v hev

/-- After the table is built, its last entry holds the terminator. -/
theorem table_memory_end (m0 : Nat → Nat) (t q : Trace) (A n : Nat)
    (hA : A < 0x1000000) (hn : 4 * (n - 1) ≤ A) (hq : q = [] ∨ q = [BusEvent.irq 3]) :
    flat_env m0 (t ++ table_spec A n ++ q) (A - 4 * (n - 1)) = 0x00ffffff := by
  have e1 : sub32 A (4 * (n - 1)) = A - 4 * (n - 1) := by unfold sub32; omega
  have htrace : t ++ table_spec A n ++ q =
      (t ++ table_links A (n - 1)) ++
        BusEvent.write (sub32 A (4 * (n - 1))) 0x00ffffff :: q := by
    unfold table_spec
    simp [List.append_assoc]
  rw [htrace, ← e1]
  exact flat_env_last_write m0 _ q _ _ (irq_tail_no_write q hq _)

theorem down_chain_length (k : Nat) : ∀ B, (down_chain k B).length = k := by
  induction k with
  | zero => intro B; rfl
  | succ k ih => intro B; simp [down_chain, ih]

/-- In a memory holding the table, the entries from `i` on form a chain to the
sentinel, and the transfer over them only reads the headers. -/
theorem table_chain (m : Nat → Nat) (A n : Nat) (hA : A < 0x1000000)
    (hn : 4 * (n - 1) ≤ A) (hne : A ≠ 0xffffff)
    (hlink : ∀ i, i + 1 < n → m (A - 4 * i) = A - 4 * (i + 1))
    (hend : m (A - 4 * (n - 1)) = 0x00ffffff) (k : Nat) :
    ∀ i, 1 ≤ k → i + k = n →
      Chain m (A - 4 * i) (down_chain k (A - 4 * i)) ∧
        chain_events m (down_chain k (A - 4 * i)) =
          (down_chain k (A - 4 * i)).map fun a => BusEvent.read a (m a) := by
  induction k with
  | zero => intro i h1 _; omega
  | succ k ih =>
    intro i _ hik
    have hB : A - 4 * i ≠ 0xffffff := by omega
    by_cases hk : k = 0
    · subst hk
      have hi : i = n - 1 := by omega
      have hm : m (A - 4 * i) = 0x00ffffff := by rw [hi]; exact hend
      refine ⟨?_, ?_⟩
      · refine Chain.next _ [] hB ?_
        rw [hm]
        exact Chain.done
      · simp only [down_chain, chain_events, List.map_cons, List.map_nil, hm]
        rfl
    · have hm : m (A - 4 * i) = A - 4 * (i + 1) := hlink i (by omega)
      have hsub : A - 4 * i - 4 = A - 4 * (i + 1) := by omega
      obtain ⟨hc, he⟩ := ih (i + 1) (by omega) (by omega)
      have hshift : (A - 4 * (i + 1)) >>> 24 = 0 := by
        rw [Nat.shiftRight_eq_div_pow]
        exact Nat.div_eq_of_lt (by omega)
      refine ⟨?_, ?_⟩
      · simp only [down_chain, hsub]
        refine Chain.next _ _ hB ?_
        rw [hm, Nat.mod_eq_of_lt (by omega)]
        exact hc
      · simp only [down_chain, hsub, chain_events, List.map_cons, hm, hshift, packet_events,
          List.nil_append, he]

theorem port_writes_reads (m : Nat → Nat) (hs : List Nat) :
    port_writes (hs.map fun a => BusEvent.read a (m a)) = [] := by
  induction hs with
  | nil => rfl
  | cons a hs ih =>
    simp only [List.map_cons]
    show port_writes ([BusEvent.read a (m a)] ++ hs.map fun a => BusEvent.read a (m a)) = []
    rw [port_writes_append, ih]
    rfl

/-- C20 (an ordering table built by channel 6 is a well-formed empty chain for
channel 2): on a flat word-addressed memory, let channel 6 hold the start
pattern, a 24-bit address `A` and a count `n` with `4 * (n - 1) <= A`.
`run_channel(6)` returns; and after it, for any state whose channel 2 holds
`control = 0x01000401` and the address `A`, `run_channel(2)` returns (with fuel
for `n` loop iterations), the bus accesses it adds are at most `n` reads and
no write, so no word goes to the port, and its control register is left at
0x00000401. -/
theorem table_is_empty_chain (m0 : Nat → Nat) (fuel : Nat) (s s2 : dma_state_t) (t : Trace)
    (h6 : (s.channels 6).control = 0x11000002)
    (hA : (s.channels 6).address < 0x1000000)
    (hn : 4 * (table_count (s.channels 6).counter - 1) ≤ (s.channels 6).address)
    (hc2 : (s2.channels 2).control = 0x01000401)
    (ha2 : (s2.channels 2).address = (s.channels 6).address)
    (hfuel : table_count (s.channels 6).counter ≤ fuel) :
    ∃ (s3 : dma_state_t) (ext q : Trace),
      dma.run_channel (flat_env m0) fuel s t 6 = some (run_channel_6 s t) ∧
      dma.run_channel (flat_env m0) fuel s2 (run_channel_6 s t).2 2 =
        some (s3, (run_channel_6 s t).2 ++ ext ++ q) ∧
      (q = [] ∨ q = [BusEvent.irq 3]) ∧
      ext.length ≤ table_count (s.channels 6).counter ∧
      (∀ e ∈ ext, ∃ a v, e = BusEvent.read a v) ∧
      port_writes ext = [] ∧
      (s3.channels 2).control = 0x00000401 := by
  obtain ⟨q6, hq6, hq6c⟩ := transfer_done_trace s 6 0xeeffffff
    (t ++ table_spec (s.channels 6).address (table_count (s.channels 6).counter)) 6
  have ht6 : (run_channel_6 s t).2 =
      t ++ table_spec (s.channels 6).address (table_count (s.channels 6).counter) ++ q6 := by
    rw [run_channel_6_eq s t (by omega)]
    exact hq6
  have hmem := flat_env_reads_memory m0 (run_channel_6 s t).2
  have hchain : ∃ hs : List Nat,
      Chain (fun a => flat_env m0 (run_channel_6 s t).2 a % 2 ^ 32) (s.channels 6).address hs ∧
      hs.length ≤ table_count (s.channels 6).counter ∧
      chain_events (fun a => flat_env m0 (run_channel_6 s t).2 a % 2 ^ 32) hs =
        hs.map fun a => BusEvent.read a (flat_env m0 (run_channel_6 s t).2 a % 2 ^ 32) := by
    by_cases hs : (s.channels 6).address = 0xffffff
    · refine ⟨[], ?_, Nat.zero_le _, rfl⟩
      rw [hs]
      exact Chain.done
    · have hn1 : 1 ≤ table_count (s.channels 6).counter := by
        unfold table_count; split <;> omega
      have h := table_chain (fun a => flat_env m0 (run_channel_6 s t).2 a % 2 ^ 32)
        (s.channels 6).address (table_count (s.channels 6).counter) hA hn hs
        (by
          intro i hi
          show flat_env m0 (run_channel_6 s t).2 _ % 2 ^ 32 = _
          rw [ht6, table_memory_link m0 t q6 _ _ i hA hn hq6c hi]
          exact Nat.mod_eq_of_lt (by omega))
        (by
          show flat_env m0 (run_channel_6 s t).2 _ % 2 ^ 32 = _
          rw [ht6, table_memory_end m0 t q6 _ _ hA hn hq6c]
          rfl)
        (table_count (s.channels 6).counter) 0 hn1 (by omega)
      simp only [Nat.mul_zero, Nat.sub_zero] at h
      exact ⟨_, h.1, by rw [down_chain_length], h.2⟩
  obtain ⟨hs, hch, hlen, hev⟩ := hchain
  have hl := list_loop (flat_env m0) (run_channel_6 s t).2 _ hmem _ hs hch fuel [] hA
    (by omega) rfl
  rw [List.append_nil] at hl
  obtain ⟨q, hq, hqc⟩ := transfer_done_trace s2 2 0xfeffffff
    ((run_channel_6 s t).2 ++
      chain_events (fun a => flat_env m0 (run_channel_6 s t).2 a % 2 ^ 32) hs) 2
  have hrun : dma.run_channel (flat_env m0) fuel s2 (run_channel_6 s t).2 2 =
      some (transfer_done s2 2 0xfeffffff ((run_channel_6 s t).2 ++
        chain_events (fun a => flat_env m0 (run_channel_6 s t).2 a % 2 ^ 32) hs) 2) := by
    unfold dma.run_channel
    have h1 : ¬ ((0x01000401 : Nat) = 0x01000200) := by decide
    have h2 : ¬ ((0x01000401 : Nat) = 0x01000201) := by decide
    simp only [hc2, h1, h2, and_false, if_false, and_self, if_true]
    unfold run_channel_2_list
    rw [ha2, hl]
    rfl
  refine ⟨(transfer_done s2 2 0xfeffffff ((run_channel_6 s t).2 ++
      chain_events (fun a => flat_env m0 (run_channel_6 s t).2 a % 2 ^ 32) hs) 2).1,
    chain_events (fun a => flat_env m0 (run_channel_6 s t).2 a % 2 ^ 32) hs, q,
    run_channel_6_of_pattern _ _ s t h6, ?_, hqc, ?_, ?_, ?_, ?_⟩
  · rw [hrun, ← hq]
  · rw [hev, List.length_map]
    exact hlen
  · intro e he
    rw [hev] at he
    obtain ⟨a, _, rfl⟩ := List.mem_map.1 he
    exact ⟨a, _, rfl⟩
  · rw [hev]
    exact port_writes_reads _ hs
  · rw [transfer_done_control_self, hc2]
    rfl

/-- C20 at a concrete input: the table of four entries built down from 0x1000;
the list transfer then reads the four headers and sends nothing to the port. -/
theorem table_is_empty_chain_witness :
    (∃ (s3 : dma_state_t) (ext q : Trace),
      dma.run_channel (flat_env fun _ => 0) 4
          (example_state 0x08000800 0 ⟨0x1000, 0, 0x01000401⟩ ⟨0x1000, 4, 0x11000002⟩) [] 6 =
        some (run_channel_6
          (example_state 0x08000800 0 ⟨0x1000, 0, 0x01000401⟩ ⟨0x1000, 4, 0x11000002⟩) []) ∧
      dma.run_channel (flat_env fun _ => 0) 4
          (example_state 0x08000800 0 ⟨0x1000, 0, 0x01000401⟩ ⟨0x1000, 4, 0x11000002⟩)
          (run_channel_6
            (example_state 0x08000800 0 ⟨0x1000, 0, 0x01000401⟩ ⟨0x1000, 4, 0x11000002⟩) []).2
          2 =
        some (s3, (run_channel_6
          (example_state 0x08000800 0 ⟨0x1000, 0, 0x01000401⟩ ⟨0x1000, 4, 0x11000002⟩) []).2 ++
          ext ++ q) ∧
      (q = [] ∨ q = [BusEvent.irq 3]) ∧
      ext.length ≤ 4 ∧
      (∀ e ∈ ext, ∃ a v, e = BusEvent.read a v) ∧
      port_writes ext = [] ∧
      (s3.channels 2).control = 0x00000401) ∧
    (dma.run_channel (flat_env fun _ => 0) 4
        (example_state 0x08000800 0 ⟨0x1000, 0, 0x01000401⟩ ⟨0x1000, 4, 0x11000002⟩)
        (run_channel_6
          (example_state 0x08000800 0 ⟨0x1000, 0, 0x01000401⟩ ⟨0x1000, 4, 0x11000002⟩) []).2
        2).map (fun r => r.2) =
      some [BusEvent.write 0x1000 0x00000ffc, BusEvent.write 0x0ffc 0x00000ff8,
        BusEvent.write 0x0ff8 0x00000ff4, BusEvent.write 0x0ff4 0x00ffffff,
        BusEvent.read 0x1000 0x00000ffc, BusEvent.read 0x0ffc 0x00000ff8,
        BusEvent.read 0x0ff8 0x00000ff4, BusEvent.read 0x0ff4 0x00ffffff] :=
  ⟨table_is_empty_chain (fun _ => 0) 4
    (example_state 0x08000800 0 ⟨0x1000, 0, 0x01000401⟩ ⟨0x1000, 4, 0x11000002⟩)
    (example_state 0x08000800 0 ⟨0x1000, 0, 0x01000401⟩ ⟨0x1000, 4, 0x11000002⟩) []
    (by decide) (by decide) (by decide) (by decide) (by decide) (by decide),
   by decide⟩

/-! ## Interrupt acknowledge -/

theorem recognized_2_iff (s : dma_state_t) :
    recognized s 2 ↔
      ((s.channels 2).control = 0x01000200 ∨ (s.channels 2).control = 0x01000201 ∨
        (s.channels 2).control = 0x01000401) := by
  unfold recognized
  constructor
  · rintro (⟨_, h⟩ | ⟨h, _⟩)
    · exact h
    · omega
  · intro h
    exact Or.inl ⟨rfl, h⟩

/-- What a gate of the scheduler does to the bits below 31 of `dicr`: it sets
bit `n + 24` when it dispatches a transfer and bit `n + 16` is set, and nothing
else. -/
theorem gate_dicr_bit (env : Env) (fuel bit n : Nat) (r r2 : dma_state_t × Trace)
    (h : dma.main.gate (dma.run_channel env fuel) bit n r = some r2) (i : Nat) (hi : i < 31) :
    r2.1.dicr.testBit i =
      (r.1.dicr.testBit i ||
        (decide (i = n + 24) && decide (r.1.dpcr &&& bit ≠ 0 ∧ recognized r.1 n) &&
          r.1.dicr.testBit (n + 16))) := by
  unfold dma.main.gate at h
  by_cases hb : r.1.dpcr &&& bit ≠ 0
  · rw [if_pos hb] at h
    rcases run_channel_cases env fuel r.1 r.2 n r2 h with
      ⟨hnr, rfl⟩ | ⟨hn, hrec, t1, rfl⟩ | ⟨hn, hrec, t1, rfl⟩
    · rw [decide_eq_false (fun hh : r.1.dpcr &&& bit ≠ 0 ∧ recognized r.1 n => hnr hh.2)]
      simp
    · subst hn
      rw [transfer_done_bit _ _ _ _ _ _ hi,
        decide_eq_true (show r.1.dpcr &&& bit ≠ 0 ∧ recognized r.1 2 from ⟨hb, hrec⟩)]
      simp
    · subst hn
      rw [transfer_done_bit _ _ _ _ _ _ hi,
        decide_eq_true (show r.1.dpcr &&& bit ≠ 0 ∧ recognized r.1 6 from ⟨hb, hrec⟩)]
      simp
  · rw [if_neg hb] at h
    cases h
    rw [decide_eq_false (fun hh : r.1.dpcr &&& bit ≠ 0 ∧ recognized r.1 n => hb hh.1)]
    simp

theorem store_dicr_pending_bit (s : dma_state_t) (t : Trace) (address w : Nat)
    (hc : get_channel_index address = 7) (hr : get_register_index address = 1) (i : Nat)
    (h24 : 24 ≤ i) (h30 : i ≤ 30) :
    (dma.io_write.store s t address w).1.dicr.testBit i = (s.dicr.testBit i && !w.testBit i) := by
  have h := congrArg (fun x => Nat.testBit x i) (store_dicr_pending s t address w hc hr)
  have hi : (24 ≤ i ∧ i < 31) := ⟨h24, by omega⟩
  have h3 : i < 32 := by omega
  simp only [Nat.testBit_and, Nat.testBit_xor, testBit_0x7f000000, testBit_0xffffffff, hi,
    h3, decide_True, Bool.and_true, and_self] at h
  rw [h]
  cases w.testBit i <;> simp

/-- The exact pending flags after a returning write to the interrupt control
register, in any state: the acknowledged previous flags, together with the
completion flags of the transfers the write dispatched. -/
theorem io_write_dicr_pending_bit (env : Env) (fuel : Nat) (s : dma_state_t) (t : Trace)
    (width address w : Nat) (r : dma_state_t × Trace)
    (hc : get_channel_index address = 7) (hr : get_register_index address = 1)
    (h : dma.io_write env fuel s t width address w = some r) (i : Nat)
    (h24 : 24 ≤ i) (h30 : i ≤ 30) :
    r.1.dicr.testBit i =
      ((s.dicr.testBit i && !w.testBit i) ||
        (decide (i = 30) && decide (s.dpcr.testBit 27 = true ∧ recognized s 6) &&
          w.testBit 22) ||
        (decide (i = 26) && decide (s.dpcr.testBit 11 = true ∧ recognized s 2) &&
          w.testBit 18)) := by
  rw [io_write_eq, main_eq] at h
  obtain ⟨r6, g6, g2⟩ := Option.bind_eq_some.1 h
  have hst := store_dicr s t address w hc hr
  have hd1 : (dma.io_write.store s t address w).1.dpcr = s.dpcr := by
    rw [hst, update_irq_dpcr]
  have hch1 : (dma.io_write.store s t address w).1.channels = s.channels := by
    rw [hst, update_irq_channels]
  have hp1 := store_dicr_pending_bit s t address w hc hr i h24 h30
  have hm22 : (dma.io_write.store s t address w).1.dicr.testBit 22 = w.testBit 22 := by
    rw [store_dicr_low s t address w hc hr 22 (by decide),
      show Nat.testBit 0x00ff803f 22 = true from by decide, Bool.and_true]
  have hm18 : (dma.io_write.store s t address w).1.dicr.testBit 18 = w.testBit 18 := by
    rw [store_dicr_low s t address w hc hr 18 (by decide),
      show Nat.testBit 0x00ff803f 18 = true from by decide, Bool.and_true]
  have b6 := gate_dicr_bit env fuel _ 6 _ r6 g6 i (by omega)
  have b6l := gate_dicr_bit env fuel _ 6 _ r6 g6 18 (by decide)
  have b2 := gate_dicr_bit env fuel _ 2 _ r g2 i (by omega)
  have hd6 : r6.1.dpcr = s.dpcr := by
    rw [gate_dpcr env fuel _ _ _ _ g6]
    exact hd1
  have hc62 : (r6.1.channels 2).control = (s.channels 2).control := by
    rw [gate_control_other env fuel _ _ _ _ g6 2 (by decide)]
    show ((dma.io_write.store s t address w).1.channels 2).control = _
    rw [hch1]
  have e6 : ((dma.io_write.store s t address w).1.dpcr &&& 0x08000000 ≠ 0 ∧
      recognized (dma.io_write.store s t address w).1 6) ↔
      (s.dpcr.testBit 27 = true ∧ recognized s 6) := by
    rw [hd1, enable_bit_6]
    unfold recognized
    rw [hch1]
  have e2 : (r6.1.dpcr &&& 0x00000800 ≠ 0 ∧ recognized r6.1 2) ↔
      (s.dpcr.testBit 11 = true ∧ recognized s 2) := by
    rw [hd6, enable_bit_2, recognized_2_iff, recognized_2_iff, hc62]
  have h18 : r6.1.dicr.testBit 18 = w.testBit 18 := by
    rw [b6l]
    show ((dma.io_write.store s t address w).1.dicr.testBit 18 || _) = _
    rw [hm18]
    simp
  have s6 : r6.1.dicr.testBit i =
      ((s.dicr.testBit i && !w.testBit i) ||
        (decide (i = 30) && decide (s.dpcr.testBit 27 = true ∧ recognized s 6) &&
          w.testBit 22)) := by
    rw [b6]
    show ((dma.io_write.store s t address w).1.dicr.testBit i ||
      (decide (i = 30) && decide ((dma.io_write.store s t address w).1.dpcr &&& 0x08000000 ≠ 0 ∧
        recognized (dma.io_write.store s t address w).1 6) &&
        (dma.io_write.store s t address w).1.dicr.testBit 22)) = _
    rw [hp1, hm22, decide_eq_decide.2 e6]
  rw [b2, s6]
  show (_ || (decide (i = 26) && decide (r6.1.dpcr &&& 0x00000800 ≠ 0 ∧ recognized r6.1 2) &&
    r6.1.dicr.testBit 18)) = _
  rw [h18, decide_eq_decide.2 e2]

/-- C4 (interrupt acknowledge): in every controller state reachable from reset
by `io_write` calls (and in any state in which no enabled channel holds a
recognized start pattern), an `io_write` of `w` to the interrupt control
register (channel-7 block, register 1) returns, and afterwards the pending
bits 24..30 of `dicr` are the previous bits 24..30 AND NOT (`w` AND
0x7f000000), whatever the other bits of `w`: a flag is set afterwards exactly
when it was set before and `w` has a 0 there.  For an arbitrary value of the
state structure, a returning write leaves these bits together with the
completion flags of the transfers it dispatched. -/
theorem io_write_ack (env : Env) (fuel : Nat) (s : dma_state_t) (t : Trace)
    (width address w : Nat)
    (hc : get_channel_index address = 7) (hr : get_register_index address = 1) :
    (Reachable s ∨ quiescent s →
      ∃ r, dma.io_write env fuel s t width address w = some r ∧
        r.1.dicr &&& 0x7f000000 =
          (s.dicr &&& 0x7f000000) &&& (0xffffffff ^^^ (w &&& 0x7f000000)) ∧
        ∀ i, 24 ≤ i → i ≤ 30 → r.1.dicr.testBit i = (s.dicr.testBit i && !w.testBit i)) ∧
      (∀ r, dma.io_write env fuel s t width address w = some r →
        ∀ i, 24 ≤ i → i ≤ 30 →
          r.1.dicr.testBit i =
            ((s.dicr.testBit i && !w.testBit i) ||
              (decide (i = 30) && decide (s.dpcr.testBit 27 = true ∧ recognized s 6) &&
                w.testBit 22) ||
              (decide (i = 26) && decide (s.dpcr.testBit 11 = true ∧ recognized s 2) &&
                w.testBit 18))) := by
  refine ⟨?_, fun r h i h24 h30 =>
    io_write_dicr_pending_bit env fuel s t width address w r hc hr h i h24 h30⟩
  intro hs
  have hq : quiescent s := hs.elim (reachable_quiescent s) id
  refine ⟨dma.io_write.store s t address w, ?_, store_dicr_pending s t address w hc hr,
    fun i h24 h30 => store_dicr_pending_bit s t address w hc hr i h24 h30⟩
  rw [io_write_eq]
  exact main_of_quiescent env fuel _ _ (store_dicr_quiescent s t address w hc hr hq)

/-- C4 at a concrete input: the state reached from reset by enabling the masks
of channels 2 and 6, enabling both channels and running a one-word block read
and a one-entry table build has flags 26 and 30 pending; writing 0x04440000
acknowledges flag 26 and leaves flag 30. -/
theorem io_write_ack_witness :
    (Reachable (reached [(0x1f8010f4, 0x00440000), (0x1f8010f0, 0x08000800),
        (0x1f8010a4, 0x00010001), (0x1f8010a8, 0x01000200), (0x1f8010e4, 1),
        (0x1f8010e8, 0x11000002)]) ∨
      quiescent (reached [(0x1f8010f4, 0x00440000), (0x1f8010f0, 0x08000800),
        (0x1f8010a4, 0x00010001), (0x1f8010a8, 0x01000200), (0x1f8010e4, 1),
        (0x1f8010e8, 0x11000002)])) ∧
    (∃ r, dma.io_write (fun _ _ => 0) 0
        (reached [(0x1f8010f4, 0x00440000), (0x1f8010f0, 0x08000800),
          (0x1f8010a4, 0x00010001), (0x1f8010a8, 0x01000200), (0x1f8010e4, 1),
          (0x1f8010e8, 0x11000002)]) [] 4 0x1f8010f4 0x04440000 = some r ∧
      r.1.dicr &&& 0x7f000000 =
        ((reached [(0x1f8010f4, 0x00440000), (0x1f8010f0, 0x08000800),
          (0x1f8010a4, 0x00010001), (0x1f8010a8, 0x01000200), (0x1f8010e4, 1),
          (0x1f8010e8, 0x11000002)]).dicr &&& 0x7f000000) &&&
          (0xffffffff ^^^ (0x04440000 &&& 0x7f000000)) ∧
      ∀ i, 24 ≤ i → i ≤ 30 → r.1.dicr.testBit i =
        ((reached [(0x1f8010f4, 0x00440000), (0x1f8010f0, 0x08000800),
          (0x1f8010a4, 0x00010001), (0x1f8010a8, 0x01000200), (0x1f8010e4, 1),
          (0x1f8010e8, 0x11000002)]).dicr.testBit i && !Nat.testBit 0x04440000 i)) ∧
    (reached [(0x1f8010f4, 0x00440000), (0x1f8010f0, 0x08000800),
        (0x1f8010a4, 0x00010001), (0x1f8010a8, 0x01000200), (0x1f8010e4, 1),
        (0x1f8010e8, 0x11000002)]).dicr = 0x44440000 ∧
    (dma.io_write (fun _ _ => 0) 0
        (reached [(0x1f8010f4, 0x00440000), (0x1f8010f0, 0x08000800),
          (0x1f8010a4, 0x00010001), (0x1f8010a8, 0x01000200), (0x1f8010e4, 1),
          (0x1f8010e8, 0x11000002)]) [] 4 0x1f8010f4 0x04440000).map
      (fun r => r.1.dicr) = some 0x40440000 :=
  ⟨Or.inl (reached_reachable _),
   (io_write_ack (fun _ _ => 0) 0 _ [] 4 0x1f8010f4 0x04440000 (by decide) (by decide)).1
    (Or.inl (reached_reachable _)),
   by decide, by decide⟩
